import Mathlib

/-!
# DreamChess SDL/OpenGL front-end: widget toolkit, dialog stack and input

A shallow embedding of the widget and dialog code of `src/ui_sdlgl.c`, of its
conversion and dispatch of platform events (`convert_event`, `GetMove`,
`poll_move`) and of `power_of_two`.

* C `int` values are `Int`. Arithmetic on counters and indices is exact (they
  stay far from the limits of `int`). The sizes and coordinates of widgets are
  computed as the program computes them, in 32 bits with wrap-around
  (`wrap_int`). In `power_of_two` a shift beyond the largest `int` has no
  defined result. Pointers and function pointers are `Nat`, with `0` standing
  for `NULL`.
* Constants and macros from headers that are not among the sources (the
  enumeration `ui_event_t`, the SDL constants, the macros of the board header)
  are parameters of the embedding.
* A render function is embedded as the list of the drawing calls and of the
  indirect `render` calls on children that it makes, in program order.
* A widget owns its children, so a widget tree is a value of `widget_t`; the
  constructor says which `render` / `input` / `destroy` functions the C
  structure carries, its arguments are the fields of the structure and of the
  per-variant data block.
* The global dialog arrays and counters are the fields of `globals`.
* Code that indexes an array outside its bounds, dereferences an invalid
  pointer or calls a `NULL` function pointer has no defined result: the
  embedding returns `none` there.
* Calls that leave the embedded code (`printf`, `free`, the registered
  callbacks) and the indirect calls through a widget's function pointers are
  recorded, in program order, in a list of `effect`s. What a registered
  callback does when it is called is not part of the embedded code.
-/

namespace DreamChess

/-! ## Events -/

/-- Numeric values of the enumerators of `ui_event_t`. The enumeration is
declared in a header that is not among the sources, so the values are taken as
a parameter of the embedding. -/
structure ui_event_codes where
  UI_EVENT_NONE : Int
  UI_EVENT_UP : Int
  UI_EVENT_DOWN : Int
  UI_EVENT_LEFT : Int
  UI_EVENT_RIGHT : Int
  UI_EVENT_ACTION : Int
  UI_EVENT_ESCAPE : Int
  UI_EVENT_BACKSPACE : Int
  UI_EVENT_SPACE : Int
  UI_EVENT_EXTRA1 : Int
  UI_EVENT_EXTRA2 : Int
  UI_EVENT_EXTRA3 : Int
  UI_EVENT_CHAR_a : Int
  UI_EVENT_CHAR_z : Int
  UI_EVENT_CHAR_A : Int
  UI_EVENT_CHAR_Z : Int

/-- One possible numbering of the enumerators, used to evaluate the embedding
on concrete inputs. -/
def sample_codes : ui_event_codes where
  UI_EVENT_NONE := 0
  UI_EVENT_UP := 1
  UI_EVENT_DOWN := 2
  UI_EVENT_LEFT := 3
  UI_EVENT_RIGHT := 4
  UI_EVENT_ACTION := 5
  UI_EVENT_ESCAPE := 6
  UI_EVENT_BACKSPACE := 7
  UI_EVENT_SPACE := 8
  UI_EVENT_EXTRA1 := 9
  UI_EVENT_EXTRA2 := 10
  UI_EVENT_EXTRA3 := 11
  UI_EVENT_CHAR_a := 12
  UI_EVENT_CHAR_z := 37
  UI_EVENT_CHAR_A := 38
  UI_EVENT_CHAR_Z := 63

/-! ## Widgets -/

/-- The fields `enabled`, `width` and `height` that every `widget_t` carries.
The `label` field is never read by the code and is left out. -/
structure widget_common where
  enabled : Int
  width : Int
  height : Int

/-- A widget together with the widgets it owns. Text and image widgets have
`input = NULL`; the alignment fractions of text and image widgets (floating
point, used by rendering only) are left out. A widget list is its `item`
sequence and its cursor `sel`; the C field `nr` is the length of `item`. -/
inductive widget_t where
  | w_text (c : widget_common) (label : List Int) (bouncy : Int)
  | w_image (c : widget_common) (image : Nat)
  | w_action (c : widget_common) (child : widget_t) (func : Nat) (func_data : Nat)
  | w_option (c : widget_common) (item : List widget_t) (sel : Int) (func : Nat)
      (func_data : Nat)
  | w_vbox (c : widget_common) (item : List widget_t) (sel : Int) (spacing : Int)
  | w_hbox (c : widget_common) (item : List widget_t) (sel : Int) (spacing : Int)
  | w_entry (c : widget_common) (text : List Int) (max_len : Int) (cursor_pos : Int)

/-- The common fields of a widget. -/
def widget_t.common : widget_t → widget_common
  | .w_text c _ _ => c
  | .w_image c _ => c
  | .w_action c _ _ _ => c
  | .w_option c _ _ _ _ => c
  | .w_vbox c _ _ _ => c
  | .w_hbox c _ _ _ => c
  | .w_entry c _ _ _ => c

/-- The field `widget->enabled`. -/
def widget_t.enabled (w : widget_t) : Int := w.common.enabled

/-- The field `widget->width`. -/
def widget_t.width (w : widget_t) : Int := w.common.width

/-- The field `widget->height`. -/
def widget_t.height (w : widget_t) : Int := w.common.height

/-- Whether `widget->input` is a non-`NULL` function pointer: the create
functions set it to `NULL` for text and image widgets only. -/
def widget_t.has_input : widget_t → Bool
  | .w_text _ _ _ => false
  | .w_image _ _ => false
  | _ => true

/-- The `widget_list_t` structure: cursor and items (`nr = item.length`). -/
structure widget_list_t where
  sel : Int
  item : List widget_t

/-- The field `list->nr`. -/
def widget_list_t.nr (list : widget_list_t) : Int := list.item.length

/-- Calls recorded while the embedded code runs. -/
inductive effect where
  /-- The call `printf(msg)`. -/
  | printf (msg : String)
  /-- The indirect call `w->input(w, event)`. -/
  | input (w : widget_t) (event : Int)
  /-- The callback call `f(w, func_data)`. -/
  | func (f : Nat) (w : widget_t) (func_data : Nat)
  /-- The indirect call `w->destroy(w)`. -/
  | destroy (w : widget_t)
  /-- The call `free(dialog)` at the end of `dialog_destroy`. -/
  | free_dialog (dialog : Nat)

/-- Whether an effect is a callback call. -/
def effect.is_func : effect → Bool
  | .func _ _ _ => true
  | _ => false

/-- Whether an effect is a call of a widget's input handler. -/
def effect.is_input : effect → Bool
  | .input _ _ => true
  | _ => false

/-! ## Arrays -/

/-- The read `a[i]`; outside the bounds of the array there is no result. -/
def array_get {α : Type} (a : List α) (i : Int) : Option α :=
  if 0 ≤ i then a.get? i.toNat else none

/-- The write `a[i] = v`; outside the bounds of the array there is no result. -/
def array_set {α : Type} (a : List α) (i : Int) (v : α) : Option (List α) :=
  if 0 ≤ i ∧ i.toNat < a.length then some (a.set i.toNat v) else none

/-! ## Integer arithmetic -/

/-- The value that the program stores in an `int` when the exact result of an
addition or subtraction is `x`: the 32-bit two's complement number that is
congruent to `x` modulo `2 ^ 32`. The sizes and coordinates of widgets are
computed with it; a result within the range of `int` is left as it is. -/
def wrap_int (x : Int) : Int := (x + 2147483648) % 4294967296 - 2147483648

/-- The number is a value of the type `int`: it lies between `-2 ^ 31` and
`2 ^ 31 - 1`. -/
def fits_int (x : Int) : Prop := -2147483648 ≤ x ∧ x ≤ 2147483647

/-! ## Widget lists -/

/-- The second conjunct of the loop condition of `widget_list_select_prev` and
`widget_list_select_next`:
`(enabled && !list->item[sel]->enabled) || (input && !list->item[sel]->input)`.
With both flags zero the item is not read. -/
def widget_list_skip (list : widget_list_t) (input enabled : Int) (sel : Int) :
    Option Bool :=
  if enabled = 0 ∧ input = 0 then some false
  else
    match array_get list.item sel with
    | none => none
    | some w =>
      some ((decide (enabled ≠ 0) && decide (w.enabled = 0))
        || (decide (input ≠ 0) && !w.has_input))

/-- The loop `while ((sel >= 0) && ...) sel--;` of `widget_list_select_prev`.
The first argument bounds the number of tests of the loop condition; the loop
tests it at most `sel + 2` times, `sel` being the index the loop starts from. -/
def widget_list_select_prev_loop (list : widget_list_t) (input enabled : Int) :
    Nat → Int → Option Int
  | 0, _ => none
  | n + 1, sel =>
    if 0 ≤ sel then
      match widget_list_skip list input enabled sel with
      | none => none
      | some true => widget_list_select_prev_loop list input enabled n (sel - 1)
      | some false => some sel
    else some sel

/-- The function `widget_list_select_prev`: the list afterwards and the
returned value. -/
def widget_list_select_prev (list : widget_list_t) (input enabled : Int) :
    Option (widget_list_t × Int) :=
  match widget_list_select_prev_loop list input enabled
      ((list.sel - 1 + 1).toNat + 1) (list.sel - 1) with
  | none => none
  | some sel =>
    if 0 ≤ sel then some ({ list with sel := sel }, 1)
    else some (list, 0)

/-- The loop `while ((sel < list->nr) && ...) sel++;` of
`widget_list_select_next`. The first argument bounds the number of tests of
the loop condition; the loop tests it at most `nr - sel + 1` times, `sel`
being the index the loop starts from. -/
def widget_list_select_next_loop (list : widget_list_t) (input enabled : Int) :
    Nat → Int → Option Int
  | 0, _ => none
  | n + 1, sel =>
    if sel < list.nr then
      match widget_list_skip list input enabled sel with
      | none => none
      | some true => widget_list_select_next_loop list input enabled n (sel + 1)
      | some false => some sel
    else some sel

/-- The function `widget_list_select_next`: the list afterwards and the
returned value. -/
def widget_list_select_next (list : widget_list_t) (input enabled : Int) :
    Option (widget_list_t × Int) :=
  match widget_list_select_next_loop list input enabled
      ((list.nr - (list.sel + 1)).toNat + 1) (list.sel + 1) with
  | none => none
  | some sel =>
    if sel < list.nr then some ({ list with sel := sel }, 1)
    else some (list, 0)

/-- The function `widget_list_append`. -/
def widget_list_append (list : widget_list_t) (widget : widget_t) : widget_list_t :=
  { list with item := list.item ++ [widget] }

mutual
/-- The call `widget->destroy(widget)`: the destroy function of the variant.
`w_action_destroy` destroys the child, the option and box variants run
`widget_list_destroy` over their list, all of them then free their own
storage. -/
def widget_destroy : widget_t → List effect
  | .w_text c label bouncy => [effect.destroy (.w_text c label bouncy)]
  | .w_image c image => [effect.destroy (.w_image c image)]
  | .w_action c child func func_data =>
    effect.destroy (.w_action c child func func_data) :: widget_destroy child
  | .w_option c item sel func func_data =>
    effect.destroy (.w_option c item sel func func_data) :: widget_list_destroy item
  | .w_vbox c item sel spacing =>
    effect.destroy (.w_vbox c item sel spacing) :: widget_list_destroy item
  | .w_hbox c item sel spacing =>
    effect.destroy (.w_hbox c item sel spacing) :: widget_list_destroy item
  | .w_entry c text max_len cursor_pos =>
    [effect.destroy (.w_entry c text max_len cursor_pos)]
/-- The loop of `widget_list_destroy`:
`for (i = 0; i < list->nr; i++) list->item[i]->destroy(list->item[i]);`. -/
def widget_list_destroy : List widget_t → List effect
  | [] => []
  | w :: ws => widget_destroy w ++ widget_list_destroy ws
end

/-! ## Input handlers -/

/-- The result of an input handler: the widget afterwards, the returned
value, and the effects of the call. -/
abbrev input_result := Option (widget_t × Int × List effect)

/-- The function `w_action_input`. -/
def w_action_input (K : ui_event_codes) : widget_t → Int → input_result
  | .w_action c child func func_data, event =>
    if event = K.UI_EVENT_ACTION then
      if func ≠ 0 then
        some (.w_action c child func func_data, 1,
          [effect.func func (.w_action c child func func_data) func_data])
      else some (.w_action c child func func_data, 1, [])
    else some (.w_action c child func func_data, 0, [])
  | _, _ => none

/-- The function `w_option_input`. -/
def w_option_input (K : ui_event_codes) : widget_t → Int → input_result
  | .w_option c item sel func func_data, event =>
    if sel = -1 then some (.w_option c item sel func func_data, 0, [])
    else if event = K.UI_EVENT_RIGHT then
      match widget_list_select_next ⟨sel, item⟩ 0 0 with
      | none => none
      | some (list, r) =>
        if r ≠ 0 ∧ func ≠ 0 then
          some (.w_option c list.item list.sel func func_data, 1,
            [effect.func func (.w_option c list.item list.sel func func_data) func_data])
        else some (.w_option c list.item list.sel func func_data, 1, [])
    else if event = K.UI_EVENT_LEFT then
      match widget_list_select_prev ⟨sel, item⟩ 0 0 with
      | none => none
      | some (list, r) =>
        if r ≠ 0 ∧ func ≠ 0 then
          some (.w_option c list.item list.sel func func_data, 1,
            [effect.func func (.w_option c list.item list.sel func func_data) func_data])
        else some (.w_option c list.item list.sel func func_data, 1, [])
    else some (.w_option c item sel func func_data, 0, [])
  | _, _ => none

/-- The function `strlen` on a character buffer: the index of the first zero;
a buffer without a zero has no defined length. -/
def strlen : List Int → Option Int
  | [] => none
  | ch :: rest =>
    if ch = 0 then some 0
    else
      match strlen rest with
      | none => none
      | some n => some (n + 1)

/-- The loop `for (i = data->cursor_pos; i <= len; i++) data->text[i - 1] = data->text[i];`
of `w_entry_input`, from index `i`, with `n` iterations left. -/
def w_entry_backspace_loop : Nat → Int → List Int → Option (List Int)
  | 0, _, text => some text
  | n + 1, i, text =>
    match array_get text i with
    | none => none
    | some ch =>
      match array_set text (i - 1) ch with
      | none => none
      | some text1 => w_entry_backspace_loop n (i + 1) text1

/-- The loop `for (i = len; i >= data->cursor_pos; i--) data->text[i + 1] = data->text[i];`
of `w_entry_input`, from index `i`, with `n` iterations left. -/
def w_entry_insert_loop : Nat → Int → List Int → Option (List Int)
  | 0, _, text => some text
  | n + 1, i, text =>
    match array_get text i with
    | none => none
    | some ch =>
      match array_set text (i + 1) ch with
      | none => none
      | some text1 => w_entry_insert_loop n (i - 1) text1

/-- The character `c` that `w_entry_input` derives from an event that is not
LEFT, RIGHT or BACKSPACE; `none` when the function returns 0 instead. -/
def w_entry_char (K : ui_event_codes) (event : Int) : Option Int :=
  if K.UI_EVENT_CHAR_a ≤ event ∧ event ≤ K.UI_EVENT_CHAR_z then
    some (event - K.UI_EVENT_CHAR_a + 97)
  else if K.UI_EVENT_CHAR_A ≤ event ∧ event ≤ K.UI_EVENT_CHAR_Z then
    some (event - K.UI_EVENT_CHAR_A + 65)
  else if event = K.UI_EVENT_SPACE then some 32
  else none

/-- The function `w_entry_input`. The buffer `text` holds the characters as
numbers from 0 to 255; both loops run `len - cursor_pos + 1` times (not at all
when that is not positive). -/
def w_entry_input (K : ui_event_codes) : widget_t → Int → input_result
  | .w_entry c text max_len cursor_pos, event =>
    match strlen text with
    | none => none
    | some len =>
      if event = K.UI_EVENT_LEFT then
        if cursor_pos > 0 then some (.w_entry c text max_len (cursor_pos - 1), 1, [])
        else some (.w_entry c text max_len cursor_pos, 1, [])
      else if event = K.UI_EVENT_RIGHT then
        if cursor_pos < len then some (.w_entry c text max_len (cursor_pos + 1), 1, [])
        else some (.w_entry c text max_len cursor_pos, 1, [])
      else if event = K.UI_EVENT_BACKSPACE then
        if cursor_pos > 0 then
          match w_entry_backspace_loop (len - cursor_pos + 1).toNat cursor_pos text with
          | none => none
          | some text1 => some (.w_entry c text1 max_len (cursor_pos - 1), 1, [])
        else some (.w_entry c text max_len cursor_pos, 1, [])
      else
        match w_entry_char K event with
        | none => some (.w_entry c text max_len cursor_pos, 0, [])
        | some ch =>
          if len < max_len then
            match w_entry_insert_loop (len - cursor_pos + 1).toNat len text with
            | none => none
            | some text1 =>
              match array_set text1 cursor_pos (ch % 256) with
              | none => none
              | some text2 => some (.w_entry c text2 max_len (cursor_pos + 1), 1, [])
          else some (.w_entry c text max_len cursor_pos, 1, [])
  | _, _ => none

mutual
/-- The call `widget->input(widget, event)`: the input handler of the
variant. A text or image widget has no handler. The two box arms are
`w_vbox_input` and `w_hbox_input`: nothing happens without a selected child;
otherwise the selected child's handler runs first, and only if it returns 0
does the box move its cursor, a vbox on UP and DOWN, an hbox on LEFT and
RIGHT. -/
def widget_input (K : ui_event_codes) : widget_t → Int → input_result
  | .w_text _ _ _, _ => none
  | .w_image _ _, _ => none
  | .w_action c child func func_data, event =>
    w_action_input K (.w_action c child func func_data) event
  | .w_option c item sel func func_data, event =>
    w_option_input K (.w_option c item sel func func_data) event
  | .w_entry c text max_len cursor_pos, event =>
    w_entry_input K (.w_entry c text max_len cursor_pos) event
  | .w_vbox c item sel spacing, event =>
    if sel = -1 then some (.w_vbox c item sel spacing, 0, [])
    else if sel < 0 then none
    else
      match widget_list_item_input K item sel.toNat event with
      | none => none
      | some (item1, r, tr) =>
        if r ≠ 0 then some (.w_vbox c item1 sel spacing, 1, tr)
        else if event = K.UI_EVENT_UP then
          match widget_list_select_prev ⟨sel, item1⟩ 1 1 with
          | none => none
          | some (list, r1) => some (.w_vbox c list.item list.sel spacing, r1, tr)
        else if event = K.UI_EVENT_DOWN then
          match widget_list_select_next ⟨sel, item1⟩ 1 1 with
          | none => none
          | some (list, r1) => some (.w_vbox c list.item list.sel spacing, r1, tr)
        else some (.w_vbox c item1 sel spacing, 0, tr)
  | .w_hbox c item sel spacing, event =>
    if sel = -1 then some (.w_hbox c item sel spacing, 0, [])
    else if sel < 0 then none
    else
      match widget_list_item_input K item sel.toNat event with
      | none => none
      | some (item1, r, tr) =>
        if r ≠ 0 then some (.w_hbox c item1 sel spacing, 1, tr)
        else if event = K.UI_EVENT_LEFT then
          match widget_list_select_prev ⟨sel, item1⟩ 1 1 with
          | none => none
          | some (list, r1) => some (.w_hbox c list.item list.sel spacing, r1, tr)
        else if event = K.UI_EVENT_RIGHT then
          match widget_list_select_next ⟨sel, item1⟩ 1 1 with
          | none => none
          | some (list, r1) => some (.w_hbox c list.item list.sel spacing, r1, tr)
        else some (.w_hbox c item1 sel spacing, 0, tr)
/-- The call `list->item[i]->input(list->item[i], event)`: the items
afterwards, the returned value, and the effects, the call itself first. -/
def widget_list_item_input (K : ui_event_codes) :
    List widget_t → Nat → Int → Option (List widget_t × Int × List effect)
  | [], _, _ => none
  | w :: ws, 0, event =>
    match widget_input K w event with
    | none => none
    | some (w1, r, tr) => some (w1 :: ws, r, effect.input w event :: tr)
  | w :: ws, i + 1, event =>
    match widget_list_item_input K ws i event with
    | none => none
    | some (ws1, r, tr) => some (w :: ws1, r, tr)
end

/-! ## Boxes -/

/-- The function `w_vbox_create`. -/
def w_vbox_create (spacing : Int) : widget_t :=
  .w_vbox ⟨0, 0, 0⟩ [] (-1) spacing

/-- The function `w_vbox_append`. The two statements `vbox->height +=` are two
additions on an `int`. -/
def w_vbox_append : widget_t → widget_t → Option widget_t
  | .w_vbox c item sel spacing, widget =>
    let list := widget_list_append ⟨sel, item⟩ widget
    let width := if widget.width > c.width then widget.width else c.width
    let height :=
      if list.nr ≠ 1 then wrap_int (wrap_int (c.height + widget.height) + spacing)
      else wrap_int (c.height + widget.height)
    if widget.enabled ≠ 0 ∧ widget.has_input = true then
      some (.w_vbox ⟨1, width, height⟩ list.item
        (if list.sel = -1 then list.nr - 1 else list.sel) spacing)
    else some (.w_vbox ⟨c.enabled, width, height⟩ list.item list.sel spacing)
  | _, _ => none

/-- The function `w_hbox_create`. -/
def w_hbox_create (spacing : Int) : widget_t :=
  .w_hbox ⟨0, 0, 0⟩ [] (-1) spacing

/-- The function `w_hbox_append`. The two statements `hbox->width +=` are two
additions on an `int`. -/
def w_hbox_append : widget_t → widget_t → Option widget_t
  | .w_hbox c item sel spacing, widget =>
    let list := widget_list_append ⟨sel, item⟩ widget
    let height := if widget.height > c.height then widget.height else c.height
    let width :=
      if list.nr ≠ 1 then wrap_int (wrap_int (c.width + widget.width) + spacing)
      else wrap_int (c.width + widget.width)
    if widget.enabled ≠ 0 ∧ widget.has_input = true then
      some (.w_hbox ⟨1, width, height⟩ list.item
        (if list.sel = -1 then list.nr - 1 else list.sel) spacing)
    else some (.w_hbox ⟨c.enabled, width, height⟩ list.item list.sel spacing)
  | _, _ => none

/-! ## Dialogs -/

/-- The structure `dialog_t`. -/
structure dialog_t where
  width : Int
  height : Int
  modal : Int
  widget : widget_t

/-- The constant `DIALOG_MAX`. -/
def DIALOG_MAX : Int := 10

/-- The global variables of the dialog system, the dialogs that the pointers
on the stack refer to (`heap`, `none` for an address that holds no dialog),
and the effects so far. -/
structure globals where
  dialog_stack : List Nat
  dialog_nr : Int
  dialog_closed : List Nat
  dialog_closed_nr : Int
  heap : Nat → Option dialog_t
  log : List effect

/-- The dialog system at program start: both arrays hold `DIALOG_MAX` null
pointers and both counters are zero. -/
def globals.init (heap : Nat → Option dialog_t) : globals where
  dialog_stack := List.replicate 10 0
  dialog_nr := 0
  dialog_closed := List.replicate 10 0
  dialog_closed_nr := 0
  heap := heap
  log := []

/-- The function `dialog_create`. -/
def dialog_create (widget : widget_t) : dialog_t where
  widget := widget
  width := widget.width
  height := widget.height
  modal := 0

/-- The function `dialog_set_modal`. -/
def dialog_set_modal (dialog : dialog_t) (modal : Int) : dialog_t :=
  { dialog with modal := modal }

/-- The function `dialog_destroy`. -/
def dialog_destroy (s : globals) (dialog : Nat) : Option globals :=
  match s.heap dialog with
  | none => none
  | some d =>
    some { s with log := s.log ++ widget_destroy d.widget ++ [effect.free_dialog dialog] }

/-- The loop of `dialog_cleanup`, from index `i`, with `n` iterations left. -/
def dialog_cleanup_loop : Nat → Int → globals → Option globals
  | 0, _, s => some s
  | n + 1, i, s =>
    match array_get s.dialog_closed i with
    | none => none
    | some dialog =>
      match dialog_destroy s dialog with
      | none => none
      | some s1 => dialog_cleanup_loop n (i + 1) s1

/-- The function `dialog_cleanup`. The loop
`for (i = 0; i < dialog_closed_nr; i++)` runs `dialog_closed_nr` times (not at
all when the counter is not positive). -/
def dialog_cleanup (s : globals) : Option globals :=
  match dialog_cleanup_loop s.dialog_closed_nr.toNat 0 s with
  | none => none
  | some s1 => some { s1 with dialog_closed_nr := 0 }

/-- The function `dialog_open`. -/
def dialog_open (s : globals) (menu : Nat) : Option globals :=
  if s.dialog_nr = DIALOG_MAX then
    some { s with log := s.log ++ [effect.printf "Too many open dialogs.\n"] }
  else
    match array_set s.dialog_stack s.dialog_nr menu with
    | none => none
    | some stack => some { s with dialog_stack := stack, dialog_nr := s.dialog_nr + 1 }

/-- The function `dialog_close`. -/
def dialog_close (s : globals) : Option globals :=
  if s.dialog_nr = 0 then
    some { s with log := s.log ++ [effect.printf "No open dialogs.\n"] }
  else
    match array_get s.dialog_stack (s.dialog_nr - 1) with
    | none => none
    | some menu =>
      let s1 := { s with dialog_nr := s.dialog_nr - 1 }
      if s1.dialog_closed_nr = DIALOG_MAX then
        some { s1 with log := s1.log ++ [effect.printf "Too many to-be-destroyed dialogs.\n"] }
      else
        match array_set s1.dialog_closed s1.dialog_closed_nr menu with
        | none => none
        | some closed =>
          some { s1 with dialog_closed := closed, dialog_closed_nr := s1.dialog_closed_nr + 1 }

/-- The function `dialog_current`; `some 0` is the result `NULL`. -/
def dialog_current (s : globals) : Option Nat :=
  if s.dialog_nr = 0 then some 0
  else array_get s.dialog_stack (s.dialog_nr - 1)

/-- The function `dialog_input`. -/
def dialog_input (K : ui_event_codes) (s : globals) (event : Int) : Option globals :=
  match dialog_current s with
  | none => none
  | some dialog =>
    if dialog = 0 then some s
    else
      match s.heap dialog with
      | none => none
      | some d =>
        match (if d.modal = 0 ∧ event = K.UI_EVENT_ESCAPE then dialog_close s else some s) with
        | none => none
        | some s1 =>
          match widget_input K d.widget event with
          | none => none
          | some (widget, _, tr) =>
            some { s1 with
              heap := Function.update s1.heap dialog (some { d with widget := widget }),
              log := s1.log ++ effect.input d.widget event :: tr }

mutual
/-- The shape that the create and append functions give a widget tree: the
cursor of every vbox and hbox is -1 or the index of a child that has an input
handler, and the buffer of every text entry holds a terminating zero. -/
def widget_t.well_formed : widget_t → Bool
  | .w_text _ _ _ => true
  | .w_image _ _ => true
  | .w_action _ child _ _ => child.well_formed
  | .w_option _ item _ _ _ => widget_list_well_formed item
  | .w_vbox _ item sel _ =>
    widget_list_well_formed item &&
      (decide (sel = -1) || (decide (0 ≤ sel) && widget_list_item_has_input item sel.toNat))
  | .w_hbox _ item sel _ =>
    widget_list_well_formed item &&
      (decide (sel = -1) || (decide (0 ≤ sel) && widget_list_item_has_input item sel.toNat))
  | .w_entry _ text _ _ => (strlen text).isSome
/-- Every widget of a list is well formed. -/
def widget_list_well_formed : List widget_t → Bool
  | [] => true
  | w :: ws => w.well_formed && widget_list_well_formed ws
/-- The list has an item at the index and that item has an input handler. -/
def widget_list_item_has_input : List widget_t → Nat → Bool
  | [], _ => false
  | w :: _, 0 => w.has_input
  | _ :: ws, i + 1 => widget_list_item_has_input ws i
end

/-- The escape event is an enumerator of its own: it is none of the events
that a widget reacts to (the four directions, action, backspace, space and the
two runs of letters). -/
def ui_event_codes.escape_apart (K : ui_event_codes) : Prop :=
  K.UI_EVENT_ESCAPE ≠ K.UI_EVENT_UP ∧ K.UI_EVENT_ESCAPE ≠ K.UI_EVENT_DOWN ∧
  K.UI_EVENT_ESCAPE ≠ K.UI_EVENT_LEFT ∧ K.UI_EVENT_ESCAPE ≠ K.UI_EVENT_RIGHT ∧
  K.UI_EVENT_ESCAPE ≠ K.UI_EVENT_ACTION ∧ K.UI_EVENT_ESCAPE ≠ K.UI_EVENT_BACKSPACE ∧
  K.UI_EVENT_ESCAPE ≠ K.UI_EVENT_SPACE ∧
  ¬ (K.UI_EVENT_CHAR_a ≤ K.UI_EVENT_ESCAPE ∧ K.UI_EVENT_ESCAPE ≤ K.UI_EVENT_CHAR_z) ∧
  ¬ (K.UI_EVENT_CHAR_A ≤ K.UI_EVENT_ESCAPE ∧ K.UI_EVENT_ESCAPE ≤ K.UI_EVENT_CHAR_Z)

/-- The open dialogs, bottom of the stack first: the first `dialog_nr`
entries of `dialog_stack`. -/
def globals.open_dialogs (s : globals) : List Nat :=
  s.dialog_stack.take s.dialog_nr.toNat

/-- The dialogs awaiting destruction: the first `dialog_closed_nr` entries of
`dialog_closed`. -/
def globals.pending (s : globals) : List Nat :=
  s.dialog_closed.take s.dialog_closed_nr.toNat

/-- Both arrays have their declared size `DIALOG_MAX`. -/
def globals.sized (s : globals) : Prop :=
  s.dialog_stack.length = 10 ∧ s.dialog_closed.length = 10

/-- A call of one of the three operations of the dialog stack. -/
inductive dialog_op where
  | op_open (menu : Nat)
  | op_close
  | op_cleanup

/-- The dialog passed to `dialog_open`, for a call of `dialog_open`. -/
def dialog_op.opened : dialog_op → List Nat
  | .op_open menu => [menu]
  | _ => []

/-- Runs one call. -/
def dialog_step (s : globals) : dialog_op → Option globals
  | .op_open menu => dialog_open s menu
  | .op_close => dialog_close s
  | .op_cleanup => dialog_cleanup s

/-- Runs a sequence of calls, first to last. -/
def dialog_run : globals → List dialog_op → Option globals
  | s, [] => some s
  | s, op :: ops =>
    match dialog_step s op with
    | none => none
    | some s1 => dialog_run s1 ops

/-- An enabled text widget of the given width and of height 22. -/
def sample_text (label : List Int) (width : Int) : widget_t :=
  .w_text ⟨1, width, 22⟩ label 0

/-- An action widget around a text widget of width 60, with the callback at
address 77 registered. -/
def sample_action : widget_t :=
  .w_action ⟨1, 60, 22⟩ (sample_text [79, 75] 60) 77 0

/-- A vbox with spacing 2 that holds a text widget and `sample_action`, the
cursor on the action widget. -/
def sample_menu : widget_t :=
  .w_vbox ⟨1, 60, 46⟩ [sample_text [72, 105] 30, sample_action] 1 2

/-- A memory with dialogs at the addresses 1 to 30: a modal dialog around
`sample_menu` at address 15, a dialog whose root is a text widget at address
16, and non-modal dialogs around `sample_menu` elsewhere. -/
def sample_heap : Nat → Option dialog_t := fun p =>
  if p = 15 then some (dialog_set_modal (dialog_create sample_menu) 1)
  else if p = 16 then some (dialog_create (sample_text [72, 105] 30))
  else if 1 ≤ p ∧ p ≤ 30 then some (dialog_create sample_menu)
  else none

/-- A state with two open dialogs (at addresses 11 and 12) and one pending
dialog (at address 13). -/
def sample_state : globals where
  dialog_stack := [11, 12, 0, 0, 0, 0, 0, 0, 0, 0]
  dialog_nr := 2
  dialog_closed := [13, 0, 0, 0, 0, 0, 0, 0, 0, 0]
  dialog_closed_nr := 1
  heap := sample_heap
  log := []

/-- The state `sample_state` with the modal dialog at address 15 on top. -/
def sample_modal_state : globals :=
  { sample_state with dialog_stack := [11, 15, 0, 0, 0, 0, 0, 0, 0, 0] }

/-- The state `sample_state` with the dialog at address 16, whose root is a
text widget, on top. -/
def sample_text_state : globals :=
  { sample_state with dialog_stack := [11, 16, 0, 0, 0, 0, 0, 0, 0, 0] }

/-- The dialogs passed to `dialog_open` in a sequence of calls, in order. -/
def dialog_ops_opened : List dialog_op → List Nat
  | [] => []
  | op :: ops => op.opened ++ dialog_ops_opened ops

/-- The effects of one call `dialog_destroy(p)`: the destroy call on the root
widget of the dialog, then `free(p)`. -/
def dialog_destroy_effects (heap : Nat → Option dialog_t) (p : Nat) : List effect :=
  match heap p with
  | none => []
  | some d => widget_destroy d.widget ++ [effect.free_dialog p]

/-- The effects of calling `dialog_destroy` on each dialog of a list, first to
last. -/
def dialog_destroy_all_effects (heap : Nat → Option dialog_t) : List Nat → List effect
  | [] => []
  | p :: ps => dialog_destroy_effects heap p ++ dialog_destroy_all_effects heap ps

/-- The invariant of the dialog system: both arrays have their size, both
counters lie between 0 and `DIALOG_MAX`, and no dialog occurs twice among the
open and the pending dialogs taken together. -/
def globals.inv (s : globals) : Prop :=
  s.sized ∧ 0 ≤ s.dialog_nr ∧ s.dialog_nr ≤ DIALOG_MAX ∧
    0 ≤ s.dialog_closed_nr ∧ s.dialog_closed_nr ≤ DIALOG_MAX ∧
    (s.open_dialogs ++ s.pending).Nodup

/-- A state with `DIALOG_MAX` open dialogs (addresses 1 to 10) and nothing
pending. -/
def sample_full_state : globals where
  dialog_stack := [1, 2, 3, 4, 5, 6, 7, 8, 9, 10]
  dialog_nr := 10
  dialog_closed := [0, 0, 0, 0, 0, 0, 0, 0, 0, 0]
  dialog_closed_nr := 0
  heap := sample_heap
  log := []

/-- A sequence of calls in which three different dialogs are opened. -/
def sample_ops : List dialog_op :=
  [.op_open 11, .op_open 12, .op_close, .op_open 13, .op_cleanup, .op_close]

/-- The dialog that an effect frees, for a call of `free` on a dialog. -/
def effect.freed : effect → Option Nat
  | .free_dialog dialog => some dialog
  | _ => none

mutual
/-- The widgets of a tree: the widget itself, then the widgets of each child
in insertion order. -/
def widget_t.subwidgets : widget_t → List widget_t
  | .w_text c label bouncy => [.w_text c label bouncy]
  | .w_image c image => [.w_image c image]
  | .w_action c child func func_data =>
    .w_action c child func func_data :: child.subwidgets
  | .w_option c item sel func func_data =>
    .w_option c item sel func func_data :: widget_list_subwidgets item
  | .w_vbox c item sel spacing => .w_vbox c item sel spacing :: widget_list_subwidgets item
  | .w_hbox c item sel spacing => .w_hbox c item sel spacing :: widget_list_subwidgets item
  | .w_entry c text max_len cursor_pos => [.w_entry c text max_len cursor_pos]
/-- The widgets of the trees of a list, first tree first. -/
def widget_list_subwidgets : List widget_t → List widget_t
  | [] => []
  | w :: ws => w.subwidgets ++ widget_list_subwidgets ws
end

/-- A state in which the pending array is full (addresses 21 to 30) and two
dialogs are open. -/
def sample_pending_full : globals where
  dialog_stack := [11, 12, 0, 0, 0, 0, 0, 0, 0, 0]
  dialog_nr := 2
  dialog_closed := [21, 22, 23, 24, 25, 26, 27, 28, 29, 30]
  dialog_closed_nr := 10
  heap := sample_heap
  log := []

/-- The dialog system with no open dialog and one pending dialog. -/
def sample_none_open : globals where
  dialog_stack := [11, 12, 0, 0, 0, 0, 0, 0, 0, 0]
  dialog_nr := 0
  dialog_closed := [13, 0, 0, 0, 0, 0, 0, 0, 0, 0]
  dialog_closed_nr := 1
  heap := sample_heap
  log := []

/-- What the two selection functions look for: the enabled flag is set if
`enabled` is requested, and an input handler is present if `input` is
requested. -/
def widget_t.qualifies (w : widget_t) (input enabled : Int) : Prop :=
  (enabled ≠ 0 → w.enabled ≠ 0) ∧ (input ≠ 0 → w.has_input = true)

/-- The list has an item at index `i` and that item qualifies. -/
def widget_list_t.qualifies_at (list : widget_list_t) (input enabled : Int) (i : Int) :
    Prop :=
  ∃ w, array_get list.item i = some w ∧ w.qualifies input enabled

/-- A list of four widgets with the cursor on the second: a text widget, an
action widget, a disabled action widget and an action widget. -/
def sample_list : widget_list_t where
  sel := 1
  item := [sample_text [72, 105] 30, sample_action,
    .w_action ⟨0, 60, 22⟩ (sample_text [79, 75] 60) 0 0, sample_action]

/-- Appends the widgets of a list to a box with `w_vbox_append`, first to
last. -/
def w_vbox_append_all : widget_t → List widget_t → Option widget_t
  | box, [] => some box
  | box, w :: ws =>
    match w_vbox_append box w with
    | none => none
    | some box1 => w_vbox_append_all box1 ws

/-- Appends the widgets of a list to a box with `w_hbox_append`, first to
last. -/
def w_hbox_append_all : widget_t → List widget_t → Option widget_t
  | box, [] => some box
  | box, w :: ws =>
    match w_hbox_append box w with
    | none => none
    | some box1 => w_hbox_append_all box1 ws

/-- The index of the first widget of a list that is enabled and has an input
handler, if there is one. -/
def first_selectable : List widget_t → Option Nat
  | [] => none
  | w :: ws =>
    if w.enabled ≠ 0 ∧ w.has_input = true then some 0
    else
      match first_selectable ws with
      | none => none
      | some k => some (k + 1)

/-- The cursor of a box after appending `ws` to a box that had `n` items and
the cursor `sel`: a cursor that is set stays, otherwise it goes to the first
appended widget that is enabled and has an input handler. -/
def cursor_after_append (n : Nat) (sel : Int) (ws : List widget_t) : Int :=
  if sel = -1 then
    match first_selectable ws with
    | none => -1
    | some k => ((n + k : Nat) : Int)
  else sel

/-! ## Creating widgets -/

/-- The fields `width` and `height` of a `texture_t`; the texture id and the
texture coordinates are left out. -/
structure texture_t where
  width : Int
  height : Int

/-- The constant `BOUNCE_AMP`. -/
def BOUNCE_AMP : Int := 2

/-- The string `OPTION_ARROW_LEFT`, as character codes. -/
def OPTION_ARROW_LEFT : List Int := [171, 32]

/-- The string `OPTION_ARROW_RIGHT`, as character codes. -/
def OPTION_ARROW_RIGHT : List Int := [32, 187]

/-- The function `text_width` for a string given by its characters; the
global table `text_characters` is a parameter. The loop adds the width of
each character to `retval`, which starts at 0. -/
def text_width (text_characters : Int → texture_t) (text : List Int) : Int :=
  text.foldl (fun retval ch => wrap_int (retval + (text_characters ch).width)) 0

/-- The function `text_height`. -/
def text_height (text_characters : Int → texture_t) : Int :=
  (text_characters 97).height

/-- The function `w_text_create`. -/
def w_text_create (text_characters : Int → texture_t) (string : List Int) : widget_t :=
  .w_text
    ⟨1, text_width text_characters string, wrap_int (text_height text_characters + BOUNCE_AMP)⟩
    string 0

/-- The function `w_action_create`. -/
def w_action_create (widget : widget_t) : widget_t :=
  .w_action ⟨1, widget.width, widget.height⟩ widget 0 0

/-- The function `w_action_set_callback`. -/
def w_action_set_callback : widget_t → Nat → Nat → Option widget_t
  | .w_action c child _ _, callback, func_data => some (.w_action c child callback func_data)
  | _, _, _ => none

/-- The function `w_option_create`. It does not initialise the callback
fields of the data block: their first contents `func` and `func_data` are
whatever `malloc` returned. -/
def w_option_create (func func_data : Nat) : widget_t :=
  .w_option ⟨0, 0, 0⟩ [] (-1) func func_data

/-- The function `w_option_append`. The width of an option is the sum, on
`int`s, of the width of the child and of the widths of the two arrows. -/
def w_option_append (text_characters : Int → texture_t) :
    widget_t → widget_t → Option widget_t
  | .w_option c item sel func func_data, child =>
    let width := wrap_int (child.width
      + wrap_int (text_width text_characters OPTION_ARROW_LEFT
        + text_width text_characters OPTION_ARROW_RIGHT))
    let height :=
      if child.height > text_height text_characters then child.height
      else text_height text_characters
    let list := widget_list_append ⟨sel, item⟩ child
    some (.w_option
      ⟨if list.nr = 2 then 1 else c.enabled,
        if width > c.width then width else c.width,
        if height > c.height then height else c.height⟩
      list.item (if list.sel = -1 then 0 else list.sel) func func_data)
  | _, _ => none

/-- The function `w_option_get_selected`. -/
def w_option_get_selected : widget_t → Option Int
  | .w_option _ _ sel _ _ => some sel
  | _ => none

/-- The function `w_option_set_callback`. -/
def w_option_set_callback : widget_t → Nat → Nat → Option widget_t
  | .w_option c item sel _ _, callback, func_data =>
    some (.w_option c item sel callback func_data)
  | _, _, _ => none

/-- The constant `ENTRY_MAX_LEN`. -/
def ENTRY_MAX_LEN : Int := 255

/-- The function `w_entry_create`. The data block comes from `malloc`: `mem`
is what its array `text` (256 characters) holds at first; only `text[0]` is
then set. The string is `"Visible text"`. -/
def w_entry_create (text_characters : Int → texture_t) (mem : List Int) : widget_t :=
  .w_entry
    ⟨1, text_width text_characters [86, 105, 115, 105, 98, 108, 101, 32, 116, 101, 120, 116],
      text_height text_characters⟩
    (mem.set 0 0) ENTRY_MAX_LEN 0

/-- Appends the widgets of a list to an option widget with `w_option_append`,
first to last. -/
def w_option_append_all (text_characters : Int → texture_t) :
    widget_t → List widget_t → Option widget_t
  | widget, [] => some widget
  | widget, w :: ws =>
    match w_option_append text_characters widget w with
    | none => none
    | some widget1 => w_option_append_all text_characters widget1 ws

/-- Feeds a sequence of events to a widget through an input handler, first to
last: the widget afterwards and all effects. -/
def input_all (handler : widget_t → Int → input_result) :
    widget_t → List Int → Option (widget_t × List effect)
  | w, [] => some (w, [])
  | w, event :: events =>
    match handler w event with
    | none => none
    | some (w1, _, tr) =>
      match input_all handler w1 events with
      | none => none
      | some (w2, tr2) => some (w2, tr ++ tr2)

/-- The number of callback calls among some effects. -/
def count_func (tr : List effect) : Nat := (tr.filter effect.is_func).length

/-- The font used in examples: every character is 10 wide and 20 high. -/
def sample_font : Int → texture_t := fun _ => ⟨10, 20⟩

/-- The enabled flag of a box after appending `ws` to a box whose flag was
`enabled`: it is set to 1 as soon as an appended widget is enabled and has an
input handler. -/
def enabled_after_append (enabled : Int) (ws : List widget_t) : Int :=
  match first_selectable ws with
  | none => enabled
  | some _ => 1

/-- The running maximum that the append functions keep along the cross axis:
starting from `m`, each appended widget whose size `f` is larger replaces it. -/
def max_after_append (f : widget_t → Int) (m : Int) : List widget_t → Int
  | [] => m
  | w :: ws => max_after_append f (if f w > m then f w else m) ws

/-- The running sum that the append functions keep along the stacked axis for
a box that holds `n` items and has the size `acc`: each appended widget adds
its size `f`, and the spacing too unless it becomes the only item, each
addition being one on an `int`. -/
def sum_after_append (f : widget_t → Int) (spacing : Int) :
    Nat → Int → List widget_t → Int
  | _, acc, [] => acc
  | n, acc, w :: ws =>
    sum_after_append f spacing (n + 1)
      (if ((n + 1 : Nat) : Int) ≠ 1 then wrap_int (wrap_int (acc + f w) + spacing)
        else wrap_int (acc + f w)) ws

/-- What a box does with an event after the handler of its selected child has
returned `r`, for a box that moves backwards on `prev_event` and forwards on
`next_event`; `list` is the widget list of the box after the child's handler
ran, `sel1` the cursor afterwards and `ret` the value the box returns.
If the child handled the event, the box returns 1 and keeps its cursor. If
not, then on `prev_event` the cursor goes to the nearest earlier child that is
enabled and has an input handler and the box returns 1, or there is no such
child, the cursor stays and the box returns 0; on `next_event` likewise with
the nearest later child; on any other event the cursor stays and the box
returns 0. -/
def box_outcome (prev_event next_event : Int) (list : widget_list_t) (r event : Int)
    (sel1 ret : Int) : Prop :=
  (r ≠ 0 → ret = 1 ∧ sel1 = list.sel) ∧
  (r = 0 → event = prev_event →
    (ret = 1 ∧ 0 ≤ sel1 ∧ sel1 < list.sel ∧ list.qualifies_at 1 1 sel1 ∧
        ∀ i, sel1 < i → i < list.sel → ¬ list.qualifies_at 1 1 i) ∨
      (ret = 0 ∧ sel1 = list.sel ∧
        ∀ i, 0 ≤ i → i < list.sel → ¬ list.qualifies_at 1 1 i)) ∧
  (r = 0 → event = next_event →
    (ret = 1 ∧ list.sel < sel1 ∧ sel1 < list.nr ∧ list.qualifies_at 1 1 sel1 ∧
        ∀ i, list.sel < i → i < sel1 → ¬ list.qualifies_at 1 1 i) ∨
      (ret = 0 ∧ sel1 = list.sel ∧
        ∀ i, list.sel < i → i < list.nr → ¬ list.qualifies_at 1 1 i)) ∧
  (r = 0 → event ≠ prev_event → event ≠ next_event → ret = 0 ∧ sel1 = list.sel)

/-- Three text widgets with the labels `A`, `B` and `C`, as `w_text_create`
builds them with `sample_font`. -/
def sample_choices : List widget_t :=
  [w_text_create sample_font [65], w_text_create sample_font [66],
    w_text_create sample_font [67]]

/-- The letters form two runs of 26 enumerators each: `UI_EVENT_CHAR_z` is the
26th enumerator from `UI_EVENT_CHAR_a` on, and `UI_EVENT_CHAR_Z` the 26th from
`UI_EVENT_CHAR_A` on. -/
def ui_event_codes.letter_runs (K : ui_event_codes) : Prop :=
  K.UI_EVENT_CHAR_z = K.UI_EVENT_CHAR_a + 25 ∧ K.UI_EVENT_CHAR_Z = K.UI_EVENT_CHAR_A + 25

/-- A text entry whose state is sound: the buffer holds a string of some
length `len` with its terminating zero, the cursor lies in `[0, len]`, `len`
is at most `max_len`, and `max_len` is `ENTRY_MAX_LEN`, one less than the size
of the buffer. -/
def widget_t.entry_sound : widget_t → Prop
  | .w_entry _ text max_len cursor_pos =>
    ∃ len, strlen text = some len ∧ 0 ≤ cursor_pos ∧ cursor_pos ≤ len ∧ len ≤ max_len ∧
      max_len = ENTRY_MAX_LEN ∧ (text.length : Int) = ENTRY_MAX_LEN + 1
  | _ => False

/-- The event is none of those a text entry reacts to: it is not LEFT, RIGHT,
BACKSPACE or SPACE and lies in neither run of letters. -/
def ui_event_codes.entry_ignores (K : ui_event_codes) (event : Int) : Prop :=
  event ≠ K.UI_EVENT_LEFT ∧ event ≠ K.UI_EVENT_RIGHT ∧ event ≠ K.UI_EVENT_BACKSPACE ∧
  event ≠ K.UI_EVENT_SPACE ∧
  ¬ (K.UI_EVENT_CHAR_a ≤ event ∧ event ≤ K.UI_EVENT_CHAR_z) ∧
  ¬ (K.UI_EVENT_CHAR_A ≤ event ∧ event ≤ K.UI_EVENT_CHAR_Z)

/-- A buffer of 256 characters that holds `hi`, its terminating zero, and the
character 7 everywhere else. -/
def sample_buffer : List Int := [104, 105, 0] ++ List.replicate 253 7

/-- A text entry as `w_entry_create` sizes it, holding `hi` with the cursor
behind the `h`. -/
def sample_entry : widget_t := .w_entry ⟨1, 120, 20⟩ sample_buffer ENTRY_MAX_LEN 1

/-! ## Texture sizes -/

/-- The largest value of a C `int` (32 bits). -/
def INT_MAX : Int := 2147483647

/-- The loop `while (value < input) value <<= 1;` of `power_of_two`. The first
argument bounds the number of tests of the loop condition. A shift whose
result does not fit an `int` has no defined result. -/
def power_of_two_loop : Nat → Int → Int → Option Int
  | 0, _, _ => none
  | n + 1, value, input =>
    if value < input then
      if value * 2 ≤ INT_MAX then power_of_two_loop n (value * 2) input else none
    else some value

/-- The function `power_of_two`. The loop starts from 1 and doubles `value`;
`value` stays below `2 ^ 31`, so the condition is tested at most 32 times. -/
def power_of_two (input : Int) : Option Int :=
  power_of_two_loop 32 1 input

/-! ## Platform events -/

/-- Numeric values of the SDL constants that the embedded code uses. They come
from the headers of the SDL library, which are not among the sources, so the
values are taken as a parameter of the embedding. -/
structure sdl_codes where
  SDL_KEYDOWN : Int
  SDL_JOYHATMOTION : Int
  SDL_JOYBUTTONDOWN : Int
  SDLK_RIGHT : Int
  SDLK_LEFT : Int
  SDLK_UP : Int
  SDLK_DOWN : Int
  SDLK_ESCAPE : Int
  SDLK_RETURN : Int
  SDLK_BACKSPACE : Int
  SDLK_SPACE : Int
  SDLK_a : Int
  SDLK_z : Int
  SDL_HAT_RIGHT : Int
  SDL_HAT_LEFT : Int
  SDL_HAT_UP : Int
  SDL_HAT_DOWN : Int
  KMOD_LSHIFT : Nat
  KMOD_RSHIFT : Nat

/-- The values of the constants in SDL 1.2, used to evaluate the embedding on
concrete inputs. -/
def sample_sdl : sdl_codes where
  SDL_KEYDOWN := 2
  SDL_JOYHATMOTION := 9
  SDL_JOYBUTTONDOWN := 10
  SDLK_RIGHT := 275
  SDLK_LEFT := 276
  SDLK_UP := 273
  SDLK_DOWN := 274
  SDLK_ESCAPE := 27
  SDLK_RETURN := 13
  SDLK_BACKSPACE := 8
  SDLK_SPACE := 32
  SDLK_a := 97
  SDLK_z := 122
  SDL_HAT_RIGHT := 2
  SDL_HAT_LEFT := 8
  SDL_HAT_UP := 1
  SDL_HAT_DOWN := 4
  KMOD_LSHIFT := 1
  KMOD_RSHIFT := 2

/-- The fields of an `SDL_Event` that `convert_event` reads: `type`,
`key.keysym.sym`, `key.keysym.mod`, `jhat.value` and `jbutton.button`. -/
structure SDL_Event where
  type : Int
  sym : Int
  mod : Nat
  jhat_value : Int
  jbutton_button : Int

/-- The `switch (event->type)` statement of `convert_event`: the value that
one of its `return` statements returns, or `none` when control leaves the
statement without returning. -/
def convert_event_switch (S : sdl_codes) (K : ui_event_codes) (event : SDL_Event) :
    Option Int :=
  if event.type = S.SDL_KEYDOWN then
    if event.sym = S.SDLK_RIGHT then some K.UI_EVENT_RIGHT
    else if event.sym = S.SDLK_LEFT then some K.UI_EVENT_LEFT
    else if event.sym = S.SDLK_UP then some K.UI_EVENT_UP
    else if event.sym = S.SDLK_DOWN then some K.UI_EVENT_DOWN
    else if event.sym = S.SDLK_ESCAPE then some K.UI_EVENT_ESCAPE
    else if event.sym = S.SDLK_RETURN then some K.UI_EVENT_ACTION
    else if event.sym = S.SDLK_BACKSPACE then some K.UI_EVENT_BACKSPACE
    else if event.sym = S.SDLK_SPACE then some K.UI_EVENT_SPACE
    else none
  else if event.type = S.SDL_JOYHATMOTION then
    if event.jhat_value = S.SDL_HAT_RIGHT then some K.UI_EVENT_RIGHT
    else if event.jhat_value = S.SDL_HAT_LEFT then some K.UI_EVENT_LEFT
    else if event.jhat_value = S.SDL_HAT_UP then some K.UI_EVENT_UP
    else if event.jhat_value = S.SDL_HAT_DOWN then some K.UI_EVENT_DOWN
    else none
  else if event.type = S.SDL_JOYBUTTONDOWN then
    if event.jbutton_button = 0 then some K.UI_EVENT_ACTION
    else if event.jbutton_button = 1 then some K.UI_EVENT_ESCAPE
    else if event.jbutton_button = 2 then some K.UI_EVENT_EXTRA1
    else if event.jbutton_button = 3 then some K.UI_EVENT_EXTRA2
    else if event.jbutton_button = 4 then some K.UI_EVENT_EXTRA3
    else none
  else none

/-- The function `convert_event`. -/
def convert_event (S : sdl_codes) (K : ui_event_codes) (event : SDL_Event) : Int :=
  match convert_event_switch S K event with
  | some retval => retval
  | none =>
    if event.type = S.SDL_KEYDOWN ∧ S.SDLK_a ≤ event.sym ∧ event.sym ≤ S.SDLK_z then
      if event.mod &&& (S.KMOD_LSHIFT ||| S.KMOD_RSHIFT) ≠ 0 then
        event.sym - S.SDLK_a + K.UI_EVENT_CHAR_a + (K.UI_EVENT_CHAR_A - K.UI_EVENT_CHAR_a)
      else event.sym - S.SDLK_a + K.UI_EVENT_CHAR_a
    else K.UI_EVENT_NONE

/-- The letter keys form a run of 26 key codes from `SDLK_a` to `SDLK_z`, and
none of the eight keys named in the switch of `convert_event` is a letter
key. -/
def sdl_codes.letter_keys (S : sdl_codes) : Prop :=
  S.SDLK_z = S.SDLK_a + 25 ∧
  ∀ key ∈ [S.SDLK_RIGHT, S.SDLK_LEFT, S.SDLK_UP, S.SDLK_DOWN, S.SDLK_ESCAPE, S.SDLK_RETURN,
    S.SDLK_BACKSPACE, S.SDLK_SPACE], ¬ (S.SDLK_a ≤ key ∧ key ≤ S.SDLK_z)

/-- The letter events are enumerators of their own: LEFT, RIGHT and BACKSPACE
lie in neither run of letters, and the two runs do not overlap. -/
def ui_event_codes.letters_apart (K : ui_event_codes) : Prop :=
  (∀ e ∈ [K.UI_EVENT_LEFT, K.UI_EVENT_RIGHT, K.UI_EVENT_BACKSPACE],
    ¬ (K.UI_EVENT_CHAR_a ≤ e ∧ e ≤ K.UI_EVENT_CHAR_z) ∧
    ¬ (K.UI_EVENT_CHAR_A ≤ e ∧ e ≤ K.UI_EVENT_CHAR_Z)) ∧
  (K.UI_EVENT_CHAR_z < K.UI_EVENT_CHAR_A ∨ K.UI_EVENT_CHAR_Z < K.UI_EVENT_CHAR_a)

/-- A text entry that is not full inserts exactly the character `ch` at its
cursor when given `event`: for a buffer that holds the string `t` with its
terminating zero, `t` shorter than `max_len`, `max_len` less than the size of
the buffer and the cursor `k` in `[0, length t]`, `w_entry_input` returns 1
and afterwards the buffer holds the first `k` characters of `t`, then `ch`,
then the rest of `t`, with the terminating zero, and the cursor is `k + 1`. -/
def entry_inserts (K : ui_event_codes) (event ch : Int) : Prop :=
  ∀ (c : widget_common) (t g : List Int) (max_len : Int) (k : Nat),
    (∀ x ∈ t, x ≠ 0) → k ≤ t.length → (t.length : Int) < max_len →
    max_len < ((t ++ 0 :: g).length : Int) →
    ∃ g1, w_entry_input K (.w_entry c (t ++ 0 :: g) max_len (k : Int)) event
      = some (.w_entry c ((t.take k ++ ch :: t.drop k) ++ 0 :: g1) max_len ((k : Int) + 1),
          1, [])

/-- A key-down event of the key `c` with the left shift key held. -/
def sample_key_event : SDL_Event where
  type := 2
  sym := 99
  mod := 1
  jhat_value := 0
  jbutton_button := 0

/-! ## Rendering -/

/-- The constant `FOCUS_NONE`. -/
def FOCUS_NONE : Int := 0

/-- The constant `FOCUS_ONE`. -/
def FOCUS_ONE : Int := 1

/-- The constant `FOCUS_ALL`. -/
def FOCUS_ALL : Int := 2

/-- The address of one of the predefined colours, as passed to the text
drawing functions. -/
inductive colour_ref where
  | col_black
  | col_grey
  | col_red
  | col_dark_red
  | col_white
  | col_yellow

/-- The arguments of an indirect call
`widget->render(widget, x, y, width, height, focus)`. -/
structure render_call where
  widget : widget_t
  x : Int
  y : Int
  width : Int
  height : Int
  focus : Int

/-- What a render function of the embedded code does, in program order: calls
of `text_draw_string` and `text_draw_string_bouncy` (position, string and
colour; the scale is 1 in every call) and indirect calls of the render
function of a child. -/
inductive draw where
  | text_draw_string (x y : Int) (text : List Int) (col : colour_ref)
  | text_draw_string_bouncy (x y : Int) (text : List Int) (col : colour_ref)
  | render (call : render_call)

/-- The colour of a call that draws text. -/
def draw.colour : draw → Option colour_ref
  | .text_draw_string _ _ _ col => some col
  | .text_draw_string_bouncy _ _ _ col => some col
  | .render _ => none

/-- The string of a call that draws text. -/
def draw.text : draw → Option (List Int)
  | .text_draw_string _ _ text _ => some text
  | .text_draw_string_bouncy _ _ text _ => some text
  | .render _ => none

/-- The function `w_action_render`. -/
def w_action_render : widget_t → Int → Int → Int → Int → Int → Option (List draw)
  | .w_action _ child _ _, x, y, width, height, focus =>
    some [draw.render ⟨child, x, y, width, height,
      if focus ≠ FOCUS_NONE then FOCUS_ALL else focus⟩]
  | _, _, _, _, _, _ => none

/-- The function `w_option_render`. The division `/ 2` of C rounds towards
zero; the additions and subtractions are those on an `int`, from left to
right. -/
def w_option_render (text_characters : Int → texture_t) :
    widget_t → Int → Int → Int → Int → Int → Option (List draw)
  | .w_option _ item sel _ _, x, y, width, height, focus =>
    let border_l := text_width text_characters OPTION_ARROW_LEFT
    let border_r := text_width text_characters OPTION_ARROW_RIGHT
    let yy := wrap_int (wrap_int (y + Int.tdiv height 2)
      - Int.tdiv (text_height text_characters) 2)
    if sel = -1 then some []
    else
      let left :=
        if sel > 0 then
          if focus ≠ FOCUS_NONE then
            draw.text_draw_string_bouncy x yy OPTION_ARROW_LEFT .col_dark_red
          else draw.text_draw_string x yy OPTION_ARROW_LEFT .col_black
        else draw.text_draw_string x yy OPTION_ARROW_LEFT .col_grey
      match array_get item sel with
      | none => none
      | some child =>
        let xx := wrap_int (wrap_int (x + width) - border_r)
        let right :=
          if sel < (item.length : Int) - 1 then
            if focus ≠ FOCUS_NONE then
              draw.text_draw_string_bouncy xx yy OPTION_ARROW_RIGHT .col_dark_red
            else draw.text_draw_string xx yy OPTION_ARROW_RIGHT .col_black
          else draw.text_draw_string xx yy OPTION_ARROW_RIGHT .col_grey
        some [left,
          draw.render ⟨child, wrap_int (x + border_l), y,
            wrap_int (wrap_int (width - border_l) - border_r), height, focus⟩,
          right]
  | _, _, _, _, _, _ => none

/-- The value `focus_child` that `w_vbox_render` and `w_hbox_render` compute
for the child at index `nr`. -/
def focus_child (focus sel nr : Int) : Int :=
  if focus = FOCUS_ALL then FOCUS_ALL
  else if focus = FOCUS_ONE then (if sel = nr then FOCUS_ONE else FOCUS_NONE)
  else 0

/-- The loop `while (--nr >= 0)` of `w_vbox_render`; the first argument is the
value of `nr` before the decrement, so that the loop ends when it is 0 and
the iteration renders the child at that index less one. The two statements
`y +=` are two additions on an `int`. -/
def w_vbox_render_loop (list : widget_list_t) (spacing x width focus : Int) :
    Nat → Int → Option (List draw)
  | 0, _ => some []
  | nr + 1, y =>
    match array_get list.item (nr : Int) with
    | none => none
    | some w =>
      match w_vbox_render_loop list spacing x width focus nr
          (wrap_int (wrap_int (y + w.height) + spacing)) with
      | none => none
      | some ds =>
        some (draw.render ⟨w, x, y, width, w.height, focus_child focus list.sel (nr : Int)⟩
          :: ds)

/-- The function `w_vbox_render`. The statement `y += height - widget->height`
is a subtraction and an addition on an `int`. -/
def w_vbox_render : widget_t → Int → Int → Int → Int → Int → Option (List draw)
  | .w_vbox c item sel spacing, x, y, width, height, focus =>
    w_vbox_render_loop ⟨sel, item⟩ spacing x width focus item.length
      (wrap_int (y + wrap_int (height - c.height)))
  | _, _, _, _, _, _ => none

/-- The loop `while (nr < list->nr)` of `w_hbox_render`, from index `nr`, with
`n` iterations left. The two statements `x +=` are two additions on an
`int`. -/
def w_hbox_render_loop (list : widget_list_t) (spacing y height focus : Int) :
    Nat → Int → Int → Option (List draw)
  | 0, _, _ => some []
  | n + 1, nr, x =>
    match array_get list.item nr with
    | none => none
    | some w =>
      match w_hbox_render_loop list spacing y height focus n (nr + 1)
          (wrap_int (wrap_int (x + w.width) + spacing)) with
      | none => none
      | some ds =>
        some (draw.render ⟨w, x, y, w.width, height, focus_child focus list.sel nr⟩ :: ds)

/-- The function `w_hbox_render`; its loop runs `list->nr` times. -/
def w_hbox_render : widget_t → Int → Int → Int → Int → Int → Option (List draw)
  | .w_hbox _ item sel spacing, x, y, _, height, focus =>
    w_hbox_render_loop ⟨sel, item⟩ spacing y height focus item.length 0 x
  | _, _, _, _, _, _ => none

/-- What a box passes to its child at index `i` as focus `f`, when the box is
rendered with `focus` and its cursor is `sel`: ALL for ALL; for ONE, ONE to
the child at the cursor and NONE to every other child; NONE for NONE. -/
def passes_focus (focus sel : Int) (i : Nat) (f : Int) : Prop :=
  (focus = FOCUS_ALL → f = FOCUS_ALL) ∧
  (focus = FOCUS_ONE → (sel = (i : Int) → f = FOCUS_ONE) ∧ (sel ≠ (i : Int) → f = FOCUS_NONE)) ∧
  (focus = FOCUS_NONE → f = FOCUS_NONE)

/-- The sum of the heights of the first `n` widgets of a list. -/
def heights_before (ws : List widget_t) (n : Nat) : Int :=
  ((ws.take n).map widget_t.height).sum

/-- The lower edge that the claim on the geometry of a vbox gives the child at
index `i`, for a vbox with the children `ws` and spacing `s` rendered into a
rectangle with lower edge `y` and height `height`: the upper edge of the
rectangle, less the heights of the children up to and including `i`, less `i`
times the spacing. -/
def vbox_child_y (ws : List widget_t) (s y height : Int) (i : Nat) : Int :=
  y + height - heights_before ws (i + 1) - (i : Int) * s

/-! ## Boxes reachable by appends and input events -/

mutual
/-- A widget tree in which every input handler can run: every text entry is in
a sound state (`entry_sound`), and the cursor of every vbox and hbox is -1 or
the index of a child that has an input handler, the children being such trees
again. The input handlers of action and option widgets read no child and no
buffer. -/
def widget_t.input_safe : widget_t → Prop
  | .w_text _ _ _ => True
  | .w_image _ _ => True
  | .w_action _ _ _ _ => True
  | .w_option _ _ _ _ _ => True
  | .w_vbox _ item sel _ =>
    widget_list_input_safe item ∧
      (sel = -1 ∨ (0 ≤ sel ∧ widget_list_item_has_input item sel.toNat = true))
  | .w_hbox _ item sel _ =>
    widget_list_input_safe item ∧
      (sel = -1 ∨ (0 ≤ sel ∧ widget_list_item_has_input item sel.toNat = true))
  | .w_entry c text max_len cursor_pos =>
    widget_t.entry_sound (.w_entry c text max_len cursor_pos)
/-- Every widget of the list is such a tree. -/
def widget_list_input_safe : List widget_t → Prop
  | [] => True
  | w :: ws => w.input_safe ∧ widget_list_input_safe ws
end

/-- An operation on a box: appending a widget, or an input event. -/
inductive box_op where
  | op_append (widget : widget_t)
  | op_input (event : Int)

/-- The widget that an operation appends, if it is an append. -/
def box_op.appended : box_op → List widget_t
  | .op_append widget => [widget]
  | .op_input _ => []

/-- Runs one operation on a vbox: `w_vbox_append`, or the input handler of the
box. -/
def w_vbox_step (K : ui_event_codes) (box : widget_t) : box_op → Option widget_t
  | .op_append widget => w_vbox_append box widget
  | .op_input event =>
    match widget_input K box event with
    | none => none
    | some (box1, _, _) => some box1

/-- Runs one operation on an hbox: `w_hbox_append`, or the input handler of
the box. -/
def w_hbox_step (K : ui_event_codes) (box : widget_t) : box_op → Option widget_t
  | .op_append widget => w_hbox_append box widget
  | .op_input event =>
    match widget_input K box event with
    | none => none
    | some (box1, _, _) => some box1

/-- Runs a sequence of operations on a box, first to last. -/
def box_run (step : widget_t → box_op → Option widget_t) :
    widget_t → List box_op → Option widget_t
  | box, [] => some box
  | box, op :: ops =>
    match step box op with
    | none => none
    | some box1 => box_run step box1 ops

/-- The cursor of a widget list is -1 or the index of one of its items, and
that item has an input handler. -/
def cursor_valid (item : List widget_t) (sel : Int) : Prop :=
  sel = -1 ∨ (0 ≤ sel ∧ sel < (item.length : Int) ∧
    ∃ w, array_get item sel = some w ∧ w.has_input = true)

/-- A sequence of operations on a box: text, action and text entry appended,
DOWN, the letter `a`, UP, UP, another action appended, DOWN, DOWN, DOWN. -/
def sample_box_ops : List box_op :=
  [.op_append (sample_text [72, 105] 30), .op_append sample_action,
    .op_append sample_entry, .op_input 2, .op_input 12, .op_input 1, .op_input 1,
    .op_append sample_action, .op_input 2, .op_input 2, .op_input 2]

/-! ## Gameplay input -/

/-- Numeric values of the letter events named in `GetMove`, enumerators of
`ui_event_t` like those of `ui_event_codes`. -/
structure game_key_codes where
  UI_EVENT_CHAR_g : Int
  UI_EVENT_CHAR_p : Int
  UI_EVENT_CHAR_n : Int
  UI_EVENT_CHAR_u : Int
  UI_EVENT_CHAR_f : Int

/-- The numbering of these events that goes with `sample_codes`. -/
def sample_game_keys : game_key_codes where
  UI_EVENT_CHAR_g := 18
  UI_EVENT_CHAR_p := 27
  UI_EVENT_CHAR_n := 25
  UI_EVENT_CHAR_u := 32
  UI_EVENT_CHAR_f := 17

/-- The entries of the array returned by `SDL_GetKeyState` that `GetMove`
reads: whether the key is held. -/
structure keystate_t where
  SDLK_LCTRL : Bool
  SDLK_DOWN : Bool
  SDLK_LEFT : Bool
  SDLK_RIGHT : Bool
  SDLK_UP : Bool

/-- The directions passed to `move_selector`. -/
inductive selector_dir where
  | SELECTOR_LEFT
  | SELECTOR_RIGHT
  | SELECTOR_UP
  | SELECTOR_DOWN

/-- Calls from `GetMove` and `poll_move` to functions that are not part of the
embedded code, recorded in program order. The camera calls are recorded by the
key that causes them (their arguments are floating point). -/
inductive game_call where
  | move_camera_down
  | move_camera_left
  | move_camera_right
  | move_camera_up
  | move_selector (dir : selector_dir)
  | select_piece (square : Int)
  | game_view_prev
  | game_view_next
  | game_undo
  | draw_scene
  | unload_theme
  | game_quit
  | dialog_promote_create (colour : Int)
  | game_make_move (source destination promotion_piece : Int)

/-- What `GetMove` works on: the event queue of the platform (next event
first), the dialog system, the calls made so far, and `fps_enabled`. -/
structure game_state where
  queue : List SDL_Event
  dialogs : globals
  calls : List game_call
  fps_enabled : Int

/-- The function `SDL_PollEvent`: with no event pending it returns 0;
otherwise it takes the next event off the queue and returns 1. -/
def SDL_PollEvent (queue : List SDL_Event) : Option (SDL_Event × List SDL_Event) :=
  match queue with
  | [] => none
  | event :: rest => some (event, rest)

/-- The statements of the body of the second loop of `GetMove`, up to its
final `break`, for the event that `SDL_PollEvent` delivered: the state
afterwards and the value of `retval`. `selector` is what `get_selector()`
returns; `system_dialog` and `ingame_dialog` are the pointers that
`dialog_system_create()` and `dialog_ingame_create()` return, and the memory
of the dialog system is taken to hold the dialogs they point to. -/
def GetMove_body (S : sdl_codes) (K : ui_event_codes) (G : game_key_codes)
    (selector : Int) (system_dialog ingame_dialog : Nat) (s : game_state)
    (event : SDL_Event) (retval : Int) : Option (game_state × Int) :=
  let ui_event := convert_event S K event
  match dialog_current s.dialogs with
  | none => none
  | some dialog =>
    if dialog ≠ 0 then
      match dialog_input K s.dialogs ui_event with
      | none => none
      | some dialogs => some ({ s with dialogs := dialogs }, retval)
    else if ui_event = K.UI_EVENT_LEFT then
      some ({ s with calls := s.calls ++ [.move_selector .SELECTOR_LEFT] }, retval)
    else if ui_event = K.UI_EVENT_RIGHT then
      some ({ s with calls := s.calls ++ [.move_selector .SELECTOR_RIGHT] }, retval)
    else if ui_event = K.UI_EVENT_UP then
      some ({ s with calls := s.calls ++ [.move_selector .SELECTOR_UP] }, retval)
    else if ui_event = K.UI_EVENT_DOWN then
      some ({ s with calls := s.calls ++ [.move_selector .SELECTOR_DOWN] }, retval)
    else if ui_event = K.UI_EVENT_ACTION then
      some ({ s with calls := s.calls ++ [.select_piece selector] }, selector)
    else if ui_event = K.UI_EVENT_ESCAPE then
      match dialog_open s.dialogs system_dialog with
      | none => none
      | some dialogs => some ({ s with dialogs := dialogs }, retval)
    else if ui_event = G.UI_EVENT_CHAR_g ∨ ui_event = K.UI_EVENT_EXTRA3 then
      match dialog_open s.dialogs ingame_dialog with
      | none => none
      | some dialogs => some ({ s with dialogs := dialogs }, retval)
    else if ui_event = G.UI_EVENT_CHAR_p then
      some ({ s with calls := s.calls ++ [.game_view_prev] }, retval)
    else if ui_event = G.UI_EVENT_CHAR_n then
      some ({ s with calls := s.calls ++ [.game_view_next] }, retval)
    else if ui_event = G.UI_EVENT_CHAR_u then
      some ({ s with calls := s.calls ++ [.game_undo] }, retval)
    else if ui_event = G.UI_EVENT_CHAR_f then
      some ({ s with fps_enabled := 1 - s.fps_enabled }, retval)
    else some (s, retval)

/-- The camera calls of `GetMove` for the arrow keys that are held, in the
order of the four `if` statements. -/
def GetMove_camera (keystate : keystate_t) : List game_call :=
  (if keystate.SDLK_DOWN then [game_call.move_camera_down] else []) ++
  (if keystate.SDLK_LEFT then [game_call.move_camera_left] else []) ++
  (if keystate.SDLK_RIGHT then [game_call.move_camera_right] else []) ++
  (if keystate.SDLK_UP then [game_call.move_camera_up] else [])

/-- The function `GetMove`: the returned value and the state afterwards.
With the left control key held the camera is moved and the loop
`while (SDL_PollEvent(&event)) ;` takes every event off the queue. The second
loop `while (SDL_PollEvent(&event)) { ...; break; }` ends its body with an
unconditional `break`, so its body runs once if an event is pending and not
at all otherwise. -/
def GetMove (S : sdl_codes) (K : ui_event_codes) (G : game_key_codes)
    (keystate : keystate_t) (selector : Int) (system_dialog ingame_dialog : Nat)
    (s : game_state) : Option (Int × game_state) :=
  let s1 :=
    if keystate.SDLK_LCTRL then
      { s with calls := s.calls ++ GetMove_camera keystate, queue := [] }
    else s
  match SDL_PollEvent s1.queue with
  | none => some (-1, s1)
  | some (event, rest) =>
    match GetMove_body S K G selector system_dialog ingame_dialog
        { s1 with queue := rest } event (-1) with
    | none => none
    | some (s2, retval) => some (retval, s2)

/-- A key-down event of the left arrow key, no modifier held. -/
def sample_left_event : SDL_Event where
  type := 2
  sym := 276
  mod := 0
  jhat_value := 0
  jbutton_button := 0

/-- No key held. -/
def sample_keystate : keystate_t where
  SDLK_LCTRL := false
  SDLK_DOWN := false
  SDLK_LEFT := false
  SDLK_RIGHT := false
  SDLK_UP := false

/-- A game in which no dialog is open, with two key-down events of the left
arrow key pending. -/
def sample_game : game_state where
  queue := [sample_left_event, sample_left_event]
  dialogs := globals.init sample_heap
  calls := []
  fps_enabled := 0

/-! ## Selecting a move -/

/-- The macros and constants of the board header that `poll_move` uses; the
header is not among the sources, so they are taken as a parameter of the
embedding. -/
structure board_codes where
  PIECE : Int → Int
  COLOUR : Int → Int
  NONE : Int
  WHITE_PAWN : Int
  BLACK_PAWN : Int

/-- One possible coding of the squares, used to evaluate the embedding on
concrete inputs: white is 0 and black is 1, the pawn is 0, the knight 2, the
bishop 4, the rook 6, the queen 8 and the king 10, a piece is the sum of its
kind and its colour, and 12 is the empty square. -/
def sample_board_codes : board_codes where
  PIECE := fun x => x - x % 2
  COLOUR := fun x => x % 2
  NONE := 12
  WHITE_PAWN := 0
  BLACK_PAWN := 1

/-- The fields `square` and `turn` of the global `board`. -/
structure board_t where
  square : List Int
  turn : Int

/-- The static variables `source`, `dest` and `needprom` of `poll_move`. -/
structure poll_state where
  source : Int
  dest : Int
  needprom : Int

/-- What a call of `poll_move` reads besides its static variables: the global
`quit_to_menu`, the value `input` that `GetMove()` returns, the value that
`game_want_move()` returns, the globals `board`, `flip_board` and
`dialog_promote_piece`. -/
structure poll_input where
  quit_to_menu : Int
  input : Int
  want_move : Int
  board : board_t
  flip_board : Int
  dialog_promote_piece : Int

/-- The function `poll_move`: the static variables afterwards and the calls
made (the call of `GetMove` apart, whose result is an input). A read of
`board.square` outside the array has no defined result. The assignment
`quit_to_menu = 0` goes to a global that is an input here. -/
def poll_move (B : board_codes) (s : poll_state) (i : poll_input) :
    Option (poll_state × List game_call) :=
  if i.quit_to_menu ≠ 0 then
    some (⟨-1, -1, 0⟩, [.draw_scene, .unload_theme, .game_quit])
  else
    let s1 : poll_state := if i.want_move = 0 then ⟨-1, -1, 0⟩ else s
    if s1.source = -1 then
      let source := if i.input ≥ 0 ∧ i.flip_board ≠ 0 then 63 - i.input else i.input
      if source ≥ 0 then
        match array_get i.board.square source with
        | none => none
        | some piece =>
          if B.PIECE piece = B.NONE ∨ B.COLOUR piece ≠ i.board.turn then
            some ({ s1 with source := -1 }, [.draw_scene])
          else some ({ s1 with source := source }, [.draw_scene])
      else some ({ s1 with source := source }, [.draw_scene])
    else if s1.dest = -1 then
      if i.input ≥ 0 then
        let dest := if i.flip_board ≠ 0 then 63 - i.input else i.input
        match array_get i.board.square dest with
        | none => none
        | some piece =>
          if B.PIECE piece ≠ B.NONE ∧ B.COLOUR piece = i.board.turn then
            some ({ s1 with dest := -1, source := i.input }, [.draw_scene])
          else some ({ s1 with dest := dest }, [.draw_scene, .select_piece (-1)])
      else some ({ s1 with dest := i.input }, [.draw_scene])
    else if s1.needprom = 1 then
      if i.dialog_promote_piece ≠ B.NONE then
        some ({ s1 with needprom := 2 }, [.draw_scene])
      else some (s1, [.draw_scene])
    else
      match (if s1.needprom = 0 then array_get i.board.square s1.source else some 0) with
      | none => none
      | some piece =>
        if s1.needprom = 0 ∧
            ((piece = B.WHITE_PAWN ∧ s1.dest ≥ 56) ∨ (piece = B.BLACK_PAWN ∧ s1.dest ≤ 7)) then
          some ({ s1 with needprom := 1 },
            [.draw_scene, .dialog_promote_create (B.COLOUR piece)])
        else
          some (⟨-1, -1, 0⟩,
            [.draw_scene,
              .game_make_move s1.source s1.dest
                (if s1.needprom = 2 then i.dialog_promote_piece else B.NONE)])

/-- The property that the claim on `poll_move` states of the stored source
square: if it is not negative, it is an index from 0 to 63 of the board, and
the square there holds a piece of the player to move. -/
def source_valid (B : board_codes) (board : board_t) (source : Int) : Prop :=
  source ≥ 0 → source ≤ 63 ∧
    ∃ piece, array_get board.square source = some piece ∧
      B.PIECE piece ≠ B.NONE ∧ B.COLOUR piece = board.turn

/-- The position after the first move of the white king's pawn, black to
move: square 0 is a1, square 63 is h8. -/
def sample_board : board_t where
  square :=
    [6, 2, 4, 8, 10, 4, 2, 6,
     0, 0, 0, 0, 12, 0, 0, 0,
     12, 12, 12, 12, 12, 12, 12, 12,
     12, 12, 12, 12, 0, 12, 12, 12,
     12, 12, 12, 12, 12, 12, 12, 12,
     12, 12, 12, 12, 12, 12, 12, 12,
     1, 1, 1, 1, 1, 1, 1, 1,
     7, 3, 5, 9, 11, 5, 3, 7]
  turn := 1

/-- The inputs of a call of `poll_move` on `sample_board` with the board
flipped, a move wanted and `input` returned by `GetMove`. -/
def sample_poll_input (input : Int) : poll_input where
  quit_to_menu := 0
  input := input
  want_move := 1
  board := sample_board
  flip_board := 1
  dialog_promote_piece := 12

/-! ## Facts about arrays -/

theorem array_get_natCast {α : Type} (a : List α) (n : Nat) :
    array_get a (n : Int) = a.get? n := by
  simp [array_get]

theorem array_get_of_lt {α : Type} (a : List α) (n : Nat) (h : n < a.length) :
    array_get a (n : Int) = some (a.get ⟨n, h⟩) := by
  rw [array_get_natCast, List.get?_eq_get h]

theorem array_set_natCast {α : Type} (a : List α) (n : Nat) (v : α) (h : n < a.length) :
    array_set a (n : Int) v = some (a.set n v) := by
  simp [array_set, h]

theorem take_succ_set {α : Type} (a : List α) (n : Nat) (v : α) (h : n < a.length) :
    (a.set n v).take (n + 1) = a.take n ++ [v] := by
  induction a generalizing n with
  | nil => simp at h
  | cons x xs ih =>
    cases n with
    | zero => simp
    | succ m =>
      have hm : m < xs.length := by simpa using h
      simp [List.set, List.take, ih m hm]

theorem take_set_same {α : Type} (a : List α) (n : Nat) (v : α) :
    (a.set n v).take n = a.take n := by
  induction a generalizing n with
  | nil => simp
  | cons x xs ih =>
    cases n with
    | zero => simp
    | succ m => simp [List.set, List.take, ih m]

theorem getLast?_take_succ {α : Type} (a : List α) (n : Nat) (h : n < a.length) :
    (a.take (n + 1)).getLast? = some (a.get ⟨n, h⟩) := by
  induction a generalizing n with
  | nil => simp at h
  | cons x xs ih =>
    cases n with
    | zero => simp
    | succ m =>
      have hm : m < xs.length := by simpa using h
      have h1 := ih m hm
      cases hxs : xs.take (m + 1) with
      | nil => simp [hxs] at h1
      | cons y ys =>
        rw [hxs] at h1
        simp only [List.take_succ_cons, hxs, List.getLast?_cons_cons, h1]
        simp

/-! ## The dialog stack -/

theorem dialog_current_eq (s : globals) (n : Nat) (hn : s.dialog_nr = (n : Int))
    (hlen : n ≤ s.dialog_stack.length) :
    dialog_current s = some (s.open_dialogs.getLast?.getD 0) := by
  unfold dialog_current globals.open_dialogs
  cases n with
  | zero => simp [hn]
  | succ m =>
    have hm : m < s.dialog_stack.length := hlen
    have h0 : ¬ s.dialog_nr = 0 := by omega
    have h1 : s.dialog_nr - 1 = (m : Int) := by omega
    have h2 : s.dialog_nr.toNat = m + 1 := by omega
    rw [if_neg h0, h1, h2, array_get_of_lt _ _ hm, getLast?_take_succ _ _ hm]
    rfl

/-- Claim C1. With fewer than `DIALOG_MAX` open and fewer than `DIALOG_MAX`
pending dialogs, `dialog_open(d)` followed by `dialog_close()` both return, and
afterwards `dialog_current()` returns what it returned before (the previous top
of the stack, `NULL` for an empty stack), the open dialogs and their count are
as before, `d` is the last pending dialog, and nothing was destroyed: no
effect was recorded and the dialogs in memory are untouched. -/
theorem C1_open_then_close (s : globals) (d : Nat) (hs : s.sized)
    (h1 : 0 ≤ s.dialog_nr) (h2 : s.dialog_nr < DIALOG_MAX)
    (h3 : 0 ≤ s.dialog_closed_nr) (h4 : s.dialog_closed_nr < DIALOG_MAX) :
    ∃ s1 s2, dialog_open s d = some s1 ∧ dialog_close s1 = some s2 ∧
      dialog_current s2 = dialog_current s ∧
      dialog_current s2 = some (s.open_dialogs.getLast?.getD 0) ∧
      s2.open_dialogs = s.open_dialogs ∧ s2.dialog_nr = s.dialog_nr ∧
      s2.pending = s.pending ++ [d] ∧
      s2.dialog_closed_nr = s.dialog_closed_nr + 1 ∧
      s2.heap = s.heap ∧ s2.log = s.log := by
  obtain ⟨hl1, hl2⟩ := hs
  obtain ⟨n, hn⟩ := Int.eq_ofNat_of_zero_le h1
  obtain ⟨m, hm⟩ := Int.eq_ofNat_of_zero_le h3
  have hD : DIALOG_MAX = 10 := rfl
  have hn10 : n < s.dialog_stack.length := by omega
  have hm10 : m < s.dialog_closed.length := by omega
  have hopen : dialog_open s d
      = some { s with dialog_stack := s.dialog_stack.set n d, dialog_nr := s.dialog_nr + 1 } := by
    unfold dialog_open
    rw [if_neg (by omega), hn, array_set_natCast _ _ _ hn10]
  have hget : array_get (s.dialog_stack.set n d) ((n : Int) + 1 - 1) = some d := by
    have : ((n : Int) + 1 - 1) = (n : Int) := by omega
    rw [this, array_get_natCast]
    simp [List.get?_eq_getElem?, hn10]
  have hclose : dialog_close
      { s with dialog_stack := s.dialog_stack.set n d, dialog_nr := s.dialog_nr + 1 }
      = some { s with dialog_stack := s.dialog_stack.set n d, dialog_nr := s.dialog_nr + 1 - 1,
                      dialog_closed := s.dialog_closed.set m d,
                      dialog_closed_nr := s.dialog_closed_nr + 1 } := by
    unfold dialog_close
    simp only []
    rw [if_neg (by omega), hn, hget]
    simp only []
    rw [if_neg (by omega), hm, array_set_natCast _ _ _ hm10]
  refine ⟨_, _, hopen, hclose, ?_, ?_, ?_, ?_, ?_, ?_, rfl, rfl⟩
  · rw [dialog_current_eq s n hn (by omega)]
    rw [dialog_current_eq _ n (by simp only []; omega) (by simp only [List.length_set]; omega)]
    simp only [globals.open_dialogs]
    have e1 : (s.dialog_nr + 1 - 1).toNat = n := by omega
    have e2 : s.dialog_nr.toNat = n := by omega
    rw [e1, e2, take_set_same]
  · rw [dialog_current_eq _ n (by simp only []; omega) (by simp only [List.length_set]; omega)]
    simp only [globals.open_dialogs]
    have e1 : (s.dialog_nr + 1 - 1).toNat = n := by omega
    have e2 : s.dialog_nr.toNat = n := by omega
    rw [e1, e2, take_set_same]
  · simp only [globals.open_dialogs]
    have e1 : (s.dialog_nr + 1 - 1).toNat = n := by omega
    have e2 : s.dialog_nr.toNat = n := by omega
    rw [e1, e2, take_set_same]
  · simp only []
    omega
  · simp only [globals.pending]
    have e1 : (s.dialog_closed_nr + 1).toNat = m + 1 := by omega
    have e2 : s.dialog_closed_nr.toNat = m := by omega
    rw [e1, e2, take_succ_set _ _ _ hm10]
  · rfl

/-- Claim C1 at `sample_state`, opening and closing the dialog at address 14. -/
theorem C1_open_then_close_witness :
    sample_state.sized ∧ 0 ≤ sample_state.dialog_nr ∧ sample_state.dialog_nr < DIALOG_MAX ∧
    0 ≤ sample_state.dialog_closed_nr ∧ sample_state.dialog_closed_nr < DIALOG_MAX ∧
    ∃ s1 s2, dialog_open sample_state 14 = some s1 ∧ dialog_close s1 = some s2 ∧
      dialog_current s2 = dialog_current sample_state ∧
      dialog_current s2 = some (sample_state.open_dialogs.getLast?.getD 0) ∧
      s2.open_dialogs = sample_state.open_dialogs ∧ s2.dialog_nr = sample_state.dialog_nr ∧
      s2.pending = sample_state.pending ++ [14] ∧
      s2.dialog_closed_nr = sample_state.dialog_closed_nr + 1 ∧
      s2.heap = sample_state.heap ∧ s2.log = sample_state.log :=
  ⟨⟨rfl, rfl⟩, by decide, by decide, by decide, by decide,
    C1_open_then_close sample_state 14 ⟨rfl, rfl⟩ (by decide) (by decide) (by decide)
      (by decide)⟩

theorem dialog_open_full (s : globals) (d : Nat) (h : s.dialog_nr = DIALOG_MAX) :
    dialog_open s d
      = some { s with log := s.log ++ [effect.printf "Too many open dialogs.\n"] } := by
  unfold dialog_open
  rw [if_pos h]

theorem dialog_open_not_full (s : globals) (d : Nat) (n : Nat) (hn : s.dialog_nr = (n : Int))
    (hlt : n < s.dialog_stack.length) (h10 : s.dialog_nr ≠ DIALOG_MAX) :
    dialog_open s d
      = some { s with dialog_stack := s.dialog_stack.set n d, dialog_nr := s.dialog_nr + 1 } := by
  unfold dialog_open
  rw [if_neg h10, hn, array_set_natCast _ _ _ hlt]

theorem dialog_open_bounds (s : globals) (d : Nat) (hs : s.sized) (h0 : 0 ≤ s.dialog_nr)
    (h10 : s.dialog_nr ≤ DIALOG_MAX) :
    ∃ s1, dialog_open s d = some s1 ∧ s1.sized ∧ 0 ≤ s1.dialog_nr ∧
      s1.dialog_nr ≤ DIALOG_MAX := by
  have hD : DIALOG_MAX = 10 := rfl
  by_cases hfull : s.dialog_nr = DIALOG_MAX
  · exact ⟨_, dialog_open_full s d hfull, hs, h0, h10⟩
  · obtain ⟨n, hn⟩ := Int.eq_ofNat_of_zero_le h0
    obtain ⟨hl1, hl2⟩ := hs
    refine ⟨_, dialog_open_not_full s d n hn (by omega) hfull, ⟨?_, hl2⟩, ?_, ?_⟩
    · simp only [List.length_set]; exact hl1
    · simp only []; omega
    · simp only []; omega

theorem dialog_run_opens_bounds (ds : List Nat) :
    ∀ s : globals, s.sized → 0 ≤ s.dialog_nr → s.dialog_nr ≤ DIALOG_MAX →
      ∃ s1, dialog_run s (ds.map dialog_op.op_open) = some s1 ∧ s1.sized ∧
        0 ≤ s1.dialog_nr ∧ s1.dialog_nr ≤ DIALOG_MAX := by
  induction ds with
  | nil => intro s hs h0 h10; exact ⟨s, rfl, hs, h0, h10⟩
  | cons d ds ih =>
    intro s hs h0 h10
    obtain ⟨s1, e1, hs1, h01, h101⟩ := dialog_open_bounds s d hs h0 h10
    obtain ⟨s2, e2, r⟩ := ih s1 hs1 h01 h101
    refine ⟨s2, ?_, r⟩
    simp only [List.map_cons, dialog_run, dialog_step, e1, e2]

/-- Claim C2. With `DIALOG_MAX` dialogs open, `dialog_open(d)` returns and
leaves the counter at 10, every entry of the stack array (and so the open
dialogs and the result of `dialog_current()`) unchanged, and the pending array
and its counter unchanged; and from any state with between 0 and 10 open
dialogs, every sequence of calls of `dialog_open` returns with at most 10 open
dialogs. -/
theorem C2_open_on_full_stack (s : globals) (d : Nat) (hs : s.sized)
    (h : s.dialog_nr = DIALOG_MAX) :
    (∃ s1, dialog_open s d = some s1 ∧ s1.dialog_nr = 10 ∧
      s1.dialog_stack = s.dialog_stack ∧ s1.open_dialogs = s.open_dialogs ∧
      s1.open_dialogs.length = 10 ∧
      dialog_current s1 = dialog_current s ∧
      s1.dialog_closed = s.dialog_closed ∧ s1.dialog_closed_nr = s.dialog_closed_nr ∧
      s1.pending = s.pending ∧ s1.heap = s.heap) ∧
    (∀ (s0 : globals) (ds : List Nat), s0.sized → 0 ≤ s0.dialog_nr →
      s0.dialog_nr ≤ DIALOG_MAX →
      ∃ s1, dialog_run s0 (ds.map dialog_op.op_open) = some s1 ∧ 0 ≤ s1.dialog_nr ∧
        s1.dialog_nr ≤ 10 ∧ s1.open_dialogs.length ≤ 10) := by
  refine ⟨⟨_, dialog_open_full s d h, h, rfl, rfl, ?_, rfl, rfl, rfl, rfl, rfl⟩, ?_⟩
  · have hD : DIALOG_MAX = 10 := rfl
    simp only [globals.open_dialogs, List.length_take, hs.1]
    omega
  · intro s0 ds hs0 h0 h10
    obtain ⟨s1, e, hs1, h01, h101⟩ := dialog_run_opens_bounds ds s0 hs0 h0 h10
    refine ⟨s1, e, h01, h101, ?_⟩
    simp only [globals.open_dialogs, List.length_take, hs1.1]
    omega

/-- Claim C2 at `sample_full_state`, opening the dialog at address 14. -/
theorem C2_open_on_full_stack_witness :
    sample_full_state.sized ∧ sample_full_state.dialog_nr = DIALOG_MAX ∧
    ((∃ s1, dialog_open sample_full_state 14 = some s1 ∧ s1.dialog_nr = 10 ∧
      s1.dialog_stack = sample_full_state.dialog_stack ∧
      s1.open_dialogs = sample_full_state.open_dialogs ∧
      s1.open_dialogs.length = 10 ∧
      dialog_current s1 = dialog_current sample_full_state ∧
      s1.dialog_closed = sample_full_state.dialog_closed ∧
      s1.dialog_closed_nr = sample_full_state.dialog_closed_nr ∧
      s1.pending = sample_full_state.pending ∧ s1.heap = sample_full_state.heap) ∧
    (∀ (s0 : globals) (ds : List Nat), s0.sized → 0 ≤ s0.dialog_nr →
      s0.dialog_nr ≤ DIALOG_MAX →
      ∃ s1, dialog_run s0 (ds.map dialog_op.op_open) = some s1 ∧ 0 ≤ s1.dialog_nr ∧
        s1.dialog_nr ≤ 10 ∧ s1.open_dialogs.length ≤ 10)) :=
  ⟨⟨rfl, rfl⟩, rfl, C2_open_on_full_stack sample_full_state 14 ⟨rfl, rfl⟩ rfl⟩

theorem take_succ_get {α : Type} (a : List α) (n : Nat) (h : n < a.length) :
    a.take (n + 1) = a.take n ++ [a.get ⟨n, h⟩] := by
  induction a generalizing n with
  | nil => simp at h
  | cons x xs ih =>
    cases n with
    | zero => simp
    | succ m =>
      have hm : m < xs.length := by simpa using h
      rw [List.take_succ_cons, ih m hm]
      rfl

theorem dialog_close_empty (s : globals) (h : s.dialog_nr = 0) :
    dialog_close s = some { s with log := s.log ++ [effect.printf "No open dialogs.\n"] } := by
  unfold dialog_close
  rw [if_pos h]

theorem dialog_close_pending_full (s : globals) (n : Nat) (hn : s.dialog_nr = (n : Int) + 1)
    (hlt : n < s.dialog_stack.length) (hfull : s.dialog_closed_nr = DIALOG_MAX) :
    dialog_close s = some { s with
      dialog_nr := s.dialog_nr - 1,
      log := s.log ++ [effect.printf "Too many to-be-destroyed dialogs.\n"] } := by
  unfold dialog_close
  have h1 : s.dialog_nr - 1 = (n : Int) := by omega
  rw [if_neg (by omega), h1, array_get_of_lt _ _ hlt]
  simp only []
  rw [if_pos hfull]

theorem dialog_close_move (s : globals) (n m : Nat) (hn : s.dialog_nr = (n : Int) + 1)
    (hlt : n < s.dialog_stack.length) (hm : s.dialog_closed_nr = (m : Int))
    (hmlt : m < s.dialog_closed.length) (hfull : s.dialog_closed_nr ≠ DIALOG_MAX) :
    dialog_close s = some { s with
      dialog_nr := s.dialog_nr - 1,
      dialog_closed := s.dialog_closed.set m (s.dialog_stack.get ⟨n, hlt⟩),
      dialog_closed_nr := s.dialog_closed_nr + 1 } := by
  unfold dialog_close
  have h1 : s.dialog_nr - 1 = (n : Int) := by omega
  rw [if_neg (by omega), h1, array_get_of_lt _ _ hlt]
  simp only []
  rw [if_neg hfull, hm, array_set_natCast _ _ _ hmlt]

theorem drop_take_succ {α : Type} (a : List α) (i n : Nat) (h : i < a.length) :
    (a.drop i).take (n + 1) = a.get ⟨i, h⟩ :: (a.drop (i + 1)).take n := by
  rw [List.drop_eq_getElem_cons h, List.take_succ_cons]
  rfl

theorem dialog_cleanup_loop_eq (n : Nat) :
    ∀ (i : Nat) (s : globals), i + n ≤ s.dialog_closed.length →
      (∀ p ∈ (s.dialog_closed.drop i).take n, (s.heap p).isSome = true) →
      dialog_cleanup_loop n (i : Int) s = some { s with
        log := s.log ++ dialog_destroy_all_effects s.heap ((s.dialog_closed.drop i).take n) } := by
  induction n with
  | zero =>
    intro i s _ _
    simp [dialog_cleanup_loop, dialog_destroy_all_effects]
  | succ n ih =>
    intro i s hlen hval
    have hi : i < s.dialog_closed.length := by omega
    rw [drop_take_succ _ _ _ hi] at hval ⊢
    have hp := hval _ (List.mem_cons_self _ _)
    obtain ⟨d, hd⟩ := Option.isSome_iff_exists.mp hp
    have hstep : dialog_destroy s (s.dialog_closed.get ⟨i, hi⟩)
        = some { s with log := s.log ++ widget_destroy d.widget
            ++ [effect.free_dialog (s.dialog_closed.get ⟨i, hi⟩)] } := by
      simp only [dialog_destroy, hd]
    have hih := ih (i + 1) { s with log := s.log ++ widget_destroy d.widget
            ++ [effect.free_dialog (s.dialog_closed.get ⟨i, hi⟩)] } (by simp only []; omega)
            (fun p hp => hval p (List.mem_cons_of_mem _ hp))
    have hcast : ((i : Int) + 1) = ((i + 1 : Nat) : Int) := by push_cast; rfl
    simp only [dialog_cleanup_loop, array_get_of_lt _ _ hi, hstep, hcast]
    rw [hih]
    simp only [dialog_destroy_all_effects, dialog_destroy_effects, hd, List.append_assoc]

theorem dialog_cleanup_eq (s : globals) (hlen : s.dialog_closed_nr.toNat ≤ s.dialog_closed.length)
    (hval : ∀ p ∈ s.pending, (s.heap p).isSome = true) :
    dialog_cleanup s = some { s with
      log := s.log ++ dialog_destroy_all_effects s.heap s.pending,
      dialog_closed_nr := 0 } := by
  have h := dialog_cleanup_loop_eq s.dialog_closed_nr.toNat 0 s (by omega)
    (by simpa [globals.pending] using hval)
  simp only [List.drop_zero, Nat.cast_zero] at h
  simp only [dialog_cleanup, h, globals.pending]

theorem nodup_insert_middle {α : Type} (o p : List α) (d : α) (h : (o ++ p).Nodup)
    (hd : d ∉ o ++ p) : (o ++ [d] ++ p).Nodup := by
  rw [List.append_assoc, List.singleton_append, List.nodup_middle, List.nodup_cons]
  exact ⟨hd, h⟩

theorem nodup_remove_middle {α : Type} (o p : List α) (t : α) (h : (o ++ [t] ++ p).Nodup) :
    (o ++ p).Nodup ∧ t ∉ o ++ p := by
  rw [List.append_assoc, List.singleton_append, List.nodup_middle, List.nodup_cons] at h
  exact ⟨h.2, h.1⟩

theorem nodup_move_to_end {α : Type} (o p : List α) (t : α) (h : (o ++ [t] ++ p).Nodup) :
    (o ++ (p ++ [t])).Nodup := by
  have h2 := nodup_remove_middle o p t h
  rw [← List.append_assoc, List.nodup_append_comm, List.singleton_append, List.nodup_cons]
  exact ⟨h2.2, h2.1⟩

theorem dialog_step_inv (s : globals) (op : dialog_op) (hinv : s.inv)
    (hval : ∀ p ∈ s.open_dialogs ++ s.pending, (s.heap p).isSome = true)
    (hfresh : ∀ d ∈ op.opened, d ∉ s.open_dialogs ++ s.pending) :
    ∃ s1, dialog_step s op = some s1 ∧ s1.inv ∧ s1.heap = s.heap ∧
      ∀ p ∈ s1.open_dialogs ++ s1.pending,
        p ∈ s.open_dialogs ++ s.pending ∨ p ∈ op.opened := by
  obtain ⟨⟨hl1, hl2⟩, h0, h10, hc0, hc10, hnd⟩ := hinv
  have hD : DIALOG_MAX = 10 := rfl
  obtain ⟨n, hn⟩ := Int.eq_ofNat_of_zero_le h0
  obtain ⟨m, hm⟩ := Int.eq_ofNat_of_zero_le hc0
  have en : s.dialog_nr.toNat = n := by omega
  have em : s.dialog_closed_nr.toNat = m := by omega
  cases op with
  | op_open d =>
    by_cases hfull : s.dialog_nr = DIALOG_MAX
    · refine ⟨_, dialog_open_full s d hfull, ⟨⟨hl1, hl2⟩, h0, h10, hc0, hc10, hnd⟩, rfl, ?_⟩
      intro p hp
      exact Or.inl hp
    · have hlt : n < s.dialog_stack.length := by omega
      have hopen : ({ s with
              dialog_stack := s.dialog_stack.set n d,
              dialog_nr := s.dialog_nr + 1 }
            : globals).open_dialogs = s.open_dialogs ++ [d] := by
        simp only [globals.open_dialogs]
        have e1 : (s.dialog_nr + 1).toNat = n + 1 := by omega
        rw [e1, en, take_succ_set _ _ _ hlt]
      have hd : d ∉ s.open_dialogs ++ s.pending := hfresh d (by simp [dialog_op.opened])
      refine ⟨_, dialog_open_not_full s d n hn hlt hfull, ⟨⟨?_, hl2⟩, ?_, ?_, hc0, hc10, ?_⟩,
        rfl, ?_⟩
      · simp only [List.length_set]; exact hl1
      · simp only []; omega
      · simp only []; omega
      · rw [hopen]
        have hpend : ({ s with
              dialog_stack := s.dialog_stack.set n d,
              dialog_nr := s.dialog_nr + 1 }
            : globals).pending = s.pending := rfl
        rw [hpend]
        exact nodup_insert_middle _ _ _ hnd hd
      · intro p hp
        rw [hopen] at hp
        have hpend : ({ s with
              dialog_stack := s.dialog_stack.set n d,
              dialog_nr := s.dialog_nr + 1 }
            : globals).pending = s.pending := rfl
        rw [hpend] at hp
        simp only [List.mem_append, List.mem_singleton, dialog_op.opened] at hp ⊢
        tauto
  | op_close =>
    cases n with
    | zero =>
      have hz : s.dialog_nr = 0 := by simpa using hn
      refine ⟨_, dialog_close_empty s hz, ⟨⟨hl1, hl2⟩, h0, h10, hc0, hc10, hnd⟩, rfl, ?_⟩
      intro p hp
      exact Or.inl hp
    | succ k =>
      have hk : s.dialog_nr = (k : Int) + 1 := by simpa using hn
      have hlt : k < s.dialog_stack.length := by omega
      have hopen : s.open_dialogs
          = s.dialog_stack.take k ++ [s.dialog_stack.get ⟨k, hlt⟩] := by
        simp only [globals.open_dialogs]
        rw [en, take_succ_get _ _ hlt]
      have e1 : (s.dialog_nr - 1).toNat = k := by omega
      by_cases hfull : s.dialog_closed_nr = DIALOG_MAX
      · have ho1 : ({ s with
              dialog_nr := s.dialog_nr - 1,
              log := s.log ++ [effect.printf "Too many to-be-destroyed dialogs.\n"] }
            : globals).open_dialogs = s.dialog_stack.take k := by
          simp only [globals.open_dialogs]
          rw [e1]
        have hp1 : ({ s with
              dialog_nr := s.dialog_nr - 1,
              log := s.log ++ [effect.printf "Too many to-be-destroyed dialogs.\n"] }
            : globals).pending = s.pending := rfl
        refine ⟨_, dialog_close_pending_full s k hk hlt hfull,
          ⟨⟨hl1, hl2⟩, ?_, ?_, hc0, hc10, ?_⟩, rfl, ?_⟩
        · simp only []; omega
        · simp only []; omega
        · rw [ho1, hp1]
          rw [hopen] at hnd
          exact (nodup_remove_middle _ _ _ hnd).1
        · intro p hp
          rw [ho1, hp1] at hp
          rw [hopen]
          simp only [List.mem_append, List.mem_singleton] at hp ⊢
          tauto
      · have hmlt : m < s.dialog_closed.length := by omega
        have ho1 : ({ s with
              dialog_nr := s.dialog_nr - 1,
              dialog_closed := s.dialog_closed.set m (s.dialog_stack.get ⟨k, hlt⟩),
              dialog_closed_nr := s.dialog_closed_nr + 1 }
            : globals).open_dialogs
              = s.dialog_stack.take k := by
          simp only [globals.open_dialogs]
          rw [e1]
        have hp1 : ({ s with
              dialog_nr := s.dialog_nr - 1,
              dialog_closed := s.dialog_closed.set m (s.dialog_stack.get ⟨k, hlt⟩),
              dialog_closed_nr := s.dialog_closed_nr + 1 }
            : globals).pending
              = s.pending ++ [s.dialog_stack.get ⟨k, hlt⟩] := by
          simp only [globals.pending]
          have e2 : (s.dialog_closed_nr + 1).toNat = m + 1 := by omega
          rw [e2, em, take_succ_set _ _ _ hmlt]
        refine ⟨_, dialog_close_move s k m hk hlt hm hmlt hfull,
          ⟨⟨hl1, ?_⟩, ?_, ?_, ?_, ?_, ?_⟩, rfl, ?_⟩
        · simp only [List.length_set]; exact hl2
        · simp only []; omega
        · simp only []; omega
        · simp only []; omega
        · simp only []; omega
        · rw [ho1, hp1]
          rw [hopen] at hnd
          exact nodup_move_to_end _ _ _ hnd
        · intro p hp
          rw [ho1, hp1] at hp
          rw [hopen]
          simp only [List.mem_append, List.mem_singleton] at hp ⊢
          tauto
  | op_cleanup =>
    have hv : ∀ p ∈ s.pending, (s.heap p).isSome = true :=
      fun p hp => hval p (List.mem_append_right _ hp)
    have hp1 : ({ s with
              log := s.log ++ dialog_destroy_all_effects s.heap s.pending,
              dialog_closed_nr := 0 }
            : globals).pending = [] := by
      simp [globals.pending]
    have ho1 : ({ s with
              log := s.log ++ dialog_destroy_all_effects s.heap s.pending,
              dialog_closed_nr := 0 }
            : globals).open_dialogs = s.open_dialogs := rfl
    refine ⟨_, dialog_cleanup_eq s (by omega) hv,
      ⟨⟨hl1, hl2⟩, h0, h10, ?_, ?_, ?_⟩, rfl, ?_⟩
    · simp only []; omega
    · simp only []; omega
    · rw [ho1, hp1, List.append_nil]
      exact (List.nodup_append.mp hnd).1
    · intro p hp
      rw [ho1, hp1, List.append_nil] at hp
      exact Or.inl (List.mem_append_left _ hp)

theorem dialog_run_inv (ops : List dialog_op) :
    ∀ s : globals, s.inv →
      (∀ p ∈ s.open_dialogs ++ s.pending, (s.heap p).isSome = true) →
      (dialog_ops_opened ops).Nodup →
      (∀ d ∈ dialog_ops_opened ops, d ∉ s.open_dialogs ++ s.pending) →
      (∀ d ∈ dialog_ops_opened ops, (s.heap d).isSome = true) →
      ∃ s1, dialog_run s ops = some s1 ∧ s1.inv := by
  induction ops with
  | nil => intro s hinv _ _ _ _; exact ⟨s, rfl, hinv⟩
  | cons op ops ih =>
    intro s hinv hval hnd hfresh hvalid
    simp only [dialog_ops_opened, List.nodup_append] at hnd
    have hfresh : ∀ d, d ∈ op.opened ∨ d ∈ dialog_ops_opened ops →
        d ∉ s.open_dialogs ++ s.pending :=
      fun d hd => hfresh d (by simpa only [dialog_ops_opened, List.mem_append] using hd)
    have hvalid : ∀ d, d ∈ op.opened ∨ d ∈ dialog_ops_opened ops →
        (s.heap d).isSome = true :=
      fun d hd => hvalid d (by simpa only [dialog_ops_opened, List.mem_append] using hd)
    obtain ⟨s1, e1, hinv1, hheap, hsub⟩ :=
      dialog_step_inv s op hinv hval (fun d hd => hfresh d (Or.inl hd))
    have hval1 : ∀ p ∈ s1.open_dialogs ++ s1.pending, (s1.heap p).isSome = true := by
      intro p hp
      rw [hheap]
      rcases hsub p hp with h | h
      · exact hval p h
      · exact hvalid p (Or.inl h)
    have hfresh1 : ∀ d ∈ dialog_ops_opened ops, d ∉ s1.open_dialogs ++ s1.pending := by
      intro d hd hmem
      rcases hsub d hmem with h | h
      · exact hfresh d (Or.inr hd) h
      · exact hnd.2.2 h hd
    obtain ⟨s2, e2, hinv2⟩ := ih s1 hinv1 hval1 hnd.2.1 hfresh1
      (fun d hd => by rw [hheap]; exact hvalid d (Or.inr hd))
    exact ⟨s2, by simp only [dialog_run, e1, e2], hinv2⟩

theorem globals_init_inv (heap : Nat → Option dialog_t) : (globals.init heap).inv := by
  have hD : DIALOG_MAX = 10 := rfl
  refine ⟨⟨rfl, rfl⟩, ?_, ?_, ?_, ?_, ?_⟩
  · simp [globals.init]
  · simp [globals.init, hD]
  · simp [globals.init]
  · simp [globals.init, hD]
  · simp [globals.open_dialogs, globals.pending, globals.init]

/-- Claim C3. From the empty dialog system, every sequence of calls of
`dialog_open`, `dialog_close` and `dialog_cleanup` in which no dialog is
passed to `dialog_open` twice (and every dialog passed is a dialog in memory)
runs to the end, and in the state it reaches both counters lie between 0 and
10, no dialog occurs twice among the open dialogs or twice among the pending
dialogs, and no dialog is both open and pending. -/
theorem C3_dialog_invariant (heap : Nat → Option dialog_t) (ops : List dialog_op)
    (hfresh : (dialog_ops_opened ops).Nodup)
    (hvalid : ∀ d ∈ dialog_ops_opened ops, (heap d).isSome = true) :
    ∃ s, dialog_run (globals.init heap) ops = some s ∧
      0 ≤ s.dialog_nr ∧ s.dialog_nr ≤ 10 ∧
      0 ≤ s.dialog_closed_nr ∧ s.dialog_closed_nr ≤ 10 ∧
      s.open_dialogs.Nodup ∧ s.pending.Nodup ∧
      ∀ d, ¬ (d ∈ s.open_dialogs ∧ d ∈ s.pending) := by
  obtain ⟨s, e, hs, h0, h10, hc0, hc10, hnd⟩ :=
    dialog_run_inv ops (globals.init heap) (globals_init_inv heap)
      (by simp [globals.open_dialogs, globals.pending, globals.init]) hfresh
      (by simp [globals.open_dialogs, globals.pending, globals.init]) hvalid
  rw [List.nodup_append] at hnd
  exact ⟨s, e, h0, h10, hc0, hc10, hnd.1, hnd.2.1, fun d hd => hnd.2.2 hd.1 hd.2⟩

/-- Claim C3 for the calls `sample_ops` on the memory `sample_heap`. -/
theorem C3_dialog_invariant_witness :
    (dialog_ops_opened sample_ops).Nodup ∧
    (∀ d ∈ dialog_ops_opened sample_ops, (sample_heap d).isSome = true) ∧
    ∃ s, dialog_run (globals.init sample_heap) sample_ops = some s ∧
      0 ≤ s.dialog_nr ∧ s.dialog_nr ≤ 10 ∧
      0 ≤ s.dialog_closed_nr ∧ s.dialog_closed_nr ≤ 10 ∧
      s.open_dialogs.Nodup ∧ s.pending.Nodup ∧
      ∀ d, ¬ (d ∈ s.open_dialogs ∧ d ∈ s.pending) :=
  ⟨by decide, by decide,
    C3_dialog_invariant sample_heap sample_ops (by decide) (by decide)⟩

/-! ## Destruction -/

mutual
theorem widget_destroy_eq_subwidgets :
    ∀ w : widget_t, widget_destroy w = w.subwidgets.map effect.destroy
  | .w_text _ _ _ => by simp [widget_destroy, widget_t.subwidgets]
  | .w_image _ _ => by simp [widget_destroy, widget_t.subwidgets]
  | .w_action _ child _ _ => by
    simp [widget_destroy, widget_t.subwidgets, widget_destroy_eq_subwidgets child]
  | .w_option _ item _ _ _ => by
    simp [widget_destroy, widget_t.subwidgets, widget_list_destroy_eq_subwidgets item]
  | .w_vbox _ item _ _ => by
    simp [widget_destroy, widget_t.subwidgets, widget_list_destroy_eq_subwidgets item]
  | .w_hbox _ item _ _ => by
    simp [widget_destroy, widget_t.subwidgets, widget_list_destroy_eq_subwidgets item]
  | .w_entry _ _ _ _ => by simp [widget_destroy, widget_t.subwidgets]
theorem widget_list_destroy_eq_subwidgets :
    ∀ ws : List widget_t,
      widget_list_destroy ws = (widget_list_subwidgets ws).map effect.destroy
  | [] => by simp [widget_list_destroy, widget_list_subwidgets]
  | w :: ws => by
    simp [widget_list_destroy, widget_list_subwidgets, widget_destroy_eq_subwidgets w,
      widget_list_destroy_eq_subwidgets ws]
end

theorem freed_widget_destroy (w : widget_t) :
    (widget_destroy w).filterMap effect.freed = [] := by
  rw [widget_destroy_eq_subwidgets, List.filterMap_map]
  rw [List.filterMap_eq_nil_iff]
  intro a _
  rfl

theorem freed_dialog_destroy_all (heap : Nat → Option dialog_t) (ps : List Nat)
    (hval : ∀ p ∈ ps, (heap p).isSome = true) :
    (dialog_destroy_all_effects heap ps).filterMap effect.freed = ps := by
  induction ps with
  | nil => rfl
  | cons p ps ih =>
    obtain ⟨d, hd⟩ := Option.isSome_iff_exists.mp (hval p (List.mem_cons_self _ _))
    have ih1 := ih (fun q hq => hval q (List.mem_cons_of_mem _ hq))
    simp only [dialog_destroy_all_effects, dialog_destroy_effects, hd, List.filterMap_append,
      freed_widget_destroy, ih1, List.nil_append]
    rfl

/-- Claim C6. With at least one dialog open and `DIALOG_MAX` dialogs pending,
`dialog_close()` returns, takes the top dialog off the open stack (the count
drops by one), leaves the pending array and its count of 10 as they were and
destroys nothing; in a state where no dialog occurs twice, the dialog taken
off is afterwards neither open nor pending, and the next `dialog_cleanup()`
does not free it. -/
theorem C6_close_with_full_pending (s : globals) (hs : s.sized)
    (h1 : 1 ≤ s.dialog_nr) (h10 : s.dialog_nr ≤ DIALOG_MAX)
    (hfull : s.dialog_closed_nr = DIALOG_MAX)
    (hnd : (s.open_dialogs ++ s.pending).Nodup)
    (hval : ∀ p ∈ s.pending, (s.heap p).isSome = true) :
    ∃ s1 top, dialog_close s = some s1 ∧
      s.open_dialogs = s1.open_dialogs ++ [top] ∧ s1.dialog_nr = s.dialog_nr - 1 ∧
      s1.dialog_closed = s.dialog_closed ∧ s1.dialog_closed_nr = 10 ∧
      s1.pending = s.pending ∧ s1.pending.length = 10 ∧
      top ∉ s1.open_dialogs ∧ top ∉ s1.pending ∧
      s1.log.filterMap effect.freed = s.log.filterMap effect.freed ∧
      ∃ s2, dialog_cleanup s1 = some s2 ∧
        top ∉ (s2.log.drop s1.log.length).filterMap effect.freed := by
  obtain ⟨hl1, hl2⟩ := hs
  have hD : DIALOG_MAX = 10 := rfl
  obtain ⟨n, hn⟩ := Int.eq_ofNat_of_zero_le (by omega : 0 ≤ s.dialog_nr - 1)
  have hk : s.dialog_nr = (n : Int) + 1 := by omega
  have hlt : n < s.dialog_stack.length := by omega
  have hopen : s.open_dialogs = s.dialog_stack.take n ++ [s.dialog_stack.get ⟨n, hlt⟩] := by
    simp only [globals.open_dialogs]
    have en : s.dialog_nr.toNat = n + 1 := by omega
    rw [en, take_succ_get _ _ hlt]
  have ho1 : ({ s with
      dialog_nr := s.dialog_nr - 1,
      log := s.log ++ [effect.printf "Too many to-be-destroyed dialogs.\n"] }
        : globals).open_dialogs = s.dialog_stack.take n := by
    simp only [globals.open_dialogs]
    have e1 : (s.dialog_nr - 1).toNat = n := by omega
    rw [e1]
  have hp1 : ({ s with
      dialog_nr := s.dialog_nr - 1,
      log := s.log ++ [effect.printf "Too many to-be-destroyed dialogs.\n"] }
        : globals).pending = s.pending := rfl
  have hrem := nodup_remove_middle (s.dialog_stack.take n) s.pending
    (s.dialog_stack.get ⟨n, hlt⟩) (by rw [← hopen]; exact hnd)
  have htop : s.dialog_stack.get ⟨n, hlt⟩ ∉ s.dialog_stack.take n ∧
      s.dialog_stack.get ⟨n, hlt⟩ ∉ s.pending := by
    have := hrem.2
    simp only [List.mem_append, not_or] at this
    exact this
  have hplen : s.pending.length = 10 := by
    simp only [globals.pending, List.length_take, hl2]
    omega
  refine ⟨_, s.dialog_stack.get ⟨n, hlt⟩, dialog_close_pending_full s n hk hlt hfull, ?_, rfl,
    rfl, ?_, hp1, ?_, ?_, ?_, ?_, ?_⟩
  · rw [ho1, hopen]
  · simp only []; omega
  · rw [hp1]; exact hplen
  · rw [ho1]; exact htop.1
  · rw [hp1]; exact htop.2
  · simp [List.filterMap_append, effect.freed]
  · refine ⟨_, dialog_cleanup_eq _ (by simp only []; omega) (by rw [hp1]; exact hval), ?_⟩
    simp only [List.drop_left, hp1]
    rw [freed_dialog_destroy_all _ _ hval]
    exact htop.2

/-- Claim C6 at `sample_pending_full`. -/
theorem C6_close_with_full_pending_witness :
    sample_pending_full.sized ∧ 1 ≤ sample_pending_full.dialog_nr ∧
    sample_pending_full.dialog_nr ≤ DIALOG_MAX ∧
    sample_pending_full.dialog_closed_nr = DIALOG_MAX ∧
    (sample_pending_full.open_dialogs ++ sample_pending_full.pending).Nodup ∧
    (∀ p ∈ sample_pending_full.pending, (sample_pending_full.heap p).isSome = true) ∧
    ∃ s1 top, dialog_close sample_pending_full = some s1 ∧
      sample_pending_full.open_dialogs = s1.open_dialogs ++ [top] ∧
      s1.dialog_nr = sample_pending_full.dialog_nr - 1 ∧
      s1.dialog_closed = sample_pending_full.dialog_closed ∧ s1.dialog_closed_nr = 10 ∧
      s1.pending = sample_pending_full.pending ∧ s1.pending.length = 10 ∧
      top ∉ s1.open_dialogs ∧ top ∉ s1.pending ∧
      s1.log.filterMap effect.freed = sample_pending_full.log.filterMap effect.freed ∧
      ∃ s2, dialog_cleanup s1 = some s2 ∧
        top ∉ (s2.log.drop s1.log.length).filterMap effect.freed :=
  ⟨⟨rfl, rfl⟩, by decide, by decide, rfl, by decide, by decide,
    C6_close_with_full_pending sample_pending_full ⟨rfl, rfl⟩ (by decide) (by decide) rfl
      (by decide) (by decide)⟩

/-- Claim C7. With no dialog open, `dialog_close()` returns and leaves the
stack array, the open count, the pending array and the pending count as they
were (it only prints), `dialog_current()` returns `NULL`, and
`dialog_input(e)` returns without changing anything, for every event `e`. -/
theorem C7_no_open_dialog (K : ui_event_codes) (s : globals) (h : s.dialog_nr = 0) :
    (∃ s1, dialog_close s = some s1 ∧ s1.dialog_stack = s.dialog_stack ∧
      s1.dialog_nr = s.dialog_nr ∧ s1.dialog_closed = s.dialog_closed ∧
      s1.dialog_closed_nr = s.dialog_closed_nr ∧ s1.open_dialogs = s.open_dialogs ∧
      s1.pending = s.pending ∧ s1.heap = s.heap ∧
      s1.log = s.log ++ [effect.printf "No open dialogs.\n"]) ∧
    dialog_current s = some 0 ∧
    ∀ event : Int, dialog_input K s event = some s := by
  have hc : dialog_current s = some 0 := by
    unfold dialog_current
    rw [if_pos h]
  refine ⟨⟨_, dialog_close_empty s h, rfl, rfl, rfl, rfl, rfl, rfl, rfl, rfl⟩, hc, ?_⟩
  intro event
  unfold dialog_input
  rw [hc]
  simp

/-- Claim C7 at `sample_none_open` with `sample_codes`. -/
theorem C7_no_open_dialog_witness :
    sample_none_open.dialog_nr = 0 ∧
    ((∃ s1, dialog_close sample_none_open = some s1 ∧
      s1.dialog_stack = sample_none_open.dialog_stack ∧
      s1.dialog_nr = sample_none_open.dialog_nr ∧
      s1.dialog_closed = sample_none_open.dialog_closed ∧
      s1.dialog_closed_nr = sample_none_open.dialog_closed_nr ∧
      s1.open_dialogs = sample_none_open.open_dialogs ∧
      s1.pending = sample_none_open.pending ∧ s1.heap = sample_none_open.heap ∧
      s1.log = sample_none_open.log ++ [effect.printf "No open dialogs.\n"]) ∧
    dialog_current sample_none_open = some 0 ∧
    ∀ event : Int, dialog_input sample_codes sample_none_open event = some sample_none_open) :=
  ⟨rfl, C7_no_open_dialog sample_codes sample_none_open rfl⟩

theorem dialog_destroy_all_effects_eq_flatten (heap : Nat → Option dialog_t) (ps : List Nat) :
    dialog_destroy_all_effects heap ps = (ps.map (dialog_destroy_effects heap)).flatten := by
  induction ps with
  | nil => rfl
  | cons p ps ih => simp [dialog_destroy_all_effects, ih]

/-- Claim C8. When every pending dialog is a dialog in memory,
`dialog_cleanup()` returns; its effects are those of `dialog_destroy` on each
pending dialog, index 0 first, so the dialogs freed are exactly the pending
dialogs in list order; the pending count is 0 afterwards and the stack array
and open count are unchanged. The effects of `dialog_destroy` on a dialog are
one destroy call for each widget of its tree (the root first, then the
widgets of each child in insertion order), then the `free` of the dialog. -/
theorem C8_cleanup_destroys_pending (s : globals)
    (hlen : s.dialog_closed.length = 10) (h10 : s.dialog_closed_nr ≤ DIALOG_MAX)
    (hval : ∀ p ∈ s.pending, (s.heap p).isSome = true) :
    ∃ s1, dialog_cleanup s = some s1 ∧
      s1.log = s.log ++ (s.pending.map (dialog_destroy_effects s.heap)).flatten ∧
      (s1.log.drop s.log.length).filterMap effect.freed = s.pending ∧
      s1.dialog_closed_nr = 0 ∧ s1.pending = [] ∧
      s1.dialog_stack = s.dialog_stack ∧ s1.dialog_nr = s.dialog_nr ∧
      s1.open_dialogs = s.open_dialogs ∧
      ∀ p ∈ s.pending, ∃ d, s.heap p = some d ∧
        dialog_destroy_effects s.heap p
          = d.widget.subwidgets.map effect.destroy ++ [effect.free_dialog p] := by
  have hD : DIALOG_MAX = 10 := rfl
  refine ⟨_, dialog_cleanup_eq s (by omega) hval, ?_, ?_, rfl, ?_, rfl, rfl, rfl, ?_⟩
  · simp only [dialog_destroy_all_effects_eq_flatten]
  · simp only [List.drop_left]
    exact freed_dialog_destroy_all _ _ hval
  · simp [globals.pending]
  · intro p hp
    obtain ⟨d, hd⟩ := Option.isSome_iff_exists.mp (hval p hp)
    exact ⟨d, hd, by simp only [dialog_destroy_effects, hd, widget_destroy_eq_subwidgets]⟩

/-- Claim C8 at `sample_pending_full`. -/
theorem C8_cleanup_destroys_pending_witness :
    sample_pending_full.dialog_closed.length = 10 ∧
    sample_pending_full.dialog_closed_nr ≤ DIALOG_MAX ∧
    (∀ p ∈ sample_pending_full.pending, (sample_pending_full.heap p).isSome = true) ∧
    ∃ s1, dialog_cleanup sample_pending_full = some s1 ∧
      s1.log = sample_pending_full.log
        ++ (sample_pending_full.pending.map
              (dialog_destroy_effects sample_pending_full.heap)).flatten ∧
      (s1.log.drop sample_pending_full.log.length).filterMap effect.freed
        = sample_pending_full.pending ∧
      s1.dialog_closed_nr = 0 ∧ s1.pending = [] ∧
      s1.dialog_stack = sample_pending_full.dialog_stack ∧
      s1.dialog_nr = sample_pending_full.dialog_nr ∧
      s1.open_dialogs = sample_pending_full.open_dialogs ∧
      ∀ p ∈ sample_pending_full.pending, ∃ d, sample_pending_full.heap p = some d ∧
        dialog_destroy_effects sample_pending_full.heap p
          = d.widget.subwidgets.map effect.destroy ++ [effect.free_dialog p] :=
  ⟨rfl, by decide, by decide,
    C8_cleanup_destroys_pending sample_pending_full rfl (by decide) (by decide)⟩

/-! ## Escape -/

theorem w_entry_char_escape (K : ui_event_codes) (hK : K.escape_apart) :
    w_entry_char K K.UI_EVENT_ESCAPE = none := by
  obtain ⟨_, _, _, _, _, _, hS, ha, hA⟩ := hK
  unfold w_entry_char
  rw [if_neg ha, if_neg hA, if_neg hS]

mutual
theorem widget_input_escape (K : ui_event_codes) (hK : K.escape_apart) :
    ∀ w : widget_t, w.well_formed = true → w.has_input = true →
      ∃ tr, widget_input K w K.UI_EVENT_ESCAPE = some (w, 0, tr) ∧
        ∀ e ∈ tr, e.is_input = true
  | .w_text _ _ _, _, hi => by simp [widget_t.has_input] at hi
  | .w_image _ _, _, hi => by simp [widget_t.has_input] at hi
  | .w_action c child func func_data, _, _ => by
    refine ⟨[], ?_, by simp⟩
    simp only [widget_input, w_action_input]
    rw [if_neg hK.2.2.2.2.1]
  | .w_option c item sel func func_data, _, _ => by
    refine ⟨[], ?_, by simp⟩
    simp only [widget_input, w_option_input]
    by_cases hs : sel = -1
    · rw [if_pos hs]
    · rw [if_neg hs, if_neg hK.2.2.2.1, if_neg hK.2.2.1]
  | .w_entry c text max_len cursor_pos, hwf, _ => by
    refine ⟨[], ?_, by simp⟩
    simp only [widget_t.well_formed] at hwf
    obtain ⟨len, hlen⟩ := Option.isSome_iff_exists.mp hwf
    simp only [widget_input, w_entry_input, hlen]
    rw [if_neg hK.2.2.1, if_neg hK.2.2.2.1, if_neg hK.2.2.2.2.2.1, w_entry_char_escape K hK]
  | .w_vbox c item sel spacing, hwf, _ => by
    simp only [widget_t.well_formed, Bool.and_eq_true, Bool.or_eq_true, decide_eq_true_eq]
      at hwf
    obtain ⟨hl, hsel⟩ := hwf
    by_cases hs : sel = -1
    · exact ⟨[], by simp only [widget_input]; rw [if_pos hs], by simp⟩
    · rcases hsel with hsel | ⟨h0, hin⟩
      · exact absurd hsel hs
      · obtain ⟨tr, htr, hall⟩ := widget_list_item_input_escape K hK item sel.toNat hl hin
        refine ⟨tr, ?_, hall⟩
        simp only [widget_input]
        rw [if_neg hs, if_neg (by omega), htr]
        simp only []
        rw [if_neg (by simp), if_neg hK.1, if_neg hK.2.1]
  | .w_hbox c item sel spacing, hwf, _ => by
    simp only [widget_t.well_formed, Bool.and_eq_true, Bool.or_eq_true, decide_eq_true_eq]
      at hwf
    obtain ⟨hl, hsel⟩ := hwf
    by_cases hs : sel = -1
    · exact ⟨[], by simp only [widget_input]; rw [if_pos hs], by simp⟩
    · rcases hsel with hsel | ⟨h0, hin⟩
      · exact absurd hsel hs
      · obtain ⟨tr, htr, hall⟩ := widget_list_item_input_escape K hK item sel.toNat hl hin
        refine ⟨tr, ?_, hall⟩
        simp only [widget_input]
        rw [if_neg hs, if_neg (by omega), htr]
        simp only []
        rw [if_neg (by simp), if_neg hK.2.2.1, if_neg hK.2.2.2.1]
theorem widget_list_item_input_escape (K : ui_event_codes) (hK : K.escape_apart) :
    ∀ (ws : List widget_t) (i : Nat), widget_list_well_formed ws = true →
      widget_list_item_has_input ws i = true →
      ∃ tr, widget_list_item_input K ws i K.UI_EVENT_ESCAPE = some (ws, 0, tr) ∧
        ∀ e ∈ tr, e.is_input = true
  | [], _, _, hin => by simp [widget_list_item_has_input] at hin
  | w :: ws, 0, hwf, hin => by
    simp only [widget_list_well_formed, Bool.and_eq_true] at hwf
    simp only [widget_list_item_has_input] at hin
    obtain ⟨tr, htr, hall⟩ := widget_input_escape K hK w hwf.1 hin
    refine ⟨effect.input w K.UI_EVENT_ESCAPE :: tr, ?_, ?_⟩
    · simp only [widget_list_item_input, htr]
    · intro e he
      rcases List.mem_cons.mp he with h | h
      · rw [h]; rfl
      · exact hall e h
  | w :: ws, i + 1, hwf, hin => by
    simp only [widget_list_well_formed, Bool.and_eq_true] at hwf
    simp only [widget_list_item_has_input] at hin
    obtain ⟨tr, htr, hall⟩ := widget_list_item_input_escape K hK ws i hwf.2 hin
    exact ⟨tr, by simp only [widget_list_item_input, htr], hall⟩
end

theorem array_get_eq_some {α : Type} (a : List α) (i : Int) (v : α)
    (h : array_get a i = some v) :
    ∃ n : Nat, i = (n : Int) ∧ ∃ hn : n < a.length, a.get ⟨n, hn⟩ = v := by
  unfold array_get at h
  by_cases h0 : 0 ≤ i
  · rw [if_pos h0] at h
    obtain ⟨n, hn⟩ := Int.eq_ofNat_of_zero_le h0
    refine ⟨n, hn, ?_⟩
    rw [hn, Int.toNat_natCast] at h
    obtain ⟨hlt, hget⟩ := List.get?_eq_some.mp h
    exact ⟨hlt, hget⟩
  · rw [if_neg h0] at h
    exact absurd h (by simp)

theorem dialog_close_spec (s : globals) (top : Nat) (hs : s.sized)
    (hcur : dialog_current s = some top) (hnr : s.dialog_nr ≠ 0)
    (hc0 : 0 ≤ s.dialog_closed_nr) (hc10 : s.dialog_closed_nr ≤ DIALOG_MAX) :
    ∃ s0, dialog_close s = some s0 ∧ s.open_dialogs = s0.open_dialogs ++ [top] ∧
      s0.dialog_nr = s.dialog_nr - 1 ∧ s0.heap = s.heap ∧
      ((s.dialog_closed_nr < DIALOG_MAX ∧ s0.pending = s.pending ++ [top] ∧
          s0.dialog_closed_nr = s.dialog_closed_nr + 1 ∧ s0.log = s.log) ∨
        (s.dialog_closed_nr = DIALOG_MAX ∧ s0.pending = s.pending ∧
          s0.dialog_closed = s.dialog_closed ∧
          s0.dialog_closed_nr = s.dialog_closed_nr ∧
          s0.log = s.log ++ [effect.printf "Too many to-be-destroyed dialogs.\n"])) := by
  obtain ⟨hl1, hl2⟩ := hs
  have hD : DIALOG_MAX = 10 := rfl
  unfold dialog_current at hcur
  rw [if_neg hnr] at hcur
  obtain ⟨n, hn, hlt, hget⟩ := array_get_eq_some _ _ _ hcur
  have hk : s.dialog_nr = (n : Int) + 1 := by omega
  obtain ⟨m, hm⟩ := Int.eq_ofNat_of_zero_le hc0
  have hopen : s.open_dialogs = s.dialog_stack.take n ++ [top] := by
    simp only [globals.open_dialogs]
    have en : s.dialog_nr.toNat = n + 1 := by omega
    rw [en, take_succ_get _ _ hlt, hget]
  have e1 : (s.dialog_nr - 1).toNat = n := by omega
  by_cases hfull : s.dialog_closed_nr = DIALOG_MAX
  · refine ⟨_, dialog_close_pending_full s n hk hlt hfull, ?_, rfl, rfl,
      Or.inr ⟨hfull, rfl, rfl, rfl, rfl⟩⟩
    simp only [globals.open_dialogs]
    rw [e1]
    exact hopen
  · have hmlt : m < s.dialog_closed.length := by omega
    refine ⟨_, dialog_close_move s n m hk hlt hm hmlt hfull, ?_, rfl, rfl,
      Or.inl ⟨by omega, ?_, rfl, rfl⟩⟩
    · simp only [globals.open_dialogs]
      rw [e1]
      exact hopen
    · simp only [globals.pending]
      have e2 : (s.dialog_closed_nr + 1).toNat = m + 1 := by omega
      have e3 : s.dialog_closed_nr.toNat = m := by omega
      rw [e2, e3, take_succ_set _ _ _ hmlt, hget]

theorem dialog_input_escape (K : ui_event_codes) (hK : K.escape_apart) (s : globals)
    (top : Nat) (d : dialog_t) (hcur : dialog_current s = some top) (htop : top ≠ 0)
    (hd : s.heap top = some d) (hwf : d.widget.well_formed = true)
    (hin : d.widget.has_input = true) (s0 : globals) (hs0 : s0.heap = s.heap)
    (hclose : (if d.modal = 0 then dialog_close s else some s) = some s0) :
    ∃ tr, dialog_input K s K.UI_EVENT_ESCAPE
        = some { s0 with log := s0.log ++ effect.input d.widget K.UI_EVENT_ESCAPE :: tr } ∧
      ∀ e ∈ tr, e.is_input = true := by
  obtain ⟨tr, htr, hall⟩ := widget_input_escape K hK d.widget hwf hin
  refine ⟨tr, ?_, hall⟩
  unfold dialog_input
  rw [hcur]
  simp only []
  rw [if_neg htop, hd]
  simp only [and_true]
  rw [hclose, htr]
  simp only []
  have hupd : Function.update s0.heap top (some { d with widget := d.widget }) = s0.heap := by
    rw [hs0]
    exact Function.update_eq_self_iff.mpr hd.symm
  rw [hupd]

theorem dialog_nr_ne_zero_of_current (s : globals) (top : Nat)
    (hcur : dialog_current s = some top) (htop : top ≠ 0) : s.dialog_nr ≠ 0 := by
  intro h
  unfold dialog_current at hcur
  rw [if_pos h] at hcur
  exact htop (Option.some.inj hcur).symm

/-- Claim C4, as the code has it. When the top dialog is not modal (and its
widget tree is well formed with an input handler at the root),
`dialog_input(UI_EVENT_ESCAPE)` first closes that dialog, which takes it off
the open stack, and then does call the input handler of its root widget with
the escape event: the effects after those of `dialog_close` start with that
call, followed only by the calls that the handler makes to the handlers of
selected children. The dialog in memory is unchanged. -/
theorem C4_escape_closes_then_forwards (K : ui_event_codes) (hK : K.escape_apart)
    (s : globals) (top : Nat) (d : dialog_t) (hs : s.sized)
    (hc0 : 0 ≤ s.dialog_closed_nr) (hc10 : s.dialog_closed_nr ≤ DIALOG_MAX)
    (hcur : dialog_current s = some top) (htop : top ≠ 0) (hd : s.heap top = some d)
    (hmodal : d.modal = 0) (hwf : d.widget.well_formed = true)
    (hin : d.widget.has_input = true) :
    ∃ s0 s1 tr, dialog_close s = some s0 ∧
      dialog_input K s K.UI_EVENT_ESCAPE = some s1 ∧
      s.open_dialogs = s1.open_dialogs ++ [top] ∧ s1.dialog_nr = s.dialog_nr - 1 ∧
      s1.log = s0.log ++ effect.input d.widget K.UI_EVENT_ESCAPE :: tr ∧
      (∀ e ∈ tr, e.is_input = true) ∧ s1.heap = s.heap := by
  have hnr := dialog_nr_ne_zero_of_current s top hcur htop
  obtain ⟨s0, hclose, hopen, hnr0, hheap, _⟩ := dialog_close_spec s top hs hcur hnr hc0 hc10
  obtain ⟨tr, hinput, hall⟩ := dialog_input_escape K hK s top d hcur htop hd hwf hin s0 hheap
    (by rw [if_pos hmodal]; exact hclose)
  exact ⟨s0, _, tr, hclose, hinput, hopen, hnr0, rfl, hall, hheap⟩

/-- Claim C4, as the code has it, at `sample_state` with `sample_codes`. -/
theorem C4_escape_closes_then_forwards_witness :
    sample_codes.escape_apart ∧ sample_state.sized ∧ 0 ≤ sample_state.dialog_closed_nr ∧
    sample_state.dialog_closed_nr ≤ DIALOG_MAX ∧ dialog_current sample_state = some 12 ∧
    12 ≠ 0 ∧ sample_state.heap 12 = some (dialog_create sample_menu) ∧
    (dialog_create sample_menu).modal = 0 ∧
    (dialog_create sample_menu).widget.well_formed = true ∧
    (dialog_create sample_menu).widget.has_input = true ∧
    ∃ s0 s1 tr, dialog_close sample_state = some s0 ∧
      dialog_input sample_codes sample_state sample_codes.UI_EVENT_ESCAPE = some s1 ∧
      sample_state.open_dialogs = s1.open_dialogs ++ [12] ∧
      s1.dialog_nr = sample_state.dialog_nr - 1 ∧
      s1.log = s0.log
        ++ effect.input (dialog_create sample_menu).widget sample_codes.UI_EVENT_ESCAPE :: tr ∧
      (∀ e ∈ tr, e.is_input = true) ∧ s1.heap = sample_state.heap :=
  ⟨by unfold ui_event_codes.escape_apart; decide, ⟨rfl, rfl⟩, by decide, by decide, rfl,
    by decide, rfl, rfl, rfl, rfl,
    C4_escape_closes_then_forwards sample_codes
      (by unfold ui_event_codes.escape_apart; decide) sample_state 12
      (dialog_create sample_menu) ⟨rfl, rfl⟩ (by decide) (by decide) rfl (by decide) rfl rfl
      rfl rfl⟩

/-- Claim C4 fails as stated: in `sample_state` the top dialog (address 12) is
not modal, and `dialog_input(UI_EVENT_ESCAPE)` calls the input handler of its
root widget `sample_menu` with the escape event (which in turn calls the
handler of the selected child). -/
theorem C4_counterexample :
    dialog_current sample_state = some 12 ∧
    (sample_state.heap 12).map dialog_t.modal = some 0 ∧
    (sample_state.heap 12).map dialog_t.widget = some sample_menu ∧
    sample_state.log = [] ∧
    (dialog_input sample_codes sample_state sample_codes.UI_EVENT_ESCAPE).map globals.log
      = some [effect.input sample_menu sample_codes.UI_EVENT_ESCAPE,
          effect.input sample_action sample_codes.UI_EVENT_ESCAPE] ∧
    (dialog_input sample_codes sample_state sample_codes.UI_EVENT_ESCAPE).map
      globals.open_dialogs = some [11] :=
  ⟨rfl, rfl, rfl, rfl, rfl, rfl⟩

theorem is_func_of_is_input (e : effect) (h : e.is_input = true) : e.is_func = false := by
  cases e <;> first | rfl | simp [effect.is_input] at h

/-- Claim C5, as the code has it. When the root of the top dialog has an input
handler and the widget tree is well formed, `dialog_input(UI_EVENT_ESCAPE)`
returns and calls no callback. If the dialog is not modal and fewer than
`DIALOG_MAX` dialogs are pending, the open count drops by one and the dialog
becomes the last pending dialog; if it is not modal and `DIALOG_MAX` dialogs
are pending, the open count drops by one and the pending dialogs stay as they
were; if it is modal, the stack array, the open count, the pending array and
the pending count are unchanged. -/
theorem C5_escape_calls_no_callback (K : ui_event_codes) (hK : K.escape_apart)
    (s : globals) (top : Nat) (d : dialog_t) (hs : s.sized)
    (hc0 : 0 ≤ s.dialog_closed_nr) (hc10 : s.dialog_closed_nr ≤ DIALOG_MAX)
    (hcur : dialog_current s = some top) (htop : top ≠ 0) (hd : s.heap top = some d)
    (hwf : d.widget.well_formed = true) (hin : d.widget.has_input = true) :
    ∃ s1, dialog_input K s K.UI_EVENT_ESCAPE = some s1 ∧
      (∀ e ∈ s1.log.drop s.log.length, e.is_func = false) ∧
      ((d.modal = 0 ∧ s.dialog_closed_nr < DIALOG_MAX ∧ s1.dialog_nr = s.dialog_nr - 1 ∧
          s.open_dialogs = s1.open_dialogs ++ [top] ∧ s1.pending = s.pending ++ [top]) ∨
        (d.modal = 0 ∧ s.dialog_closed_nr = DIALOG_MAX ∧ s1.dialog_nr = s.dialog_nr - 1 ∧
          s.open_dialogs = s1.open_dialogs ++ [top] ∧ s1.pending = s.pending) ∨
        (d.modal ≠ 0 ∧ s1.dialog_stack = s.dialog_stack ∧ s1.dialog_nr = s.dialog_nr ∧
          s1.open_dialogs = s.open_dialogs ∧ s1.dialog_closed = s.dialog_closed ∧
          s1.dialog_closed_nr = s.dialog_closed_nr ∧ s1.pending = s.pending)) := by
  by_cases hmodal : d.modal = 0
  · have hnr := dialog_nr_ne_zero_of_current s top hcur htop
    obtain ⟨s0, hclose, hopen, hnr0, hheap, hcase⟩ :=
      dialog_close_spec s top hs hcur hnr hc0 hc10
    obtain ⟨tr, hinput, hall⟩ := dialog_input_escape K hK s top d hcur htop hd hwf hin s0 hheap
      (by rw [if_pos hmodal]; exact hclose)
    refine ⟨_, hinput, ?_, ?_⟩
    · intro e he
      simp only [] at he
      rcases hcase with ⟨_, _, _, hlog⟩ | ⟨_, _, _, _, hlog⟩
      · rw [hlog, List.drop_left] at he
        rcases List.mem_cons.mp he with h | h
        · rw [h]; rfl
        · exact is_func_of_is_input e (hall e h)
      · rw [hlog, List.append_assoc, List.drop_left] at he
        simp only [List.singleton_append, List.mem_cons] at he
        rcases he with h | h | h
        · rw [h]; rfl
        · rw [h]; rfl
        · exact is_func_of_is_input e (hall e h)
    · rcases hcase with ⟨hlt, hpend, _, _⟩ | ⟨hfull, hpend, _, _, _⟩
      · exact Or.inl ⟨hmodal, hlt, hnr0, hopen, hpend⟩
      · exact Or.inr (Or.inl ⟨hmodal, hfull, hnr0, hopen, hpend⟩)
  · obtain ⟨tr, hinput, hall⟩ := dialog_input_escape K hK s top d hcur htop hd hwf hin s rfl
      (by rw [if_neg hmodal])
    refine ⟨_, hinput, ?_, Or.inr (Or.inr ⟨hmodal, rfl, rfl, rfl, rfl, rfl, rfl⟩)⟩
    intro e he
    simp only [List.drop_left] at he
    rcases List.mem_cons.mp he with h | h
    · rw [h]; rfl
    · exact is_func_of_is_input e (hall e h)

/-- Claim C5, as the code has it, at `sample_modal_state` with `sample_codes`. -/
theorem C5_escape_calls_no_callback_witness :
    sample_codes.escape_apart ∧ sample_modal_state.sized ∧
    0 ≤ sample_modal_state.dialog_closed_nr ∧
    sample_modal_state.dialog_closed_nr ≤ DIALOG_MAX ∧
    dialog_current sample_modal_state = some 15 ∧ 15 ≠ 0 ∧
    sample_modal_state.heap 15 = some (dialog_set_modal (dialog_create sample_menu) 1) ∧
    (dialog_set_modal (dialog_create sample_menu) 1).widget.well_formed = true ∧
    (dialog_set_modal (dialog_create sample_menu) 1).widget.has_input = true ∧
    ∃ s1, dialog_input sample_codes sample_modal_state sample_codes.UI_EVENT_ESCAPE = some s1 ∧
      (∀ e ∈ s1.log.drop sample_modal_state.log.length, e.is_func = false) ∧
      (((dialog_set_modal (dialog_create sample_menu) 1).modal = 0 ∧
          sample_modal_state.dialog_closed_nr < DIALOG_MAX ∧
          s1.dialog_nr = sample_modal_state.dialog_nr - 1 ∧
          sample_modal_state.open_dialogs = s1.open_dialogs ++ [15] ∧
          s1.pending = sample_modal_state.pending ++ [15]) ∨
        ((dialog_set_modal (dialog_create sample_menu) 1).modal = 0 ∧
          sample_modal_state.dialog_closed_nr = DIALOG_MAX ∧
          s1.dialog_nr = sample_modal_state.dialog_nr - 1 ∧
          sample_modal_state.open_dialogs = s1.open_dialogs ++ [15] ∧
          s1.pending = sample_modal_state.pending) ∨
        ((dialog_set_modal (dialog_create sample_menu) 1).modal ≠ 0 ∧
          s1.dialog_stack = sample_modal_state.dialog_stack ∧
          s1.dialog_nr = sample_modal_state.dialog_nr ∧
          s1.open_dialogs = sample_modal_state.open_dialogs ∧
          s1.dialog_closed = sample_modal_state.dialog_closed ∧
          s1.dialog_closed_nr = sample_modal_state.dialog_closed_nr ∧
          s1.pending = sample_modal_state.pending)) :=
  ⟨by unfold ui_event_codes.escape_apart; decide, ⟨rfl, rfl⟩, by decide, by decide, rfl,
    by decide, rfl, rfl, rfl,
    C5_escape_calls_no_callback sample_codes
      (by unfold ui_event_codes.escape_apart; decide) sample_modal_state 15
      (dialog_set_modal (dialog_create sample_menu) 1) ⟨rfl, rfl⟩ (by decide) (by decide) rfl
      (by decide) rfl rfl rfl⟩

/-- Claim C5 fails as stated. In `sample_pending_full` the top dialog (address
12) is not modal and ten dialogs are pending: after
`dialog_input(UI_EVENT_ESCAPE)` one dialog is open and the pending dialogs are
the same ten, so the closed dialog has not moved to the pending list. In
`sample_text_state` the root of the top dialog is a text widget, which has no
input handler, and `dialog_input(UI_EVENT_ESCAPE)` has no result. -/
theorem C5_counterexample :
    (dialog_current sample_pending_full = some 12 ∧
      (sample_pending_full.heap 12).map dialog_t.modal = some 0 ∧
      sample_pending_full.open_dialogs = [11, 12] ∧
      (dialog_input sample_codes sample_pending_full sample_codes.UI_EVENT_ESCAPE).map
        globals.open_dialogs = some [11] ∧
      (dialog_input sample_codes sample_pending_full sample_codes.UI_EVENT_ESCAPE).map
        globals.pending = some [21, 22, 23, 24, 25, 26, 27, 28, 29, 30]) ∧
    (dialog_current sample_text_state = some 16 ∧
      (sample_text_state.heap 16).map dialog_t.widget = some (sample_text [72, 105] 30) ∧
      dialog_input sample_codes sample_text_state sample_codes.UI_EVENT_ESCAPE = none) :=
  ⟨⟨rfl, rfl, rfl, rfl, rfl⟩, rfl, rfl, rfl⟩

/-! ## Selection in a widget list -/

theorem widget_list_skip_spec (list : widget_list_t) (input enabled : Int) (i : Int)
    (h0 : 0 ≤ i) (h1 : i < list.nr) :
    ∃ b, widget_list_skip list input enabled i = some b ∧
      (b = false ↔ list.qualifies_at input enabled i) := by
  obtain ⟨n, hn⟩ := Int.eq_ofNat_of_zero_le h0
  have hlt : n < list.item.length := by
    simp only [widget_list_t.nr] at h1
    omega
  have hget : array_get list.item i = some (list.item.get ⟨n, hlt⟩) := by
    rw [hn]
    exact array_get_of_lt _ _ hlt
  unfold widget_list_skip
  by_cases hz : enabled = 0 ∧ input = 0
  · rw [if_pos hz]
    refine ⟨false, rfl, ?_⟩
    simp only [true_iff]
    refine ⟨_, hget, ?_, ?_⟩
    · intro h; exact absurd hz.1 h
    · intro h; exact absurd hz.2 h
  · rw [if_neg hz, hget]
    refine ⟨_, rfl, ?_⟩
    simp only [widget_list_t.qualifies_at, hget, Option.some.injEq, exists_eq_left',
      widget_t.qualifies]
    by_cases he : enabled = 0 <;> by_cases hi : input = 0 <;>
      by_cases hwe : (list.item.get ⟨n, hlt⟩).enabled = 0 <;>
      by_cases hwi : (list.item.get ⟨n, hlt⟩).has_input = true <;>
      simp [he, hi, hwe, hwi]

theorem widget_list_select_next_loop_spec (list : widget_list_t) (input enabled : Int) :
    ∀ (fuel : Nat) (sel : Int), 0 ≤ sel → sel ≤ list.nr → list.nr - sel < fuel →
      ∃ j, widget_list_select_next_loop list input enabled fuel sel = some j ∧
        sel ≤ j ∧ j ≤ list.nr ∧ (j < list.nr → list.qualifies_at input enabled j) ∧
        ∀ i, sel ≤ i → i < j → ¬ list.qualifies_at input enabled i := by
  intro fuel
  induction fuel with
  | zero => intro sel _ h2 h3; exact absurd h3 (by omega)
  | succ n ih =>
    intro sel h1 h2 h3
    unfold widget_list_select_next_loop
    by_cases hlt : sel < list.nr
    · rw [if_pos hlt]
      obtain ⟨b, hb, hq⟩ := widget_list_skip_spec list input enabled sel h1 hlt
      rw [hb]
      cases b with
      | true =>
        obtain ⟨j, hj, hle, hjn, hjq, hmin⟩ := ih (sel + 1) (by omega) (by omega) (by omega)
        refine ⟨j, hj, by omega, hjn, hjq, ?_⟩
        intro i hi1 hi2
        by_cases hi : i = sel
        · rw [hi]
          intro hcon
          exact absurd (hq.mpr hcon) (by simp)
        · exact hmin i (by omega) hi2
      | false =>
        refine ⟨sel, rfl, le_refl _, h2, fun _ => hq.mp rfl, ?_⟩
        intro i hi1 hi2
        exact absurd hi2 (by omega)
    · rw [if_neg hlt]
      refine ⟨sel, rfl, le_refl _, h2, fun h => absurd h hlt, ?_⟩
      intro i hi1 hi2
      exact absurd hi2 (by omega)

theorem widget_list_select_prev_loop_spec (list : widget_list_t) (input enabled : Int) :
    ∀ (fuel : Nat) (sel : Int), sel < list.nr → sel + 1 < fuel → 1 ≤ fuel →
      ∃ j, widget_list_select_prev_loop list input enabled fuel sel = some j ∧
        j ≤ sel ∧ (sel < 0 → j = sel) ∧ (0 ≤ sel → -1 ≤ j) ∧
        (0 ≤ j → list.qualifies_at input enabled j) ∧
        ∀ i, j < i → i ≤ sel → ¬ list.qualifies_at input enabled i := by
  intro fuel
  induction fuel with
  | zero => intro sel _ _ h3; exact absurd h3 (by omega)
  | succ n ih =>
    intro sel h1 h2 _
    unfold widget_list_select_prev_loop
    by_cases h0 : 0 ≤ sel
    · rw [if_pos h0]
      obtain ⟨b, hb, hq⟩ := widget_list_skip_spec list input enabled sel h0 h1
      rw [hb]
      cases b with
      | true =>
        obtain ⟨j, hj, hle, hneg, hpos, hjq, hmin⟩ :=
          ih (sel - 1) (by omega) (by omega) (by omega)
        refine ⟨j, hj, by omega, fun h => absurd h0 (by omega), ?_, hjq, ?_⟩
        · intro _
          by_cases hs : 0 ≤ sel - 1
          · exact hpos hs
          · have := hneg (by omega)
            omega
        · intro i hi1 hi2
          by_cases hi : i = sel
          · rw [hi]
            intro hcon
            exact absurd (hq.mpr hcon) (by simp)
          · exact hmin i hi1 (by omega)
      | false =>
        refine ⟨sel, rfl, le_refl _, fun _ => rfl, fun _ => by omega, fun _ => hq.mp rfl, ?_⟩
        intro i hi1 hi2
        exact absurd hi2 (by omega)
    · rw [if_neg h0]
      refine ⟨sel, rfl, le_refl _, fun _ => rfl, fun h => absurd h h0,
        fun h => absurd h h0, ?_⟩
      intro i hi1 hi2
      exact absurd hi2 (by omega)

/-- Claim C9. For a widget list whose cursor `sel` lies in `[-1, nr)` and any
two flags: `widget_list_select_next` returns; either it returns 1 and the new
cursor is the least index above `sel` (and below `nr`) whose widget qualifies,
or it returns 0, the cursor is unchanged and no index above `sel` qualifies.
`widget_list_select_prev` returns; either it returns 1 and the new cursor is
the greatest index below `sel` (and at least 0) whose widget qualifies, or it
returns 0, the cursor is unchanged and no index below `sel` qualifies. In all
cases the items are unchanged and the new cursor is the old one or lies in
`[0, nr)`. -/
theorem C9_select_next_prev (list : widget_list_t) (input enabled : Int)
    (h1 : -1 ≤ list.sel) (h2 : list.sel < list.nr) :
    (∃ l r, widget_list_select_next list input enabled = some (l, r) ∧
      l.item = list.item ∧
      ((r = 1 ∧ list.sel < l.sel ∧ l.sel < list.nr ∧
          list.qualifies_at input enabled l.sel ∧
          ∀ i, list.sel < i → i < l.sel → ¬ list.qualifies_at input enabled i) ∨
        (r = 0 ∧ l.sel = list.sel ∧
          ∀ i, list.sel < i → i < list.nr → ¬ list.qualifies_at input enabled i)) ∧
      (l.sel = list.sel ∨ (0 ≤ l.sel ∧ l.sel < list.nr))) ∧
    (∃ l r, widget_list_select_prev list input enabled = some (l, r) ∧
      l.item = list.item ∧
      ((r = 1 ∧ 0 ≤ l.sel ∧ l.sel < list.sel ∧
          list.qualifies_at input enabled l.sel ∧
          ∀ i, l.sel < i → i < list.sel → ¬ list.qualifies_at input enabled i) ∨
        (r = 0 ∧ l.sel = list.sel ∧
          ∀ i, 0 ≤ i → i < list.sel → ¬ list.qualifies_at input enabled i)) ∧
      (l.sel = list.sel ∨ (0 ≤ l.sel ∧ l.sel < list.nr))) := by
  constructor
  · obtain ⟨j, hj, hle, hjn, hjq, hmin⟩ :=
      widget_list_select_next_loop_spec list input enabled
        ((list.nr - (list.sel + 1)).toNat + 1) (list.sel + 1) (by omega) (by omega) (by omega)
    unfold widget_list_select_next
    rw [hj]
    simp only []
    by_cases hlt : j < list.nr
    · rw [if_pos hlt]
      refine ⟨_, _, rfl, rfl, Or.inl ⟨rfl, by simp only []; omega, hlt, hjq hlt, ?_⟩,
        Or.inr ⟨by simp only []; omega, hlt⟩⟩
      intro i hi1 hi2
      exact hmin i (by omega) hi2
    · rw [if_neg hlt]
      refine ⟨_, _, rfl, rfl, Or.inr ⟨rfl, rfl, ?_⟩, Or.inl rfl⟩
      intro i hi1 hi2
      exact hmin i (by omega) (by omega)
  · obtain ⟨j, hj, hle, hneg, hpos, hjq, hmin⟩ :=
      widget_list_select_prev_loop_spec list input enabled
        ((list.sel - 1 + 1).toNat + 1) (list.sel - 1) (by omega) (by omega) (by omega)
    unfold widget_list_select_prev
    rw [hj]
    simp only []
    by_cases h0 : 0 ≤ j
    · rw [if_pos h0]
      refine ⟨_, _, rfl, rfl, Or.inl ⟨rfl, h0, by simp only []; omega, hjq h0, ?_⟩,
        Or.inr ⟨h0, by simp only []; omega⟩⟩
      intro i hi1 hi2
      exact hmin i hi1 (by omega)
    · rw [if_neg h0]
      refine ⟨_, _, rfl, rfl, Or.inr ⟨rfl, rfl, ?_⟩, Or.inl rfl⟩
      intro i hi1 hi2
      exact hmin i (by omega) (by omega)

/-- Claim C9 at `sample_list`, asking for enabled widgets with an input handler. -/
theorem C9_select_next_prev_witness :
    -1 ≤ sample_list.sel ∧ sample_list.sel < sample_list.nr ∧
    ((∃ l r, widget_list_select_next sample_list 1 1 = some (l, r) ∧
      l.item = sample_list.item ∧
      ((r = 1 ∧ sample_list.sel < l.sel ∧ l.sel < sample_list.nr ∧
          sample_list.qualifies_at 1 1 l.sel ∧
          ∀ i, sample_list.sel < i → i < l.sel → ¬ sample_list.qualifies_at 1 1 i) ∨
        (r = 0 ∧ l.sel = sample_list.sel ∧
          ∀ i, sample_list.sel < i → i < sample_list.nr →
            ¬ sample_list.qualifies_at 1 1 i)) ∧
      (l.sel = sample_list.sel ∨ (0 ≤ l.sel ∧ l.sel < sample_list.nr))) ∧
    (∃ l r, widget_list_select_prev sample_list 1 1 = some (l, r) ∧
      l.item = sample_list.item ∧
      ((r = 1 ∧ 0 ≤ l.sel ∧ l.sel < sample_list.sel ∧
          sample_list.qualifies_at 1 1 l.sel ∧
          ∀ i, l.sel < i → i < sample_list.sel → ¬ sample_list.qualifies_at 1 1 i) ∨
        (r = 0 ∧ l.sel = sample_list.sel ∧
          ∀ i, 0 ≤ i → i < sample_list.sel → ¬ sample_list.qualifies_at 1 1 i)) ∧
      (l.sel = sample_list.sel ∨ (0 ≤ l.sel ∧ l.sel < sample_list.nr)))) :=
  ⟨by decide, by decide, C9_select_next_prev sample_list 1 1 (by decide) (by decide)⟩

/-! ## Appending to a box -/


theorem first_selectable_none (ws : List widget_t) (h : first_selectable ws = none) :
    ∀ w ∈ ws, ¬ (w.enabled ≠ 0 ∧ w.has_input = true) := by
  induction ws with
  | nil => intro w hw; simp at hw
  | cons x xs ih =>
    unfold first_selectable at h
    by_cases hx : x.enabled ≠ 0 ∧ x.has_input = true
    · rw [if_pos hx] at h
      exact absurd h (by simp)
    · rw [if_neg hx] at h
      cases hxs : first_selectable xs with
      | none =>
        intro w hw
        rcases List.mem_cons.mp hw with hw | hw
        · rw [hw]; exact hx
        · exact ih hxs w hw
      | some k =>
        rw [hxs] at h
        exact absurd h (by simp)

theorem first_selectable_some (ws : List widget_t) (k : Nat)
    (h : first_selectable ws = some k) :
    ∃ hk : k < ws.length, ((ws.get ⟨k, hk⟩).enabled ≠ 0 ∧ (ws.get ⟨k, hk⟩).has_input = true) ∧
      ∀ (i : Nat) (hi : i < ws.length), i < k →
        ¬ ((ws.get ⟨i, hi⟩).enabled ≠ 0 ∧ (ws.get ⟨i, hi⟩).has_input = true) := by
  induction ws generalizing k with
  | nil => simp [first_selectable] at h
  | cons x xs ih =>
    unfold first_selectable at h
    by_cases hx : x.enabled ≠ 0 ∧ x.has_input = true
    · rw [if_pos hx] at h
      have hk0 : k = 0 := (Option.some.inj h).symm
      subst hk0
      refine ⟨by simp, hx, ?_⟩
      intro i _ hi
      exact absurd hi (by omega)
    · rw [if_neg hx] at h
      cases hxs : first_selectable xs with
      | none => rw [hxs] at h; exact absurd h (by simp)
      | some m =>
        rw [hxs] at h
        have hkm : k = m + 1 := (Option.some.inj h).symm
        subst hkm
        obtain ⟨hm, hsel, hmin⟩ := ih m hxs
        refine ⟨by simpa using hm, hsel, ?_⟩
        intro i hi hik
        cases i with
        | zero => exact hx
        | succ i' => exact hmin i' (by simpa using hi) (by omega)

theorem cursor_after_append_cons (n : Nat) (sel : Int) (w : widget_t) (ws : List widget_t) :
    cursor_after_append (n + 1)
        (if w.enabled ≠ 0 ∧ w.has_input = true then
          (if sel = -1 then ((n + 1 : Nat) : Int) - 1 else sel) else sel) ws
      = cursor_after_append n sel (w :: ws) := by
  have hfs : first_selectable (w :: ws)
      = if w.enabled ≠ 0 ∧ w.has_input = true then some 0
        else
          match first_selectable ws with
          | none => none
          | some k => some (k + 1) := rfl
  unfold cursor_after_append
  rw [hfs]
  by_cases hw : w.enabled ≠ 0 ∧ w.has_input = true
  · rw [if_pos hw, if_pos hw]
    by_cases hs : sel = -1
    · rw [if_pos hs, if_pos hs, if_neg (by omega)]
      simp
    · rw [if_neg hs, if_neg hs, if_neg hs]
  · rw [if_neg hw, if_neg hw]
    by_cases hs : sel = -1
    · rw [if_pos hs, if_pos hs]
      cases first_selectable ws with
      | none => rfl
      | some k => simp only []; push_cast; omega
    · rw [if_neg hs, if_neg hs]

theorem w_vbox_append_all_spec (spacing : Int) (ws : List widget_t) :
    ∀ (c : widget_common) (item : List widget_t) (sel : Int),
      ∃ c1, w_vbox_append_all (.w_vbox c item sel spacing) ws
        = some (.w_vbox c1 (item ++ ws) (cursor_after_append item.length sel ws) spacing) := by
  induction ws with
  | nil =>
    intro c item sel
    refine ⟨c, ?_⟩
    simp only [w_vbox_append_all, List.append_nil, cursor_after_append, first_selectable]
    by_cases hs : sel = -1
    · rw [if_pos hs, hs]
    · rw [if_neg hs]
  | cons w ws ih =>
    intro c item sel
    have hlen : (item ++ [w]).length = item.length + 1 := by simp
    by_cases hw : w.enabled ≠ 0 ∧ w.has_input = true
    · obtain ⟨c1, hc1⟩ := ih ⟨1, if w.width > c.width then w.width else c.width,
          if ((widget_list_append ⟨sel, item⟩ w).nr ≠ 1) then
            wrap_int (wrap_int (c.height + w.height) + spacing)
          else wrap_int (c.height + w.height)⟩ (item ++ [w])
        (if sel = -1 then ((item.length + 1 : Nat) : Int) - 1 else sel)
      refine ⟨c1, ?_⟩
      have hcur := cursor_after_append_cons item.length sel w ws
      rw [if_pos hw] at hcur
      simp only [w_vbox_append_all, w_vbox_append, widget_list_append, widget_list_t.nr]
      rw [if_pos hw]
      simp only [widget_list_append, widget_list_t.nr, hlen] at hc1
      simp only [hlen]
      rw [hc1, hcur, List.append_assoc, List.singleton_append]
    · obtain ⟨c1, hc1⟩ := ih ⟨c.enabled, if w.width > c.width then w.width else c.width,
          if ((widget_list_append ⟨sel, item⟩ w).nr ≠ 1) then
            wrap_int (wrap_int (c.height + w.height) + spacing)
          else wrap_int (c.height + w.height)⟩ (item ++ [w]) sel
      refine ⟨c1, ?_⟩
      have hcur := cursor_after_append_cons item.length sel w ws
      rw [if_neg hw] at hcur
      simp only [w_vbox_append_all, w_vbox_append, widget_list_append, widget_list_t.nr]
      rw [if_neg hw]
      simp only [widget_list_append, widget_list_t.nr, hlen] at hc1
      simp only [hlen]
      rw [hc1, hcur, List.append_assoc, List.singleton_append]

theorem w_hbox_append_all_spec (spacing : Int) (ws : List widget_t) :
    ∀ (c : widget_common) (item : List widget_t) (sel : Int),
      ∃ c1, w_hbox_append_all (.w_hbox c item sel spacing) ws
        = some (.w_hbox c1 (item ++ ws) (cursor_after_append item.length sel ws) spacing) := by
  induction ws with
  | nil =>
    intro c item sel
    refine ⟨c, ?_⟩
    simp only [w_hbox_append_all, List.append_nil, cursor_after_append, first_selectable]
    by_cases hs : sel = -1
    · rw [if_pos hs, hs]
    · rw [if_neg hs]
  | cons w ws ih =>
    intro c item sel
    have hlen : (item ++ [w]).length = item.length + 1 := by simp
    by_cases hw : w.enabled ≠ 0 ∧ w.has_input = true
    · obtain ⟨c1, hc1⟩ := ih ⟨1,
          if ((widget_list_append ⟨sel, item⟩ w).nr ≠ 1) then
            wrap_int (wrap_int (c.width + w.width) + spacing)
          else wrap_int (c.width + w.width),
          if w.height > c.height then w.height else c.height⟩ (item ++ [w])
        (if sel = -1 then ((item.length + 1 : Nat) : Int) - 1 else sel)
      refine ⟨c1, ?_⟩
      have hcur := cursor_after_append_cons item.length sel w ws
      rw [if_pos hw] at hcur
      simp only [w_hbox_append_all, w_hbox_append, widget_list_append, widget_list_t.nr]
      rw [if_pos hw]
      simp only [widget_list_append, widget_list_t.nr, hlen] at hc1
      simp only [hlen]
      rw [hc1, hcur, List.append_assoc, List.singleton_append]
    · obtain ⟨c1, hc1⟩ := ih ⟨c.enabled,
          if ((widget_list_append ⟨sel, item⟩ w).nr ≠ 1) then
            wrap_int (wrap_int (c.width + w.width) + spacing)
          else wrap_int (c.width + w.width),
          if w.height > c.height then w.height else c.height⟩ (item ++ [w]) sel
      refine ⟨c1, ?_⟩
      have hcur := cursor_after_append_cons item.length sel w ws
      rw [if_neg hw] at hcur
      simp only [w_hbox_append_all, w_hbox_append, widget_list_append, widget_list_t.nr]
      rw [if_neg hw]
      simp only [widget_list_append, widget_list_t.nr, hlen] at hc1
      simp only [hlen]
      rw [hc1, hcur, List.append_assoc, List.singleton_append]

theorem cursor_after_append_fresh (ws : List widget_t) :
    (cursor_after_append 0 (-1) ws = -1 ↔
      ∀ w ∈ ws, ¬ (w.enabled ≠ 0 ∧ w.has_input = true)) ∧
    (cursor_after_append 0 (-1) ws ≠ -1 →
      0 ≤ cursor_after_append 0 (-1) ws ∧ cursor_after_append 0 (-1) ws < ws.length ∧
      (∃ w, array_get ws (cursor_after_append 0 (-1) ws) = some w ∧
        w.enabled ≠ 0 ∧ w.has_input = true) ∧
      ∀ (i : Int) (w : widget_t), i < cursor_after_append 0 (-1) ws →
        array_get ws i = some w → ¬ (w.enabled ≠ 0 ∧ w.has_input = true)) := by
  unfold cursor_after_append
  rw [if_pos rfl]
  cases hfs : first_selectable ws with
  | none =>
    simp only [ne_eq, not_true_eq_false, false_implies, and_true, true_iff]
    exact first_selectable_none ws hfs
  | some k =>
    obtain ⟨hk, hsel, hmin⟩ := first_selectable_some ws k hfs
    simp only [Nat.zero_add]
    constructor
    · constructor
      · intro h; exact absurd h (by omega)
      · intro h
        exact absurd hsel (h _ (List.get_mem ws k hk))
    · intro _
      refine ⟨by omega, by omega, ⟨_, array_get_of_lt ws k hk, hsel⟩, ?_⟩
      intro i w hi hget
      obtain ⟨n, hn, hlt, hw⟩ := array_get_eq_some _ _ _ hget
      rw [← hw]
      exact hmin n hlt (by omega)

/-- Claim C10. Appending the widgets `ws` one by one to a fresh vbox with
`w_vbox_append`, or to a fresh hbox with `w_hbox_append`, returns a box whose
list of items is `ws` (so it has as many items as were appended, in insertion
order). Its cursor is -1 if and only if no appended widget was both enabled
and equipped with an input handler; otherwise the cursor is the index of the
first such widget. -/
theorem C10_append_order_and_cursor (spacing : Int) (ws : List widget_t) :
    (∃ c sel, w_vbox_append_all (w_vbox_create spacing) ws
        = some (.w_vbox c ws sel spacing) ∧
      (sel = -1 ↔ ∀ w ∈ ws, ¬ (w.enabled ≠ 0 ∧ w.has_input = true)) ∧
      (sel ≠ -1 → 0 ≤ sel ∧ sel < ws.length ∧
        (∃ w, array_get ws sel = some w ∧ w.enabled ≠ 0 ∧ w.has_input = true) ∧
        ∀ (i : Int) (w : widget_t), i < sel → array_get ws i = some w →
          ¬ (w.enabled ≠ 0 ∧ w.has_input = true))) ∧
    (∃ c sel, w_hbox_append_all (w_hbox_create spacing) ws
        = some (.w_hbox c ws sel spacing) ∧
      (sel = -1 ↔ ∀ w ∈ ws, ¬ (w.enabled ≠ 0 ∧ w.has_input = true)) ∧
      (sel ≠ -1 → 0 ≤ sel ∧ sel < ws.length ∧
        (∃ w, array_get ws sel = some w ∧ w.enabled ≠ 0 ∧ w.has_input = true) ∧
        ∀ (i : Int) (w : widget_t), i < sel → array_get ws i = some w →
          ¬ (w.enabled ≠ 0 ∧ w.has_input = true))) := by
  obtain ⟨hiff, hsome⟩ := cursor_after_append_fresh ws
  constructor
  · obtain ⟨c1, h⟩ := w_vbox_append_all_spec spacing ws ⟨0, 0, 0⟩ [] (-1)
    rw [List.nil_append, List.length_nil] at h
    exact ⟨c1, _, h, hiff, hsome⟩
  · obtain ⟨c1, h⟩ := w_hbox_append_all_spec spacing ws ⟨0, 0, 0⟩ [] (-1)
    rw [List.nil_append, List.length_nil] at h
    exact ⟨c1, _, h, hiff, hsome⟩

/-! ## Size and enabled flag of a box -/

theorem enabled_after_append_cons (enabled : Int) (w : widget_t) (ws : List widget_t) :
    enabled_after_append
        (if w.enabled ≠ 0 ∧ w.has_input = true then 1 else enabled) ws
      = enabled_after_append enabled (w :: ws) := by
  have hfs : first_selectable (w :: ws)
      = if w.enabled ≠ 0 ∧ w.has_input = true then some 0
        else
          match first_selectable ws with
          | none => none
          | some k => some (k + 1) := rfl
  unfold enabled_after_append
  rw [hfs]
  by_cases hw : w.enabled ≠ 0 ∧ w.has_input = true
  · rw [if_pos hw, if_pos hw]
    cases first_selectable ws <;> rfl
  · rw [if_neg hw, if_neg hw]
    cases first_selectable ws <;> rfl

theorem w_vbox_append_all_eq (spacing : Int) (ws : List widget_t) :
    ∀ (c : widget_common) (item : List widget_t) (sel : Int),
      w_vbox_append_all (.w_vbox c item sel spacing) ws
        = some (.w_vbox
            ⟨enabled_after_append c.enabled ws,
              max_after_append widget_t.width c.width ws,
              sum_after_append widget_t.height spacing item.length c.height ws⟩
            (item ++ ws) (cursor_after_append item.length sel ws) spacing) := by
  induction ws with
  | nil =>
    intro c item sel
    simp only [w_vbox_append_all, List.append_nil, cursor_after_append, first_selectable,
      enabled_after_append, max_after_append, sum_after_append]
    by_cases hs : sel = -1
    · rw [if_pos hs, hs]
    · rw [if_neg hs]
  | cons w ws ih =>
    intro c item sel
    have hlen : (item ++ [w]).length = item.length + 1 := by simp
    have hcur := cursor_after_append_cons item.length sel w ws
    have hen := enabled_after_append_cons c.enabled w ws
    by_cases hw : w.enabled ≠ 0 ∧ w.has_input = true
    · rw [if_pos hw] at hcur hen
      simp only [w_vbox_append_all, w_vbox_append, widget_list_append, widget_list_t.nr]
      rw [if_pos hw]
      simp only []
      rw [ih]
      simp only [hlen, hcur, hen, List.append_assoc, List.singleton_append,
        max_after_append, sum_after_append]
    · rw [if_neg hw] at hcur hen
      simp only [w_vbox_append_all, w_vbox_append, widget_list_append, widget_list_t.nr]
      rw [if_neg hw]
      simp only []
      rw [ih]
      simp only [hlen, hcur, hen, List.append_assoc, List.singleton_append,
        max_after_append, sum_after_append]

theorem w_hbox_append_all_eq (spacing : Int) (ws : List widget_t) :
    ∀ (c : widget_common) (item : List widget_t) (sel : Int),
      w_hbox_append_all (.w_hbox c item sel spacing) ws
        = some (.w_hbox
            ⟨enabled_after_append c.enabled ws,
              sum_after_append widget_t.width spacing item.length c.width ws,
              max_after_append widget_t.height c.height ws⟩
            (item ++ ws) (cursor_after_append item.length sel ws) spacing) := by
  induction ws with
  | nil =>
    intro c item sel
    simp only [w_hbox_append_all, List.append_nil, cursor_after_append, first_selectable,
      enabled_after_append, max_after_append, sum_after_append]
    by_cases hs : sel = -1
    · rw [if_pos hs, hs]
    · rw [if_neg hs]
  | cons w ws ih =>
    intro c item sel
    have hlen : (item ++ [w]).length = item.length + 1 := by simp
    have hcur := cursor_after_append_cons item.length sel w ws
    have hen := enabled_after_append_cons c.enabled w ws
    by_cases hw : w.enabled ≠ 0 ∧ w.has_input = true
    · rw [if_pos hw] at hcur hen
      simp only [w_hbox_append_all, w_hbox_append, widget_list_append, widget_list_t.nr]
      rw [if_pos hw]
      simp only []
      rw [ih]
      simp only [hlen, hcur, hen, List.append_assoc, List.singleton_append,
        max_after_append, sum_after_append]
    · rw [if_neg hw] at hcur hen
      simp only [w_hbox_append_all, w_hbox_append, widget_list_append, widget_list_t.nr]
      rw [if_neg hw]
      simp only []
      rw [ih]
      simp only [hlen, hcur, hen, List.append_assoc, List.singleton_append,
        max_after_append, sum_after_append]

theorem enabled_after_append_fresh (ws : List widget_t) :
    (enabled_after_append 0 ws = 1 ∨ enabled_after_append 0 ws = 0) ∧
    (enabled_after_append 0 ws = 1 ↔ ∃ w ∈ ws, w.enabled ≠ 0 ∧ w.has_input = true) ∧
    (enabled_after_append 0 ws = 1 ↔ cursor_after_append 0 (-1) ws ≠ -1) := by
  unfold enabled_after_append cursor_after_append
  rw [if_pos rfl]
  cases hfs : first_selectable ws with
  | none =>
    have hnone := first_selectable_none ws hfs
    refine ⟨Or.inr rfl, ?_, ?_⟩
    · constructor
      · intro h; exact absurd h (by decide)
      · rintro ⟨w, hw, hsel⟩; exact absurd hsel (hnone w hw)
    · constructor
      · intro h; exact absurd h (by decide)
      · intro h; exact absurd rfl h
  | some k =>
    obtain ⟨hk, hsel, _⟩ := first_selectable_some ws k hfs
    refine ⟨Or.inl rfl, ?_, ?_⟩
    · exact ⟨fun _ => ⟨_, List.get_mem ws k hk, hsel⟩, fun _ => rfl⟩
    · constructor
      · intro _; simp only [Nat.zero_add]; omega
      · intro _; rfl

theorem wrap_int_of_fits (x : Int) (h : fits_int x) : wrap_int x = x := by
  unfold fits_int at h
  unfold wrap_int
  omega

theorem fits_int_wrap_int (x : Int) : fits_int (wrap_int x) := by
  unfold fits_int wrap_int
  omega

theorem wrap_int_congr (a b k : Int) (h : a = b + 4294967296 * k) :
    wrap_int a = wrap_int b := by
  unfold wrap_int
  omega

theorem wrap_int_wrap_add (a b : Int) : wrap_int (wrap_int a + b) = wrap_int (a + b) := by
  unfold wrap_int
  omega

theorem wrap_int_add_wrap (a b : Int) : wrap_int (a + wrap_int b) = wrap_int (a + b) := by
  unfold wrap_int
  omega

theorem wrap_int_wrap_sub (a b : Int) : wrap_int (wrap_int a - b) = wrap_int (a - b) := by
  unfold wrap_int
  omega

theorem wrap_int_sub_wrap (a b : Int) : wrap_int (a - wrap_int b) = wrap_int (a - b) := by
  unfold wrap_int
  omega

theorem sum_after_append_pos (f : widget_t → Int) (spacing : Int) (ws : List widget_t) :
    ∀ (n : Nat) (acc : Int), 1 ≤ n →
      sum_after_append f spacing n (wrap_int acc) ws
        = wrap_int (acc + (ws.map f).sum + spacing * ws.length) := by
  induction ws with
  | nil => intro n acc _; simp [sum_after_append]
  | cons w ws ih =>
    intro n acc hn
    have h1 : ((n + 1 : Nat) : Int) ≠ 1 := by omega
    rw [sum_after_append, if_pos h1, ih (n + 1) _ (by omega)]
    simp only [List.map_cons, List.sum_cons, List.length_cons]
    rw [add_assoc (wrap_int (wrap_int acc + f w) + spacing),
      add_assoc (wrap_int (wrap_int acc + f w)), wrap_int_wrap_add,
      add_assoc (wrap_int acc), wrap_int_wrap_add]
    congr 1
    push_cast
    ring

theorem sum_after_append_fresh (f : widget_t → Int) (spacing : Int) (ws : List widget_t)
    (hne : ws ≠ []) :
    sum_after_append f spacing 0 0 ws
      = wrap_int ((ws.map f).sum + spacing * ((ws.length : Int) - 1)) := by
  cases ws with
  | nil => exact absurd rfl hne
  | cons w ws =>
    rw [sum_after_append, if_neg (by simp), sum_after_append_pos f spacing ws 1 _ (le_refl 1)]
    simp only [List.map_cons, List.sum_cons, List.length_cons]
    congr 1
    push_cast
    ring

theorem max_after_append_spec (f : widget_t → Int) (ws : List widget_t) :
    ∀ m : Int, m ≤ max_after_append f m ws ∧
      (∀ w ∈ ws, f w ≤ max_after_append f m ws) ∧
      (max_after_append f m ws = m ∨ ∃ w ∈ ws, f w = max_after_append f m ws) := by
  induction ws with
  | nil => intro m; simp [max_after_append]
  | cons w ws ih =>
    intro m
    rw [max_after_append]
    obtain ⟨h1, h2, h3⟩ := ih (if f w > m then f w else m)
    by_cases hgt : f w > m
    · rw [if_pos hgt] at h1 h2 h3 ⊢
      refine ⟨by omega, ?_, ?_⟩
      · intro x hx
        rcases List.mem_cons.mp hx with hx | hx
        · rw [hx]; exact h1
        · exact h2 x hx
      · right
        rcases h3 with h3 | ⟨x, hx, hfx⟩
        · exact ⟨w, List.mem_cons_self _ _, h3.symm⟩
        · exact ⟨x, List.mem_cons_of_mem _ hx, hfx⟩
    · rw [if_neg hgt] at h1 h2 h3 ⊢
      refine ⟨h1, ?_, ?_⟩
      · intro x hx
        rcases List.mem_cons.mp hx with hx | hx
        · rw [hx]; omega
        · exact h2 x hx
      · rcases h3 with h3 | ⟨x, hx, hfx⟩
        · exact Or.inl h3
        · exact Or.inr ⟨x, List.mem_cons_of_mem _ hx, hfx⟩

theorem max_after_append_fresh (f : widget_t → Int) (ws : List widget_t) (hne : ws ≠ [])
    (hpos : ∀ w ∈ ws, 0 ≤ f w) :
    (∀ w ∈ ws, f w ≤ max_after_append f 0 ws) ∧
    (∃ w ∈ ws, f w = max_after_append f 0 ws) := by
  obtain ⟨_, h2, h3⟩ := max_after_append_spec f ws 0
  refine ⟨h2, ?_⟩
  rcases h3 with h3 | h3
  · cases ws with
    | nil => exact absurd rfl hne
    | cons w ws =>
      refine ⟨w, List.mem_cons_self _ _, ?_⟩
      have ha := h2 w (List.mem_cons_self _ _)
      have hb := hpos w (List.mem_cons_self _ _)
      omega
  · exact h3

/-- Claim C11. After appending the widgets `ws` one by one to a fresh vbox or
hbox, the enabled flag of the box is 1 if and only if some appended widget was
both enabled and equipped with an input handler, which is so if and only if
the cursor of the box is not -1; otherwise the flag is 0. The flag is 0 on
creation, and appending to a box whose flag is 1 leaves it at 1. -/
theorem C11_box_enabled_flag (spacing : Int) (ws : List widget_t) :
    (∃ c sel, w_vbox_append_all (w_vbox_create spacing) ws
        = some (.w_vbox c ws sel spacing) ∧
      (c.enabled = 1 ∨ c.enabled = 0) ∧
      (c.enabled = 1 ↔ ∃ w ∈ ws, w.enabled ≠ 0 ∧ w.has_input = true) ∧
      (c.enabled = 1 ↔ sel ≠ -1)) ∧
    (∃ c sel, w_hbox_append_all (w_hbox_create spacing) ws
        = some (.w_hbox c ws sel spacing) ∧
      (c.enabled = 1 ∨ c.enabled = 0) ∧
      (c.enabled = 1 ↔ ∃ w ∈ ws, w.enabled ≠ 0 ∧ w.has_input = true) ∧
      (c.enabled = 1 ↔ sel ≠ -1)) ∧
    (w_vbox_create spacing).enabled = 0 ∧ (w_hbox_create spacing).enabled = 0 ∧
    (∀ (c : widget_common) (item : List widget_t) (sel : Int) (w : widget_t),
      c.enabled = 1 →
      (∃ c1 item1 sel1, w_vbox_append (.w_vbox c item sel spacing) w
          = some (.w_vbox c1 item1 sel1 spacing) ∧ c1.enabled = 1) ∧
      (∃ c1 item1 sel1, w_hbox_append (.w_hbox c item sel spacing) w
          = some (.w_hbox c1 item1 sel1 spacing) ∧ c1.enabled = 1)) := by
  obtain ⟨h1, h2, h3⟩ := enabled_after_append_fresh ws
  have hv := w_vbox_append_all_eq spacing ws ⟨0, 0, 0⟩ [] (-1)
  have hh := w_hbox_append_all_eq spacing ws ⟨0, 0, 0⟩ [] (-1)
  rw [List.nil_append, List.length_nil] at hv hh
  refine ⟨⟨_, _, hv, h1, h2, h3⟩, ⟨_, _, hh, h1, h2, h3⟩, rfl, rfl, ?_⟩
  · intro c item sel w hc
    constructor
    · by_cases hw : w.enabled ≠ 0 ∧ w.has_input = true
      · simp only [w_vbox_append]
        rw [if_pos hw]
        exact ⟨_, _, _, rfl, rfl⟩
      · simp only [w_vbox_append]
        rw [if_neg hw]
        exact ⟨_, _, _, rfl, hc⟩
    · by_cases hw : w.enabled ≠ 0 ∧ w.has_input = true
      · simp only [w_hbox_append]
        rw [if_pos hw]
        exact ⟨_, _, _, rfl, rfl⟩
      · simp only [w_hbox_append]
        rw [if_neg hw]
        exact ⟨_, _, _, rfl, hc⟩

/-- After appending one or more widgets to a fresh vbox with spacing `s`, its
height is the sum of their heights plus `s` times their number less one,
wrapped to an `int`; likewise the width of an hbox. -/
theorem box_size_wrapped (spacing : Int) (ws : List widget_t) (hne : ws ≠ []) :
    (∃ box, w_vbox_append_all (w_vbox_create spacing) ws = some box ∧
      box.height
        = wrap_int ((ws.map widget_t.height).sum + spacing * ((ws.length : Int) - 1))) ∧
    (∃ box, w_hbox_append_all (w_hbox_create spacing) ws = some box ∧
      box.width
        = wrap_int ((ws.map widget_t.width).sum + spacing * ((ws.length : Int) - 1))) :=
  ⟨⟨_, w_vbox_append_all_eq spacing ws ⟨0, 0, 0⟩ [] (-1),
      sum_after_append_fresh widget_t.height spacing ws hne⟩,
    ⟨_, w_hbox_append_all_eq spacing ws ⟨0, 0, 0⟩ [] (-1),
      sum_after_append_fresh widget_t.width spacing ws hne⟩⟩

/-- Claim C13. After appending one or more widgets with non-negative widths
and heights to a fresh vbox with spacing `s`, the height of the vbox is the
sum of their heights plus `s` times their number less one, provided this
number is a value of `int` (the field is an `int`; a larger sum wraps, see
`box_size_wrapped`), and its width is the largest of their widths; for an hbox
the width is the sum of the widths plus `s` times their number less one,
provided this is a value of `int`, and the height is the largest height. A
box without items, as created, has width 0 and height 0. -/
theorem C13_box_size (spacing : Int) (ws : List widget_t) (hne : ws ≠ [])
    (hwidth : ∀ w ∈ ws, 0 ≤ w.width) (hheight : ∀ w ∈ ws, 0 ≤ w.height)
    (hfit_height :
      fits_int ((ws.map widget_t.height).sum + spacing * ((ws.length : Int) - 1)))
    (hfit_width :
      fits_int ((ws.map widget_t.width).sum + spacing * ((ws.length : Int) - 1))) :
    (∃ box, w_vbox_append_all (w_vbox_create spacing) ws = some box ∧
      box.height = (ws.map widget_t.height).sum + spacing * ((ws.length : Int) - 1) ∧
      (∀ w ∈ ws, w.width ≤ box.width) ∧ (∃ w ∈ ws, w.width = box.width)) ∧
    (∃ box, w_hbox_append_all (w_hbox_create spacing) ws = some box ∧
      box.width = (ws.map widget_t.width).sum + spacing * ((ws.length : Int) - 1) ∧
      (∀ w ∈ ws, w.height ≤ box.height) ∧ (∃ w ∈ ws, w.height = box.height)) ∧
    w_vbox_append_all (w_vbox_create spacing) [] = some (w_vbox_create spacing) ∧
    (w_vbox_create spacing).width = 0 ∧ (w_vbox_create spacing).height = 0 ∧
    w_hbox_append_all (w_hbox_create spacing) [] = some (w_hbox_create spacing) ∧
    (w_hbox_create spacing).width = 0 ∧ (w_hbox_create spacing).height = 0 := by
  refine ⟨⟨_, w_vbox_append_all_eq spacing ws ⟨0, 0, 0⟩ [] (-1), ?_, ?_⟩,
    ⟨_, w_hbox_append_all_eq spacing ws ⟨0, 0, 0⟩ [] (-1), ?_, ?_⟩,
    rfl, rfl, rfl, rfl, rfl, rfl⟩
  · exact (sum_after_append_fresh widget_t.height spacing ws hne).trans
      (wrap_int_of_fits _ hfit_height)
  · exact max_after_append_fresh widget_t.width ws hne hwidth
  · exact (sum_after_append_fresh widget_t.width spacing ws hne).trans
      (wrap_int_of_fits _ hfit_width)
  · exact max_after_append_fresh widget_t.height ws hne hheight

/-- Claim C13 for the two widgets of `sample_menu` and spacing 2. -/
theorem C13_box_size_witness :
    [sample_text [72, 105] 30, sample_action] ≠ [] ∧
    (∀ w ∈ [sample_text [72, 105] 30, sample_action], 0 ≤ w.width) ∧
    (∀ w ∈ [sample_text [72, 105] 30, sample_action], 0 ≤ w.height) ∧
    fits_int (([sample_text [72, 105] 30, sample_action].map widget_t.height).sum
      + 2 * (([sample_text [72, 105] 30, sample_action].length : Int) - 1)) ∧
    fits_int (([sample_text [72, 105] 30, sample_action].map widget_t.width).sum
      + 2 * (([sample_text [72, 105] 30, sample_action].length : Int) - 1)) ∧
    ((∃ box, w_vbox_append_all (w_vbox_create 2) [sample_text [72, 105] 30, sample_action]
        = some box ∧
      box.height = ([sample_text [72, 105] 30, sample_action].map widget_t.height).sum
        + 2 * (([sample_text [72, 105] 30, sample_action].length : Int) - 1) ∧
      (∀ w ∈ [sample_text [72, 105] 30, sample_action], w.width ≤ box.width) ∧
      (∃ w ∈ [sample_text [72, 105] 30, sample_action], w.width = box.width)) ∧
    (∃ box, w_hbox_append_all (w_hbox_create 2) [sample_text [72, 105] 30, sample_action]
        = some box ∧
      box.width = ([sample_text [72, 105] 30, sample_action].map widget_t.width).sum
        + 2 * (([sample_text [72, 105] 30, sample_action].length : Int) - 1) ∧
      (∀ w ∈ [sample_text [72, 105] 30, sample_action], w.height ≤ box.height) ∧
      (∃ w ∈ [sample_text [72, 105] 30, sample_action], w.height = box.height)) ∧
    w_vbox_append_all (w_vbox_create 2) [] = some (w_vbox_create 2) ∧
    (w_vbox_create 2).width = 0 ∧ (w_vbox_create 2).height = 0 ∧
    w_hbox_append_all (w_hbox_create 2) [] = some (w_hbox_create 2) ∧
    (w_hbox_create 2).width = 0 ∧ (w_hbox_create 2).height = 0) :=
  ⟨by simp, by decide, by decide, by unfold fits_int; decide, by unfold fits_int; decide,
    C13_box_size 2 [sample_text [72, 105] 30, sample_action] (by simp) (by decide)
      (by decide) (by unfold fits_int; decide) (by unfold fits_int; decide)⟩

/-- Two widgets of height `2 ^ 30` in a vbox: the exact sum `2 ^ 31` is not a
value of `int`, and the height of the vbox is `-2 ^ 31`. -/
theorem w_vbox_append_wraps :
    ∃ box, w_vbox_append_all (w_vbox_create 0)
        [.w_image ⟨1, 10, 1073741824⟩ 0, .w_image ⟨1, 10, 1073741824⟩ 0] = some box ∧
      box.height = -2147483648 :=
  ⟨_, rfl, rfl⟩

/-! ## Input to a box -/

theorem widget_list_select_next_spec (list : widget_list_t) (input enabled : Int)
    (h1 : -1 ≤ list.sel) (h2 : list.sel < list.nr) :
    ∃ sel1 ret, widget_list_select_next list input enabled
        = some ({ list with sel := sel1 }, ret) ∧
      ((ret = 1 ∧ list.sel < sel1 ∧ sel1 < list.nr ∧ list.qualifies_at input enabled sel1 ∧
          ∀ i, list.sel < i → i < sel1 → ¬ list.qualifies_at input enabled i) ∨
        (ret = 0 ∧ sel1 = list.sel ∧
          ∀ i, list.sel < i → i < list.nr → ¬ list.qualifies_at input enabled i)) := by
  obtain ⟨j, hj, hle, hjn, hjq, hmin⟩ :=
    widget_list_select_next_loop_spec list input enabled
      ((list.nr - (list.sel + 1)).toNat + 1) (list.sel + 1) (by omega) (by omega) (by omega)
  unfold widget_list_select_next
  rw [hj]
  simp only []
  by_cases hlt : j < list.nr
  · rw [if_pos hlt]
    refine ⟨j, 1, rfl, Or.inl ⟨rfl, by omega, hlt, hjq hlt, ?_⟩⟩
    intro i hi1 hi2
    exact hmin i (by omega) hi2
  · rw [if_neg hlt]
    refine ⟨list.sel, 0, rfl, Or.inr ⟨rfl, rfl, ?_⟩⟩
    intro i hi1 hi2
    exact hmin i (by omega) (by omega)

theorem widget_list_select_prev_spec (list : widget_list_t) (input enabled : Int)
    (h1 : -1 ≤ list.sel) (h2 : list.sel < list.nr) :
    ∃ sel1 ret, widget_list_select_prev list input enabled
        = some ({ list with sel := sel1 }, ret) ∧
      ((ret = 1 ∧ 0 ≤ sel1 ∧ sel1 < list.sel ∧ list.qualifies_at input enabled sel1 ∧
          ∀ i, sel1 < i → i < list.sel → ¬ list.qualifies_at input enabled i) ∨
        (ret = 0 ∧ sel1 = list.sel ∧
          ∀ i, 0 ≤ i → i < list.sel → ¬ list.qualifies_at input enabled i)) := by
  obtain ⟨j, hj, hle, hneg, hpos, hjq, hmin⟩ :=
    widget_list_select_prev_loop_spec list input enabled
      ((list.sel - 1 + 1).toNat + 1) (list.sel - 1) (by omega) (by omega) (by omega)
  unfold widget_list_select_prev
  rw [hj]
  simp only []
  by_cases h0 : 0 ≤ j
  · rw [if_pos h0]
    refine ⟨j, 1, rfl, Or.inl ⟨rfl, h0, by omega, hjq h0, ?_⟩⟩
    intro i hi1 hi2
    exact hmin i hi1 (by omega)
  · rw [if_neg h0]
    refine ⟨list.sel, 0, rfl, Or.inr ⟨rfl, rfl, ?_⟩⟩
    intro i hi1 hi2
    exact hmin i (by omega) (by omega)

theorem widget_list_item_input_some (K : ui_event_codes) (event : Int) :
    ∀ (ws : List widget_t) (i : Nat) (ws1 : List widget_t) (r : Int) (tr : List effect),
      widget_list_item_input K ws i event = some (ws1, r, tr) →
      ∃ (hi : i < ws.length) (w1 : widget_t) (tr1 : List effect),
        widget_input K (ws.get ⟨i, hi⟩) event = some (w1, r, tr1) ∧
        ws1 = ws.set i w1 ∧ tr = effect.input (ws.get ⟨i, hi⟩) event :: tr1
  | [], i, ws1, r, tr, h => by simp [widget_list_item_input] at h
  | w :: ws, 0, ws1, r, tr, h => by
    simp only [widget_list_item_input] at h
    cases hw : widget_input K w event with
    | none => rw [hw] at h; exact absurd h (by simp)
    | some res =>
      obtain ⟨w1, r1, tr1⟩ := res
      rw [hw] at h
      simp only [Option.some.injEq, Prod.mk.injEq] at h
      obtain ⟨e1, e2, e3⟩ := h
      refine ⟨by simp, w1, tr1, ?_, ?_, ?_⟩
      · rw [← e2]; exact hw
      · rw [← e1]; rfl
      · rw [← e3]; rfl
  | w :: ws, i + 1, ws1, r, tr, h => by
    simp only [widget_list_item_input] at h
    cases hw : widget_list_item_input K ws i event with
    | none => rw [hw] at h; exact absurd h (by simp)
    | some res =>
      obtain ⟨ws2, r1, tr1⟩ := res
      rw [hw] at h
      simp only [Option.some.injEq, Prod.mk.injEq] at h
      obtain ⟨e1, e2, e3⟩ := h
      obtain ⟨hi, w1, tr2, h1, h2, h3⟩ := widget_list_item_input_some K event ws i ws2 r1 tr1 hw
      refine ⟨by simpa using hi, w1, tr2, ?_, ?_, ?_⟩
      · rw [← e2]; exact h1
      · rw [← e1, h2]; rfl
      · rw [← e3, h3]; rfl

theorem box_outcome_of_input (prev_event next_event : Int) (hne : prev_event ≠ next_event)
    (item1 : List widget_t) (sel r event : Int) (h0 : 0 ≤ sel)
    (hlt : sel < (item1.length : Int)) :
    ∃ sel1 ret,
      (if r ≠ 0 then some (sel, (1 : Int))
        else if event = prev_event then
          match widget_list_select_prev ⟨sel, item1⟩ 1 1 with
          | none => none
          | some (list, r1) => some (list.sel, r1)
        else if event = next_event then
          match widget_list_select_next ⟨sel, item1⟩ 1 1 with
          | none => none
          | some (list, r1) => some (list.sel, r1)
        else some (sel, 0)) = some (sel1, ret) ∧
      (r = 0 → event = prev_event →
        widget_list_select_prev ⟨sel, item1⟩ 1 1 = some (⟨sel1, item1⟩, ret)) ∧
      (r = 0 → event ≠ prev_event → event = next_event →
        widget_list_select_next ⟨sel, item1⟩ 1 1 = some (⟨sel1, item1⟩, ret)) ∧
      box_outcome prev_event next_event ⟨sel, item1⟩ r event sel1 ret := by
  by_cases hr : r ≠ 0
  · rw [if_pos hr]
    refine ⟨sel, 1, rfl, fun h => absurd h hr, fun h => absurd h hr, ?_⟩
    exact ⟨fun _ => ⟨rfl, rfl⟩, fun h => absurd h hr, fun h => absurd h hr,
      fun h => absurd h hr⟩
  · rw [if_neg hr]
    have hr0 : r = 0 := not_not.mp hr
    by_cases hp : event = prev_event
    · rw [if_pos hp]
      obtain ⟨sel1, ret, hsel, hspec⟩ :=
        widget_list_select_prev_spec ⟨sel, item1⟩ 1 1 (by simp only []; omega)
          (by simp only [widget_list_t.nr]; omega)
      refine ⟨sel1, ret, by rw [hsel], fun _ _ => hsel, fun _ h => absurd hp h, ?_⟩
      refine ⟨fun h => absurd hr0 h, fun _ _ => hspec, ?_, fun _ h => absurd hp h⟩
      intro _ hn
      exact absurd (hp.symm.trans hn) hne
    · rw [if_neg hp]
      by_cases hn : event = next_event
      · rw [if_pos hn]
        obtain ⟨sel1, ret, hsel, hspec⟩ :=
          widget_list_select_next_spec ⟨sel, item1⟩ 1 1 (by simp only []; omega)
            (by simp only [widget_list_t.nr]; omega)
        refine ⟨sel1, ret, by rw [hsel], fun _ h => absurd h hp, fun _ _ _ => hsel, ?_⟩
        exact ⟨fun h => absurd hr0 h, fun _ h => absurd h hp, fun _ _ => hspec,
          fun _ _ h => absurd hn h⟩
      · rw [if_neg hn]
        refine ⟨sel, 0, rfl, fun _ h => absurd h hp, fun _ _ h => absurd h hn, ?_⟩
        exact ⟨fun h => absurd hr0 h, fun _ h => absurd h hp, fun _ h => absurd h hn,
          fun _ _ _ => ⟨rfl, rfl⟩⟩

/-- Claim C12. Let the cursor of a vbox or hbox be on a child whose input
handler returns `r` for the event. The box calls that handler first, with the
event. If `r` is not 0 the box returns 1 and its cursor stays. If `r` is 0, a
vbox on UP (an hbox on LEFT) moves the cursor to the nearest earlier child that
is enabled and has an input handler, on DOWN (RIGHT) to the nearest later one,
and returns 1 exactly when the cursor moved; on every other event it returns 0
with the cursor unchanged (`box_outcome`). A box whose cursor is -1 returns 0
for every event and calls nothing. -/
theorem C12_box_input (K : ui_event_codes)
    (hUD : K.UI_EVENT_UP ≠ K.UI_EVENT_DOWN) (hLR : K.UI_EVENT_LEFT ≠ K.UI_EVENT_RIGHT)
    (c : widget_common) (item : List widget_t) (sel spacing event : Int) (h0 : 0 ≤ sel)
    (item1 : List widget_t) (r : Int) (tr : List effect)
    (hchild : widget_list_item_input K item sel.toNat event = some (item1, r, tr)) :
    (∃ child child1 tr1, array_get item sel = some child ∧
      widget_input K child event = some (child1, r, tr1) ∧
      tr = effect.input child event :: tr1 ∧ item1 = item.set sel.toNat child1) ∧
    (∃ sel1 ret, widget_input K (.w_vbox c item sel spacing) event
        = some (.w_vbox c item1 sel1 spacing, ret, tr) ∧
      box_outcome K.UI_EVENT_UP K.UI_EVENT_DOWN ⟨sel, item1⟩ r event sel1 ret) ∧
    (∃ sel1 ret, widget_input K (.w_hbox c item sel spacing) event
        = some (.w_hbox c item1 sel1 spacing, ret, tr) ∧
      box_outcome K.UI_EVENT_LEFT K.UI_EVENT_RIGHT ⟨sel, item1⟩ r event sel1 ret) ∧
    (∀ e : Int, widget_input K (.w_vbox c item (-1) spacing) e
        = some (.w_vbox c item (-1) spacing, 0, [])) ∧
    (∀ e : Int, widget_input K (.w_hbox c item (-1) spacing) e
        = some (.w_hbox c item (-1) spacing, 0, [])) := by
  obtain ⟨hi, child1, tr1, hw, hitem, htr⟩ :=
    widget_list_item_input_some K event item sel.toNat item1 r tr hchild
  have hlen : item1.length = item.length := by rw [hitem, List.length_set]
  have hlt : sel < (item1.length : Int) := by omega
  have hs1 : ¬ sel = -1 := by omega
  have hs2 : ¬ sel < 0 := by omega
  have hget : array_get item sel = some (item.get ⟨sel.toNat, hi⟩) := by
    have hcast : array_get item sel = array_get item ((sel.toNat : Nat) : Int) := by
      rw [Int.toNat_of_nonneg h0]
    rw [hcast]
    exact array_get_of_lt _ _ hi
  refine ⟨⟨_, child1, tr1, hget, hw, htr, hitem⟩, ?_, ?_, ?_, ?_⟩
  · obtain ⟨sel1, ret, hres, hprev, hnext, hout⟩ :=
      box_outcome_of_input K.UI_EVENT_UP K.UI_EVENT_DOWN hUD item1 sel r event h0 hlt
    refine ⟨sel1, ret, ?_, hout⟩
    simp only [widget_input]
    rw [if_neg hs1, if_neg hs2, hchild]
    simp only []
    by_cases hr : r ≠ 0
    · rw [if_pos hr] at hres ⊢
      simp only [Option.some.injEq, Prod.mk.injEq] at hres
      rw [← hres.1, ← hres.2]
    · rw [if_neg hr]
      have hr0 : r = 0 := not_not.mp hr
      by_cases hp : event = K.UI_EVENT_UP
      · rw [if_pos hp, hprev hr0 hp]
      · rw [if_neg hp]
        by_cases hn : event = K.UI_EVENT_DOWN
        · rw [if_pos hn, hnext hr0 hp hn]
        · rw [if_neg hn]
          obtain ⟨e1, e2⟩ := hout.2.2.2 hr0 hp hn
          rw [e1, e2]
  · obtain ⟨sel1, ret, hres, hprev, hnext, hout⟩ :=
      box_outcome_of_input K.UI_EVENT_LEFT K.UI_EVENT_RIGHT hLR item1 sel r event h0 hlt
    refine ⟨sel1, ret, ?_, hout⟩
    simp only [widget_input]
    rw [if_neg hs1, if_neg hs2, hchild]
    simp only []
    by_cases hr : r ≠ 0
    · rw [if_pos hr] at hres ⊢
      simp only [Option.some.injEq, Prod.mk.injEq] at hres
      rw [← hres.1, ← hres.2]
    · rw [if_neg hr]
      have hr0 : r = 0 := not_not.mp hr
      by_cases hp : event = K.UI_EVENT_LEFT
      · rw [if_pos hp, hprev hr0 hp]
      · rw [if_neg hp]
        by_cases hn : event = K.UI_EVENT_RIGHT
        · rw [if_pos hn, hnext hr0 hp hn]
        · rw [if_neg hn]
          obtain ⟨e1, e2⟩ := hout.2.2.2 hr0 hp hn
          rw [e1, e2]
  · intro e
    simp [widget_input]
  · intro e
    simp [widget_input]

/-- Claim C12 for a box around the items of `sample_list`, cursor on the
second item, and the event DOWN of `sample_codes`. -/
theorem C12_box_input_witness :
    sample_codes.UI_EVENT_UP ≠ sample_codes.UI_EVENT_DOWN ∧
    sample_codes.UI_EVENT_LEFT ≠ sample_codes.UI_EVENT_RIGHT ∧ (0 : Int) ≤ 1 ∧
    widget_list_item_input sample_codes sample_list.item (1 : Int).toNat 2
      = some (sample_list.item, 0, [effect.input sample_action 2]) ∧
    ((∃ child child1 tr1, array_get sample_list.item 1 = some child ∧
      widget_input sample_codes child 2 = some (child1, 0, tr1) ∧
      [effect.input sample_action 2] = effect.input child 2 :: tr1 ∧
      sample_list.item = sample_list.item.set (1 : Int).toNat child1) ∧
    (∃ sel1 ret, widget_input sample_codes (.w_vbox ⟨1, 60, 94⟩ sample_list.item 1 2) 2
        = some (.w_vbox ⟨1, 60, 94⟩ sample_list.item sel1 2, ret,
            [effect.input sample_action 2]) ∧
      box_outcome sample_codes.UI_EVENT_UP sample_codes.UI_EVENT_DOWN
        ⟨1, sample_list.item⟩ 0 2 sel1 ret) ∧
    (∃ sel1 ret, widget_input sample_codes (.w_hbox ⟨1, 60, 94⟩ sample_list.item 1 2) 2
        = some (.w_hbox ⟨1, 60, 94⟩ sample_list.item sel1 2, ret,
            [effect.input sample_action 2]) ∧
      box_outcome sample_codes.UI_EVENT_LEFT sample_codes.UI_EVENT_RIGHT
        ⟨1, sample_list.item⟩ 0 2 sel1 ret) ∧
    (∀ e : Int, widget_input sample_codes (.w_vbox ⟨1, 60, 94⟩ sample_list.item (-1) 2) e
        = some (.w_vbox ⟨1, 60, 94⟩ sample_list.item (-1) 2, 0, [])) ∧
    (∀ e : Int, widget_input sample_codes (.w_hbox ⟨1, 60, 94⟩ sample_list.item (-1) 2) e
        = some (.w_hbox ⟨1, 60, 94⟩ sample_list.item (-1) 2, 0, []))) :=
  ⟨by decide, by decide, by decide, rfl,
    C12_box_input sample_codes (by decide) (by decide) ⟨1, 60, 94⟩ sample_list.item 1 2 2
      (by decide) sample_list.item 0 [effect.input sample_action 2] rfl⟩

/-! ## Action widgets -/

/-- Claim C14. For an action widget with any child: with a callback
registered, `w_action_input` on UI_EVENT_ACTION calls it once, with the widget
and the registered data, and returns 1; with no callback registered it calls
nothing and returns 1; on every other event it calls nothing and returns 0.
In no case is the input handler of the child called, and the widget is
unchanged. The widget's input handler is `w_action_input`, and a callback is
registered with `w_action_set_callback`. -/
theorem C14_action_input (K : ui_event_codes) (c : widget_common) (child : widget_t)
    (func func_data : Nat) :
    (func ≠ 0 → w_action_input K (.w_action c child func func_data) K.UI_EVENT_ACTION
      = some (.w_action c child func func_data, 1,
          [effect.func func (.w_action c child func func_data) func_data])) ∧
    (func = 0 → w_action_input K (.w_action c child func func_data) K.UI_EVENT_ACTION
      = some (.w_action c child func func_data, 1, [])) ∧
    (∀ event : Int, event ≠ K.UI_EVENT_ACTION →
      w_action_input K (.w_action c child func func_data) event
        = some (.w_action c child func func_data, 0, [])) ∧
    (∀ event : Int, ∃ ret tr,
      w_action_input K (.w_action c child func func_data) event
        = some (.w_action c child func func_data, ret, tr) ∧
      (∀ e ∈ tr, e.is_input = false) ∧ count_func tr ≤ 1) ∧
    (∀ event : Int, widget_input K (.w_action c child func func_data) event
      = w_action_input K (.w_action c child func func_data) event) ∧
    w_action_set_callback (w_action_create child) func func_data
      = some (.w_action ⟨1, child.width, child.height⟩ child func func_data) := by
  refine ⟨?_, ?_, ?_, ?_, ?_, rfl⟩
  · intro hf
    simp only [w_action_input, if_true]
    rw [if_pos hf]
  · intro hf
    simp only [w_action_input, if_true]
    rw [if_neg (by simpa using hf)]
  · intro event he
    simp only [w_action_input]
    rw [if_neg he]
  · intro event
    simp only [w_action_input]
    by_cases he : event = K.UI_EVENT_ACTION
    · rw [if_pos he]
      by_cases hf : func ≠ 0
      · rw [if_pos hf]
        refine ⟨_, _, rfl, ?_, ?_⟩
        · intro e hmem
          rw [List.mem_singleton.mp hmem]
          rfl
        · simp [count_func, effect.is_func]
      · rw [if_neg hf]
        exact ⟨_, _, rfl, by simp, by simp [count_func]⟩
    · rw [if_neg he]
      exact ⟨_, _, rfl, by simp, by simp [count_func]⟩
  · intro event
    simp only [widget_input]

/-! ## Option widgets -/

theorem widget_list_select_next_any (list : widget_list_t) :
    widget_list_select_next list 0 0
      = if list.sel + 1 < list.nr then some ({ list with sel := list.sel + 1 }, 1)
        else some (list, 0) := by
  unfold widget_list_select_next
  simp only [widget_list_select_next_loop, widget_list_skip, and_self, if_true]
  by_cases h : list.sel + 1 < list.nr
  · simp only [if_pos h]
  · simp only [if_neg h]

theorem widget_list_select_prev_any (list : widget_list_t) :
    widget_list_select_prev list 0 0
      = if 0 ≤ list.sel - 1 then some ({ list with sel := list.sel - 1 }, 1)
        else some (list, 0) := by
  unfold widget_list_select_prev
  simp only [widget_list_select_prev_loop, widget_list_skip, and_self, if_true]
  by_cases h : 0 ≤ list.sel - 1
  · simp only [if_pos h]
  · simp only [if_neg h]

theorem w_option_input_right (K : ui_event_codes) (c : widget_common)
    (item : List widget_t) (sel : Int) (func func_data : Nat) (hsel : sel ≠ -1)
    (hf : func ≠ 0) :
    w_option_input K (.w_option c item sel func func_data) K.UI_EVENT_RIGHT
      = if sel + 1 < (item.length : Int) then
          some (.w_option c item (sel + 1) func func_data, 1,
            [effect.func func (.w_option c item (sel + 1) func func_data) func_data])
        else some (.w_option c item sel func func_data, 1, []) := by
  simp only [w_option_input, if_true]
  rw [if_neg hsel, widget_list_select_next_any]
  simp only [widget_list_t.nr]
  by_cases h : sel + 1 < (item.length : Int)
  · simp only [if_pos h]
    rw [if_pos ⟨by decide, hf⟩]
  · simp only [if_neg h]
    rw [if_neg (by simp)]

theorem w_option_input_left (K : ui_event_codes)
    (hLR : K.UI_EVENT_LEFT ≠ K.UI_EVENT_RIGHT) (c : widget_common)
    (item : List widget_t) (sel : Int) (func func_data : Nat) (hsel : sel ≠ -1)
    (hf : func ≠ 0) :
    w_option_input K (.w_option c item sel func func_data) K.UI_EVENT_LEFT
      = if 0 ≤ sel - 1 then
          some (.w_option c item (sel - 1) func func_data, 1,
            [effect.func func (.w_option c item (sel - 1) func func_data) func_data])
        else some (.w_option c item sel func func_data, 1, []) := by
  simp only [w_option_input, if_true]
  rw [if_neg hsel, if_neg hLR, widget_list_select_prev_any]
  by_cases h : 0 ≤ sel - 1
  · simp only [if_pos h]
    rw [if_pos ⟨by decide, hf⟩]
  · simp only [if_neg h]
    rw [if_neg (by simp)]

/-- Claim C15. For an option widget with a cursor (which it has once it holds
an option) and a callback registered: LEFT with the cursor at index 0 leaves
the widget as it is and calls nothing; RIGHT with the cursor at the last index
leaves the widget as it is and calls nothing; LEFT with the cursor above 0
moves it down by one and RIGHT with the cursor below the last index moves it
up by one, each calling the callback once, with the widget after the move. All
four return 1. -/
theorem C15_option_input (K : ui_event_codes)
    (hLR : K.UI_EVENT_LEFT ≠ K.UI_EVENT_RIGHT) (c : widget_common)
    (item : List widget_t) (sel : Int) (func func_data : Nat)
    (h0 : 0 ≤ sel) (hf : func ≠ 0) :
    (sel = 0 → w_option_input K (.w_option c item sel func func_data) K.UI_EVENT_LEFT
      = some (.w_option c item sel func func_data, 1, [])) ∧
    (sel = (item.length : Int) - 1 →
      w_option_input K (.w_option c item sel func func_data) K.UI_EVENT_RIGHT
        = some (.w_option c item sel func func_data, 1, [])) ∧
    (0 < sel → w_option_input K (.w_option c item sel func func_data) K.UI_EVENT_LEFT
      = some (.w_option c item (sel - 1) func func_data, 1,
          [effect.func func (.w_option c item (sel - 1) func func_data) func_data])) ∧
    (sel < (item.length : Int) - 1 →
      w_option_input K (.w_option c item sel func func_data) K.UI_EVENT_RIGHT
        = some (.w_option c item (sel + 1) func func_data, 1,
          [effect.func func (.w_option c item (sel + 1) func func_data) func_data])) ∧
    count_func [effect.func func (.w_option c item (sel - 1) func func_data) func_data] = 1 ∧
    count_func [effect.func func (.w_option c item (sel + 1) func func_data) func_data] = 1 := by
  have hs : sel ≠ -1 := by omega
  refine ⟨?_, ?_, ?_, ?_, rfl, rfl⟩
  · intro h
    rw [w_option_input_left K hLR c item sel func func_data hs hf, if_neg (by omega)]
  · intro h
    rw [w_option_input_right K c item sel func func_data hs hf, if_neg (by omega)]
  · intro h
    rw [w_option_input_left K hLR c item sel func func_data hs hf, if_pos (by omega)]
  · intro h
    rw [w_option_input_right K c item sel func func_data hs hf, if_pos (by omega)]

/-- Claim C15 for an option widget with the items `sample_choices`, the cursor
on the second and the callback 77. -/
theorem C15_option_input_witness :
    sample_codes.UI_EVENT_LEFT ≠ sample_codes.UI_EVENT_RIGHT ∧ (0 : Int) ≤ 1 ∧ 77 ≠ 0 ∧
    (((1 : Int) = 0 →
      w_option_input sample_codes (.w_option ⟨1, 30, 22⟩ sample_choices 1 77 0)
          sample_codes.UI_EVENT_LEFT
        = some (.w_option ⟨1, 30, 22⟩ sample_choices 1 77 0, 1, [])) ∧
    ((1 : Int) = (sample_choices.length : Int) - 1 →
      w_option_input sample_codes (.w_option ⟨1, 30, 22⟩ sample_choices 1 77 0)
          sample_codes.UI_EVENT_RIGHT
        = some (.w_option ⟨1, 30, 22⟩ sample_choices 1 77 0, 1, [])) ∧
    ((0 : Int) < 1 →
      w_option_input sample_codes (.w_option ⟨1, 30, 22⟩ sample_choices 1 77 0)
          sample_codes.UI_EVENT_LEFT
        = some (.w_option ⟨1, 30, 22⟩ sample_choices (1 - 1) 77 0, 1,
            [effect.func 77 (.w_option ⟨1, 30, 22⟩ sample_choices (1 - 1) 77 0) 0])) ∧
    ((1 : Int) < (sample_choices.length : Int) - 1 →
      w_option_input sample_codes (.w_option ⟨1, 30, 22⟩ sample_choices 1 77 0)
          sample_codes.UI_EVENT_RIGHT
        = some (.w_option ⟨1, 30, 22⟩ sample_choices (1 + 1) 77 0, 1,
            [effect.func 77 (.w_option ⟨1, 30, 22⟩ sample_choices (1 + 1) 77 0) 0])) ∧
    count_func [effect.func 77 (.w_option ⟨1, 30, 22⟩ sample_choices (1 - 1) 77 0) 0] = 1 ∧
    count_func [effect.func 77 (.w_option ⟨1, 30, 22⟩ sample_choices (1 + 1) 77 0) 0] = 1) :=
  ⟨by decide, by decide, by decide,
    C15_option_input sample_codes (by decide) ⟨1, 30, 22⟩ sample_choices 1 77 0
      (by decide) (by decide)⟩

theorem w_option_append_all_spec (font : Int → texture_t) (func func_data : Nat)
    (ws : List widget_t) :
    ∀ (c : widget_common) (item : List widget_t) (sel : Int),
      ∃ width height, w_option_append_all font (.w_option c item sel func func_data) ws
        = some (.w_option
            ⟨if item.length < 2 ∧ 2 ≤ item.length + ws.length then 1 else c.enabled,
              width, height⟩
            (item ++ ws) (if 0 < ws.length ∧ sel = -1 then 0 else sel) func func_data) := by
  induction ws with
  | nil =>
    intro c item sel
    refine ⟨c.width, c.height, ?_⟩
    simp only [w_option_append_all, List.append_nil, List.length_nil, Nat.add_zero]
    rw [if_neg (by omega), if_neg (by omega)]
  | cons w ws ih =>
    intro c item sel
    have hlen : (item ++ [w]).length = item.length + 1 := by simp
    simp only [w_option_append_all, w_option_append, widget_list_append, widget_list_t.nr]
    obtain ⟨width, height, h⟩ := ih
      ⟨if ((item ++ [w]).length : Int) = 2 then 1 else c.enabled,
        if wrap_int (w.width
            + wrap_int (text_width font OPTION_ARROW_LEFT + text_width font OPTION_ARROW_RIGHT))
            > c.width then
          wrap_int (w.width
            + wrap_int (text_width font OPTION_ARROW_LEFT + text_width font OPTION_ARROW_RIGHT))
        else c.width,
        if (if w.height > text_height font then w.height else text_height font) > c.height then
          (if w.height > text_height font then w.height else text_height font)
        else c.height⟩
      (item ++ [w]) (if sel = -1 then 0 else sel)
    refine ⟨width, height, ?_⟩
    rw [h]
    simp only [hlen, List.append_assoc, List.singleton_append, List.length_cons]
    have e1 : (if 0 < ws.length ∧ (if sel = -1 then (0 : Int) else sel) = -1 then (0 : Int)
        else if sel = -1 then 0 else sel)
        = if 0 < ws.length + 1 ∧ sel = -1 then 0 else sel := by
      by_cases hs : sel = -1
      · simp [hs]
      · simp [hs]
    have e2 : (if item.length + 1 < 2 ∧ 2 ≤ item.length + 1 + ws.length then (1 : Int)
        else if ((item.length + 1 : Nat) : Int) = 2 then 1 else c.enabled)
        = if item.length < 2 ∧ 2 ≤ item.length + (ws.length + 1) then 1 else c.enabled := by
      by_cases ha : item.length + 1 < 2 ∧ 2 ≤ item.length + 1 + ws.length
      · rw [if_pos ha, if_pos (by omega)]
      · rw [if_neg ha]
        by_cases hb : ((item.length + 1 : Nat) : Int) = 2
        · rw [if_pos hb, if_pos (by omega)]
        · rw [if_neg hb, if_neg (by omega)]
    rw [e1, e2]

theorem input_all_right (K : ui_event_codes) (c : widget_common) (item : List widget_t)
    (func func_data : Nat) (hf : func ≠ 0) (n : Nat) :
    ∀ sel : Int, 0 ≤ sel → sel < (item.length : Int) →
      ∃ tr, input_all (w_option_input K) (.w_option c item sel func func_data)
          (List.replicate n K.UI_EVENT_RIGHT)
        = some (.w_option c item (min (sel + n) ((item.length : Int) - 1)) func func_data, tr) ∧
        (count_func tr : Int) = min (n : Int) ((item.length : Int) - 1 - sel) := by
  induction n with
  | zero =>
    intro sel h0 hlt
    refine ⟨[], ?_, ?_⟩
    · simp only [List.replicate, input_all, Nat.cast_zero, add_zero]
      rw [min_eq_left (by omega)]
    · simp only [count_func, List.filter_nil, List.length_nil, Nat.cast_zero]
      rw [min_eq_left (by omega)]
  | succ n ih =>
    intro sel h0 hlt
    have hs : sel ≠ -1 := by omega
    simp only [List.replicate, input_all]
    rw [w_option_input_right K c item sel func func_data hs hf]
    by_cases hm : sel + 1 < (item.length : Int)
    · rw [if_pos hm]
      obtain ⟨tr, htr, hcount⟩ := ih (sel + 1) (by omega) hm
      simp only []
      rw [htr]
      refine ⟨[effect.func func (.w_option c item (sel + 1) func func_data) func_data] ++ tr,
        ?_, ?_⟩
      · have : sel + 1 + (n : Int) = sel + ((n + 1 : Nat) : Int) := by push_cast; ring
        rw [this]
      · simp only [count_func, List.singleton_append, List.filter_cons, effect.is_func,
          if_true, List.length_cons] at hcount ⊢
        push_cast
        rw [hcount]
        omega
    · rw [if_neg hm]
      obtain ⟨tr, htr, hcount⟩ := ih sel h0 hlt
      simp only []
      rw [htr]
      refine ⟨[] ++ tr, ?_, ?_⟩
      · have h1 : min (sel + (n : Int)) ((item.length : Int) - 1) = (item.length : Int) - 1 :=
          min_eq_right (by omega)
        have h2 : min (sel + ((n + 1 : Nat) : Int)) ((item.length : Int) - 1)
            = (item.length : Int) - 1 := min_eq_right (by push_cast; omega)
        rw [h1, h2]
      · simp only [List.nil_append]
        rw [hcount]
        push_cast
        omega

/-- Claim C16. Append one or more choices to a fresh option widget: the cursor
is at index 0. Register a callback and send RIGHT `n` times: the selected
index (`w_option_get_selected`) is the smaller of `n` and the last index, and
the callback has been called that many times. A single RIGHT leaves the index
or raises it by one, never past the last index; a single LEFT leaves it or
lowers it by one, never below 0. -/
theorem C16_option_right_presses (K : ui_event_codes)
    (hLR : K.UI_EVENT_LEFT ≠ K.UI_EVENT_RIGHT) (font : Int → texture_t)
    (func0 data0 : Nat) (ws : List widget_t) (callback func_data : Nat) (n : Nat)
    (hws : ws ≠ []) (hcb : callback ≠ 0) :
    (∃ w0 w1 w2 tr, w_option_append_all font (w_option_create func0 data0) ws = some w0 ∧
      w_option_get_selected w0 = some 0 ∧
      w_option_set_callback w0 callback func_data = some w1 ∧
      input_all (w_option_input K) w1 (List.replicate n K.UI_EVENT_RIGHT) = some (w2, tr) ∧
      w_option_get_selected w2 = some (min (n : Int) ((ws.length : Int) - 1)) ∧
      (count_func tr : Int) = min (n : Int) ((ws.length : Int) - 1)) ∧
    (∀ (c : widget_common) (item : List widget_t) (sel : Int) (f d : Nat),
      0 ≤ sel → sel < (item.length : Int) → f ≠ 0 →
      (∃ sel1 tr1, w_option_input K (.w_option c item sel f d) K.UI_EVENT_RIGHT
          = some (.w_option c item sel1 f d, 1, tr1) ∧
        (sel1 = sel ∨ sel1 = sel + 1) ∧ sel1 < (item.length : Int)) ∧
      (∃ sel1 tr1, w_option_input K (.w_option c item sel f d) K.UI_EVENT_LEFT
          = some (.w_option c item sel1 f d, 1, tr1) ∧
        (sel1 = sel ∨ sel1 = sel - 1) ∧ 0 ≤ sel1)) := by
  constructor
  · have hlen : 0 < ws.length := List.length_pos.mpr hws
    obtain ⟨width, height, happ⟩ :=
      w_option_append_all_spec font func0 data0 ws ⟨0, 0, 0⟩ [] (-1)
    have hsel : (if 0 < ws.length ∧ (-1 : Int) = -1 then (0 : Int) else -1) = 0 :=
      if_pos ⟨hlen, rfl⟩
    rw [List.nil_append, hsel] at happ
    have happ1 : ∃ c, w_option_append_all font (w_option_create func0 data0) ws
        = some (.w_option c ws 0 func0 data0) := ⟨_, happ⟩
    obtain ⟨c, hc⟩ := happ1
    obtain ⟨tr, htr, hcount⟩ := input_all_right K c ws callback func_data hcb n 0 (le_refl 0)
      (by omega)
    rw [zero_add] at htr
    refine ⟨_, _, _, tr, hc, rfl, rfl, htr, rfl, ?_⟩
    rw [hcount, sub_zero]
  · intro c item sel f d h0 hlt hf
    have hs : sel ≠ -1 := by omega
    constructor
    · rw [w_option_input_right K c item sel f d hs hf]
      by_cases hm : sel + 1 < (item.length : Int)
      · rw [if_pos hm]
        exact ⟨_, _, rfl, Or.inr rfl, hm⟩
      · rw [if_neg hm]
        exact ⟨_, _, rfl, Or.inl rfl, hlt⟩
    · rw [w_option_input_left K hLR c item sel f d hs hf]
      by_cases hm : 0 ≤ sel - 1
      · rw [if_pos hm]
        exact ⟨_, _, rfl, Or.inr rfl, hm⟩
      · rw [if_neg hm]
        exact ⟨_, _, rfl, Or.inl rfl, h0⟩

/-- Claim C16 for the choices `A`, `B`, `C` and three RIGHT events: the
selected index is 2 and the callback was called twice. -/
theorem C16_option_right_presses_witness :
    sample_codes.UI_EVENT_LEFT ≠ sample_codes.UI_EVENT_RIGHT ∧ sample_choices ≠ [] ∧
    77 ≠ 0 ∧ min ((3 : Nat) : Int) ((sample_choices.length : Int) - 1) = 2 ∧
    ((∃ w0 w1 w2 tr, w_option_append_all sample_font (w_option_create 5 6) sample_choices
        = some w0 ∧
      w_option_get_selected w0 = some 0 ∧
      w_option_set_callback w0 77 0 = some w1 ∧
      input_all (w_option_input sample_codes) w1
        (List.replicate 3 sample_codes.UI_EVENT_RIGHT) = some (w2, tr) ∧
      w_option_get_selected w2
        = some (min ((3 : Nat) : Int) ((sample_choices.length : Int) - 1)) ∧
      (count_func tr : Int) = min ((3 : Nat) : Int) ((sample_choices.length : Int) - 1)) ∧
    (∀ (c : widget_common) (item : List widget_t) (sel : Int) (f d : Nat),
      0 ≤ sel → sel < (item.length : Int) → f ≠ 0 →
      (∃ sel1 tr1, w_option_input sample_codes (.w_option c item sel f d)
            sample_codes.UI_EVENT_RIGHT
          = some (.w_option c item sel1 f d, 1, tr1) ∧
        (sel1 = sel ∨ sel1 = sel + 1) ∧ sel1 < (item.length : Int)) ∧
      (∃ sel1 tr1, w_option_input sample_codes (.w_option c item sel f d)
            sample_codes.UI_EVENT_LEFT
          = some (.w_option c item sel1 f d, 1, tr1) ∧
        (sel1 = sel ∨ sel1 = sel - 1) ∧ 0 ≤ sel1))) :=
  ⟨by decide, by simp [sample_choices], by decide, by decide,
    C16_option_right_presses sample_codes (by decide) sample_font 5 6 sample_choices 77 0 3
      (by simp [sample_choices]) (by decide)⟩

/-- Claim C17. After appending the widgets `ws` one by one to a fresh option
widget, its enabled flag is 1 if and only if it holds at least two options,
and 0 otherwise: it is 0 on creation and with exactly one option. -/
theorem C17_option_enabled_flag (font : Int → texture_t) (func0 data0 : Nat)
    (ws : List widget_t) :
    (∃ c sel, w_option_append_all font (w_option_create func0 data0) ws
        = some (.w_option c ws sel func0 data0) ∧
      (c.enabled = 1 ↔ 2 ≤ ws.length) ∧ (c.enabled = 0 ↔ ws.length < 2)) ∧
    (w_option_create func0 data0).enabled = 0 ∧
    (∀ w : widget_t, ∃ c sel, w_option_append font (w_option_create func0 data0) w
        = some (.w_option c [w] sel func0 data0) ∧ c.enabled = 0) := by
  refine ⟨?_, rfl, ?_⟩
  · obtain ⟨width, height, happ⟩ :=
      w_option_append_all_spec font func0 data0 ws ⟨0, 0, 0⟩ [] (-1)
    rw [List.nil_append] at happ
    refine ⟨_, _, happ, ?_, ?_⟩
    · simp only [List.length_nil, Nat.zero_add]
      by_cases h : 0 < 2 ∧ 2 ≤ ws.length
      · rw [if_pos h]; exact ⟨fun _ => h.2, fun _ => rfl⟩
      · rw [if_neg h]
        exact ⟨fun h1 => absurd h1 (by decide), fun h2 => absurd ⟨by decide, h2⟩ h⟩
    · simp only [List.length_nil, Nat.zero_add]
      by_cases h : 0 < 2 ∧ 2 ≤ ws.length
      · rw [if_pos h]
        exact ⟨fun h1 => absurd h1 (by decide), fun h2 => absurd h.2 (by omega)⟩
      · rw [if_neg h]
        exact ⟨fun _ => by omega, fun _ => rfl⟩
  · intro w
    exact ⟨_, _, rfl, rfl⟩

/-! ## Text entries -/

theorem array_get_append_cons {α : Type} (l1 : List α) (a : α) (l2 : List α) (i : Int)
    (hi : i = (l1.length : Int)) : array_get (l1 ++ a :: l2) i = some a := by
  rw [hi, array_get_natCast]
  clear hi
  induction l1 with
  | nil => rfl
  | cons x xs ih => simpa using ih

theorem array_set_append_cons {α : Type} (l1 : List α) (a v : α) (l2 : List α) (i : Int)
    (hi : i = (l1.length : Int)) : array_set (l1 ++ a :: l2) i v = some (l1 ++ v :: l2) := by
  rw [hi, array_set_natCast _ _ _ (by simp)]
  simp

theorem strlen_append (t g : List Int) (ht : ∀ x ∈ t, x ≠ 0) :
    strlen (t ++ 0 :: g) = some (t.length : Int) := by
  induction t with
  | nil => simp [strlen]
  | cons x xs ih =>
    have hx : x ≠ 0 := ht x (List.mem_cons_self _ _)
    have ih1 := ih (fun y hy => ht y (List.mem_cons_of_mem _ hy))
    show strlen (x :: (xs ++ 0 :: g)) = _
    rw [strlen, if_neg hx, ih1]
    simp only [List.length_cons]
    push_cast
    rfl

theorem strlen_some (text : List Int) :
    ∀ len : Int, strlen text = some len →
      ∃ t g, text = t ++ 0 :: g ∧ (∀ x ∈ t, x ≠ 0) ∧ (t.length : Int) = len := by
  induction text with
  | nil => intro len h; simp [strlen] at h
  | cons x xs ih =>
    intro len h
    unfold strlen at h
    by_cases hx : x = 0
    · rw [if_pos hx] at h
      refine ⟨[], xs, by rw [hx]; rfl, by simp, ?_⟩
      simpa using (Option.some.inj h)
    · rw [if_neg hx] at h
      cases hxs : strlen xs with
      | none => rw [hxs] at h; exact absurd h (by simp)
      | some n =>
        rw [hxs] at h
        obtain ⟨t, g, e1, e2, e3⟩ := ih n hxs
        refine ⟨x :: t, g, by rw [e1]; rfl, ?_, ?_⟩
        · intro y hy
          rcases List.mem_cons.mp hy with hy | hy
          · rw [hy]; exact hx
          · exact e2 y hy
        · have := Option.some.inj h
          simp only [List.length_cons]
          push_cast
          omega

theorem w_entry_insert_loop_spec (pre : List Int) (b : List Int) :
    ∀ (x y : Int) (post : List Int) (i : Int), i = ((pre.length + b.length : Nat) : Int) →
      w_entry_insert_loop (b.length + 1) i (pre ++ b ++ x :: y :: post)
        = some (pre ++ (b ++ [x]).take 1 ++ b ++ x :: post) := by
  induction b using List.reverseRecOn with
  | nil =>
    intro x y post i hi
    have h1 : array_get (pre ++ x :: y :: post) i = some x :=
      array_get_append_cons pre x (y :: post) i (by simpa using hi)
    have h2 : array_set (pre ++ x :: y :: post) (i + 1) x = some (pre ++ x :: x :: post) := by
      have := array_set_append_cons (pre ++ [x]) y x post (i + 1)
        (by simp only [List.length_append, List.length_singleton]; push_cast; simp at hi; omega)
      simpa using this
    simp only [List.length_nil, Nat.zero_add, List.append_nil, w_entry_insert_loop, h1, h2,
      List.nil_append, List.take_succ_cons, List.take_zero, List.append_assoc,
      List.singleton_append]
  | append_singleton bs z ih =>
    intro x y post i hi
    have hlen : (bs ++ [z]).length = bs.length + 1 := by simp
    have h1 : array_get (pre ++ (bs ++ [z]) ++ x :: y :: post) i = some x :=
      array_get_append_cons (pre ++ (bs ++ [z])) x (y :: post) i
        (by rw [hi]; simp only [List.length_append, List.length_singleton])
    have h2 : array_set (pre ++ (bs ++ [z]) ++ x :: y :: post) (i + 1) x
        = some (pre ++ bs ++ z :: x :: x :: post) := by
      have := array_set_append_cons (pre ++ (bs ++ [z]) ++ [x]) y x post (i + 1)
        (by rw [hi]; simp only [List.length_append, List.length_singleton]; push_cast; ring)
      simpa using this
    have h3 := ih z x (x :: post) (i - 1) (by rw [hi, hlen]; push_cast; ring)
    rw [hlen, w_entry_insert_loop, h1]
    simp only []
    rw [h2]
    simp only []
    rw [h3]
    have ht : (bs ++ [z] ++ [x]).take 1 = (bs ++ [z]).take 1 := by
      rw [List.take_append_of_le_length (by simp)]
    rw [ht]
    simp only [List.append_assoc, List.singleton_append]

theorem w_entry_backspace_loop_spec (block : List Int) :
    ∀ (pre : List Int) (w : Int) (post : List Int) (i : Int),
      i = ((pre.length + 1 : Nat) : Int) →
      w_entry_backspace_loop block.length i (pre ++ w :: block ++ post)
        = some (pre ++ block ++ (w :: block).drop block.length ++ post) := by
  induction block with
  | nil =>
    intro pre w post i _
    simp [w_entry_backspace_loop]
  | cons z bs ih =>
    intro pre w post i hi
    have h1 : array_get (pre ++ w :: (z :: bs) ++ post) i = some z := by
      have := array_get_append_cons (pre ++ [w]) z (bs ++ post) i
        (by rw [hi]; simp only [List.length_append, List.length_singleton])
      simpa using this
    have h2 : array_set (pre ++ w :: (z :: bs) ++ post) (i - 1) z
        = some (pre ++ [z] ++ z :: bs ++ post) := by
      have := array_set_append_cons pre w z ((z :: bs) ++ post) (i - 1)
        (by rw [hi]; push_cast; ring)
      simpa using this
    have h3 := ih (pre ++ [z]) z post (i + 1)
      (by rw [hi]; simp only [List.length_append, List.length_singleton]; push_cast; ring)
    rw [List.length_cons, w_entry_backspace_loop, h1]
    simp only []
    rw [h2]
    simp only []
    rw [h3]
    simp only [List.drop_succ_cons, List.append_assoc, List.singleton_append,
      List.cons_append, List.nil_append]

theorem w_entry_char_range (K : ui_event_codes) (hK : K.letter_runs) (event ch : Int)
    (h : w_entry_char K event = some ch) :
    (97 ≤ ch ∧ ch ≤ 122) ∨ (65 ≤ ch ∧ ch ≤ 90) ∨ ch = 32 := by
  obtain ⟨hz, hZ⟩ := hK
  unfold w_entry_char at h
  by_cases h1 : K.UI_EVENT_CHAR_a ≤ event ∧ event ≤ K.UI_EVENT_CHAR_z
  · rw [if_pos h1] at h
    have := Option.some.inj h
    left; omega
  · rw [if_neg h1] at h
    by_cases h2 : K.UI_EVENT_CHAR_A ≤ event ∧ event ≤ K.UI_EVENT_CHAR_Z
    · rw [if_pos h2] at h
      have := Option.some.inj h
      right; left; omega
    · rw [if_neg h2] at h
      by_cases h3 : event = K.UI_EVENT_SPACE
      · rw [if_pos h3] at h
        have := Option.some.inj h
        right; right; omega
      · rw [if_neg h3] at h
        exact absurd h (by simp)

theorem take_one_append_singleton (b : List Int) (x : Int) :
    ∃ h, (b ++ [x]).take 1 = [h] := by
  cases b with
  | nil => exact ⟨x, rfl⟩
  | cons y ys => exact ⟨y, rfl⟩

theorem w_entry_input_insert (K : ui_event_codes) (c : widget_common) (t g : List Int)
    (g0 : Int) (max_len : Int) (k : Nat) (event ch : Int)
    (ht : ∀ x ∈ t, x ≠ 0) (hk : k ≤ t.length) (hlen : (t.length : Int) < max_len)
    (hL : event ≠ K.UI_EVENT_LEFT) (hR : event ≠ K.UI_EVENT_RIGHT)
    (hB : event ≠ K.UI_EVENT_BACKSPACE) (hch : w_entry_char K event = some ch) :
    w_entry_input K (.w_entry c (t ++ 0 :: g0 :: g) max_len (k : Int)) event
      = some (.w_entry c ((t.take k ++ (ch % 256) :: t.drop k) ++ 0 :: g) max_len
          ((k : Int) + 1), 1, []) := by
  have hsplit : t ++ 0 :: g0 :: g = t.take k ++ t.drop k ++ 0 :: g0 :: g := by
    rw [List.take_append_drop]
  have hloop := w_entry_insert_loop_spec (t.take k) (t.drop k) 0 g0 g (t.length : Int)
    (by rw [List.length_take, List.length_drop]; congr 1; omega)
  have hfuel : ((t.length : Int) - (k : Int) + 1).toNat = (t.drop k).length + 1 := by
    rw [List.length_drop]; omega
  obtain ⟨h, hh⟩ := take_one_append_singleton (t.drop k) 0
  rw [hh] at hloop
  have hset : array_set (t.take k ++ [h] ++ t.drop k ++ 0 :: g) (k : Int) (ch % 256)
      = some (t.take k ++ (ch % 256) :: (t.drop k ++ 0 :: g)) := by
    have := array_set_append_cons (t.take k) h (ch % 256) (t.drop k ++ 0 :: g) (k : Int)
      (by rw [List.length_take]; congr 1; omega)
    simpa using this
  simp only [w_entry_input, strlen_append t (g0 :: g) ht]
  rw [if_neg hL, if_neg hR, if_neg hB, hch]
  simp only []
  rw [if_pos hlen, hfuel, hsplit, hloop]
  simp only []
  rw [hset]
  simp only [List.append_assoc, List.cons_append]

theorem drop_length_cons_append_singleton (w : Int) (l : List Int) (a : Int) :
    (w :: (l ++ [a])).drop (l ++ [a]).length = [a] := by
  induction l generalizing w with
  | nil => rfl
  | cons x xs ih =>
    simp only [List.cons_append, List.length_cons, List.drop_succ_cons]
    exact ih x

theorem w_entry_input_backspace (K : ui_event_codes) (c : widget_common) (t g : List Int)
    (max_len : Int) (k : Nat) (ht : ∀ x ∈ t, x ≠ 0) (hk : k + 1 ≤ t.length)
    (hL : K.UI_EVENT_BACKSPACE ≠ K.UI_EVENT_LEFT)
    (hR : K.UI_EVENT_BACKSPACE ≠ K.UI_EVENT_RIGHT) :
    w_entry_input K (.w_entry c (t ++ 0 :: g) max_len ((k : Int) + 1)) K.UI_EVENT_BACKSPACE
      = some (.w_entry c ((t.take k ++ t.drop (k + 1)) ++ 0 :: 0 :: g) max_len (k : Int),
          1, []) := by
  have hklt : k < t.length := by omega
  have hsplit : t ++ 0 :: g
      = t.take k ++ t.get ⟨k, hklt⟩ :: (t.drop (k + 1) ++ [0]) ++ g := by
    have h1 : t = t.take k ++ t.get ⟨k, hklt⟩ :: t.drop (k + 1) := by
      rw [List.get_eq_getElem, ← List.drop_eq_getElem_cons hklt, List.take_append_drop]
    conv_lhs => rw [h1]
    simp only [List.append_assoc, List.cons_append, List.singleton_append, List.nil_append]
  have hloop := w_entry_backspace_loop_spec (t.drop (k + 1) ++ [0]) (t.take k)
    (t.get ⟨k, hklt⟩) g ((k : Int) + 1)
    (by rw [List.length_take]; push_cast; congr 1; omega)
  rw [drop_length_cons_append_singleton] at hloop
  have hfuel : ((t.length : Int) - ((k : Int) + 1) + 1).toNat
      = (t.drop (k + 1) ++ [0]).length := by
    rw [List.length_append, List.length_drop, List.length_singleton]; omega
  simp only [w_entry_input, strlen_append t g ht, if_true]
  rw [if_neg hL, if_neg hR, if_pos (by omega), hfuel, hsplit, hloop]
  simp only [List.append_assoc, List.singleton_append, add_sub_cancel_right,
    List.cons_append, List.nil_append]

/-- Claim C18. For a text entry whose buffer holds a string of length `len`:
an insertion event (a letter or space) when `len` equals `max_len` leaves text
and cursor unchanged; BACKSPACE with the cursor at 0 leaves them unchanged;
LEFT with the cursor at 0 and RIGHT with the cursor at `len` leave them
unchanged. All four return 1. -/
theorem C18_entry_edge_events (K : ui_event_codes)
    (hLR : K.UI_EVENT_RIGHT ≠ K.UI_EVENT_LEFT)
    (hBL : K.UI_EVENT_BACKSPACE ≠ K.UI_EVENT_LEFT)
    (hBR : K.UI_EVENT_BACKSPACE ≠ K.UI_EVENT_RIGHT)
    (c : widget_common) (text : List Int) (max_len cursor_pos len : Int)
    (hlen : strlen text = some len) :
    (∀ event ch : Int, event ≠ K.UI_EVENT_LEFT → event ≠ K.UI_EVENT_RIGHT →
      event ≠ K.UI_EVENT_BACKSPACE → w_entry_char K event = some ch → len = max_len →
      w_entry_input K (.w_entry c text max_len cursor_pos) event
        = some (.w_entry c text max_len cursor_pos, 1, [])) ∧
    (cursor_pos = 0 →
      w_entry_input K (.w_entry c text max_len cursor_pos) K.UI_EVENT_BACKSPACE
        = some (.w_entry c text max_len cursor_pos, 1, [])) ∧
    (cursor_pos = 0 →
      w_entry_input K (.w_entry c text max_len cursor_pos) K.UI_EVENT_LEFT
        = some (.w_entry c text max_len cursor_pos, 1, [])) ∧
    (cursor_pos = len →
      w_entry_input K (.w_entry c text max_len cursor_pos) K.UI_EVENT_RIGHT
        = some (.w_entry c text max_len cursor_pos, 1, [])) := by
  refine ⟨?_, ?_, ?_, ?_⟩
  · intro event ch hL hR hB hch hfull
    simp only [w_entry_input, hlen]
    rw [if_neg hL, if_neg hR, if_neg hB, hch]
    simp only []
    rw [if_neg (by omega)]
  · intro h0
    simp only [w_entry_input, hlen, if_true]
    rw [if_neg hBL, if_neg hBR, if_neg (by omega)]
  · intro h0
    simp only [w_entry_input, hlen, if_true]
    rw [if_neg (by omega)]
  · intro h0
    simp only [w_entry_input, hlen, if_true]
    rw [if_neg hLR, if_neg (by omega)]

/-- Claim C19. Let the buffer of a text entry hold the string `t` (no zero in
it) with its terminating zero, `t` shorter than `max_len`, `max_len` less than
the size of the buffer, and the cursor `k` in `[0, length t]`. For an insertion
event (a letter or space) with character `ch`, `w_entry_input` returns 1;
afterwards the buffer holds the string made of the first `k` characters of
`t`, then `ch`, then the rest of `t`, with its terminating zero; its length is
that of `t` plus one, and the cursor is `k + 1`. -/
theorem C19_entry_insert (K : ui_event_codes) (hK : K.letter_runs) (c : widget_common)
    (t g : List Int) (max_len : Int) (k : Nat) (event ch : Int)
    (ht : ∀ x ∈ t, x ≠ 0) (hk : k ≤ t.length) (hlen : (t.length : Int) < max_len)
    (hbuf : max_len < ((t ++ 0 :: g).length : Int))
    (hL : event ≠ K.UI_EVENT_LEFT) (hR : event ≠ K.UI_EVENT_RIGHT)
    (hB : event ≠ K.UI_EVENT_BACKSPACE) (hch : w_entry_char K event = some ch) :
    ∃ g1, w_entry_input K (.w_entry c (t ++ 0 :: g) max_len (k : Int)) event
        = some (.w_entry c ((t.take k ++ ch :: t.drop k) ++ 0 :: g1) max_len ((k : Int) + 1),
            1, []) ∧
      (∀ x ∈ t.take k ++ ch :: t.drop k, x ≠ 0) ∧
      strlen ((t.take k ++ ch :: t.drop k) ++ 0 :: g1) = some ((t.length : Int) + 1) ∧
      ((t.take k ++ ch :: t.drop k) ++ 0 :: g1).length = (t ++ 0 :: g).length := by
  have hrange := w_entry_char_range K hK event ch hch
  have hmod : ch % 256 = ch := by omega
  have hne : ch ≠ 0 := by omega
  cases g with
  | nil =>
    simp only [List.length_append, List.length_cons, List.length_nil] at hbuf
    exact absurd hbuf (by push_cast; omega)
  | cons g0 g1 =>
    have hins := w_entry_input_insert K c t g1 g0 max_len k event ch ht hk hlen hL hR hB hch
    rw [hmod] at hins
    have hnz : ∀ x ∈ t.take k ++ ch :: t.drop k, x ≠ 0 := by
      intro x hx
      rcases List.mem_append.mp hx with hx | hx
      · exact ht x (List.mem_of_mem_take hx)
      · rcases List.mem_cons.mp hx with hx | hx
        · rw [hx]; exact hne
        · exact ht x (List.mem_of_mem_drop hx)
    have hl : (t.take k ++ ch :: t.drop k).length = t.length + 1 := by
      simp only [List.length_append, List.length_take, List.length_cons, List.length_drop]
      omega
    refine ⟨g1, hins, hnz, ?_, ?_⟩
    · rw [strlen_append _ g1 hnz, hl]
      push_cast
      rfl
    · simp only [List.length_append, List.length_cons] at hl ⊢
      omega

/-- Claim C18 for a text entry that holds `hi`, with `max_len` 2 and the
cursor at 0. -/
theorem C18_entry_edge_events_witness :
    sample_codes.UI_EVENT_RIGHT ≠ sample_codes.UI_EVENT_LEFT ∧
    sample_codes.UI_EVENT_BACKSPACE ≠ sample_codes.UI_EVENT_LEFT ∧
    sample_codes.UI_EVENT_BACKSPACE ≠ sample_codes.UI_EVENT_RIGHT ∧
    strlen [104, 105, 0, 7, 7, 7] = some 2 ∧
    ((∀ event ch : Int, event ≠ sample_codes.UI_EVENT_LEFT →
      event ≠ sample_codes.UI_EVENT_RIGHT → event ≠ sample_codes.UI_EVENT_BACKSPACE →
      w_entry_char sample_codes event = some ch → (2 : Int) = 2 →
      w_entry_input sample_codes (.w_entry ⟨1, 120, 20⟩ [104, 105, 0, 7, 7, 7] 2 0) event
        = some (.w_entry ⟨1, 120, 20⟩ [104, 105, 0, 7, 7, 7] 2 0, 1, [])) ∧
    ((0 : Int) = 0 →
      w_entry_input sample_codes (.w_entry ⟨1, 120, 20⟩ [104, 105, 0, 7, 7, 7] 2 0)
          sample_codes.UI_EVENT_BACKSPACE
        = some (.w_entry ⟨1, 120, 20⟩ [104, 105, 0, 7, 7, 7] 2 0, 1, [])) ∧
    ((0 : Int) = 0 →
      w_entry_input sample_codes (.w_entry ⟨1, 120, 20⟩ [104, 105, 0, 7, 7, 7] 2 0)
          sample_codes.UI_EVENT_LEFT
        = some (.w_entry ⟨1, 120, 20⟩ [104, 105, 0, 7, 7, 7] 2 0, 1, [])) ∧
    ((0 : Int) = 2 →
      w_entry_input sample_codes (.w_entry ⟨1, 120, 20⟩ [104, 105, 0, 7, 7, 7] 2 0)
          sample_codes.UI_EVENT_RIGHT
        = some (.w_entry ⟨1, 120, 20⟩ [104, 105, 0, 7, 7, 7] 2 0, 1, []))) :=
  ⟨by decide, by decide, by decide, rfl,
    C18_entry_edge_events sample_codes (by decide) (by decide) (by decide) ⟨1, 120, 20⟩
      [104, 105, 0, 7, 7, 7] 2 0 2 rfl⟩

/-- Claim C19 for a text entry that holds `hi` in a buffer of six characters,
with `max_len` 5 and the cursor at 1, and the event of the letter `a`. -/
theorem C19_entry_insert_witness :
    sample_codes.letter_runs ∧ (∀ x ∈ [(104 : Int), 105], x ≠ 0) ∧
    1 ≤ [(104 : Int), 105].length ∧ (([(104 : Int), 105].length : Nat) : Int) < 5 ∧
    (5 : Int) < ((([104, 105] ++ 0 :: [7, 7, 7] : List Int).length : Nat) : Int) ∧
    (12 : Int) ≠ sample_codes.UI_EVENT_LEFT ∧ (12 : Int) ≠ sample_codes.UI_EVENT_RIGHT ∧
    (12 : Int) ≠ sample_codes.UI_EVENT_BACKSPACE ∧ w_entry_char sample_codes 12 = some 97 ∧
    ∃ g1, w_entry_input sample_codes
          (.w_entry ⟨1, 120, 20⟩ ([104, 105] ++ 0 :: [7, 7, 7]) 5 ((1 : Nat) : Int)) 12
        = some (.w_entry ⟨1, 120, 20⟩
            (([(104 : Int), 105].take 1 ++ 97 :: [(104 : Int), 105].drop 1) ++ 0 :: g1) 5
            (((1 : Nat) : Int) + 1), 1, []) ∧
      (∀ x ∈ [(104 : Int), 105].take 1 ++ 97 :: [(104 : Int), 105].drop 1, x ≠ 0) ∧
      strlen (([(104 : Int), 105].take 1 ++ 97 :: [(104 : Int), 105].drop 1) ++ 0 :: g1)
        = some ((([(104 : Int), 105].length : Nat) : Int) + 1) ∧
      (([(104 : Int), 105].take 1 ++ 97 :: [(104 : Int), 105].drop 1) ++ 0 :: g1).length
        = ([(104 : Int), 105] ++ 0 :: [7, 7, 7]).length :=
  ⟨by unfold ui_event_codes.letter_runs; decide, by decide, by decide, by decide, by decide,
    by decide, by decide, by decide, rfl,
    C19_entry_insert sample_codes (by unfold ui_event_codes.letter_runs; decide) ⟨1, 120, 20⟩
      [104, 105] [7, 7, 7] 5 1 12 97 (by decide) (by decide) (by decide) (by decide)
      (by decide) (by decide) (by decide) rfl⟩

theorem w_entry_input_sound (K : ui_event_codes) (hK : K.letter_runs) (w : widget_t)
    (event : Int) (hw : w.entry_sound) :
    ∃ w1 r tr, w_entry_input K w event = some (w1, r, tr) ∧ w1.entry_sound := by
  cases w with
  | w_entry c text max_len cursor_pos =>
    obtain ⟨len, hstr, h0, hc, hmax, hmaxlen, hsize⟩ := hw
    have hE : ENTRY_MAX_LEN = 255 := rfl
    obtain ⟨t, g, htext, ht, htlen⟩ := strlen_some text len hstr
    by_cases hL : event = K.UI_EVENT_LEFT
    · simp only [w_entry_input, hstr]
      rw [if_pos hL]
      by_cases hpos : cursor_pos > 0
      · rw [if_pos hpos]
        exact ⟨_, _, _, rfl, len, hstr, by omega, by omega, hmax, hmaxlen, hsize⟩
      · rw [if_neg hpos]
        exact ⟨_, _, _, rfl, len, hstr, h0, hc, hmax, hmaxlen, hsize⟩
    · by_cases hR : event = K.UI_EVENT_RIGHT
      · simp only [w_entry_input, hstr]
        rw [if_neg hL, if_pos hR]
        by_cases hpos : cursor_pos < len
        · rw [if_pos hpos]
          exact ⟨_, _, _, rfl, len, hstr, by omega, by omega, hmax, hmaxlen, hsize⟩
        · rw [if_neg hpos]
          exact ⟨_, _, _, rfl, len, hstr, h0, hc, hmax, hmaxlen, hsize⟩
      · by_cases hB : event = K.UI_EVENT_BACKSPACE
        · by_cases hpos : cursor_pos > 0
          · obtain ⟨k, hk⟩ := Int.eq_ofNat_of_zero_le (by omega : 0 ≤ cursor_pos - 1)
            have hcur : cursor_pos = (k : Int) + 1 := by omega
            have hkt : k + 1 ≤ t.length := by omega
            have hb := w_entry_input_backspace K c t g max_len k ht hkt
              (by rw [← hB]; exact hL) (by rw [← hB]; exact hR)
            rw [hB, htext, hcur, hb]
            have hnz : ∀ x ∈ t.take k ++ t.drop (k + 1), x ≠ 0 := by
              intro x hx
              rcases List.mem_append.mp hx with hx | hx
              · exact ht x (List.mem_of_mem_take hx)
              · exact ht x (List.mem_of_mem_drop hx)
            have hl : (t.take k ++ t.drop (k + 1)).length = t.length - 1 := by
              simp only [List.length_append, List.length_take, List.length_drop]
              omega
            refine ⟨_, _, _, rfl, ((t.length - 1 : Nat) : Int), ?_, by omega, by omega, by omega,
              hmaxlen, ?_⟩
            · rw [strlen_append _ _ hnz, hl]
            · rw [htext] at hsize
              simp only [List.length_append, List.length_cons] at hsize hl ⊢
              omega
          · simp only [w_entry_input, hstr]
            rw [if_neg hL, if_neg hR, if_pos hB, if_neg hpos]
            exact ⟨_, _, _, rfl, len, hstr, h0, hc, hmax, hmaxlen, hsize⟩
        · cases hch : w_entry_char K event with
          | none =>
            simp only [w_entry_input, hstr]
            rw [if_neg hL, if_neg hR, if_neg hB, hch]
            exact ⟨_, _, _, rfl, len, hstr, h0, hc, hmax, hmaxlen, hsize⟩
          | some ch =>
            by_cases hfull : len < max_len
            · have hrange := w_entry_char_range K hK event ch hch
              have hmod : ch % 256 = ch := by omega
              have hne : ch ≠ 0 := by omega
              obtain ⟨k, hk⟩ := Int.eq_ofNat_of_zero_le h0
              have hkt : k ≤ t.length := by omega
              cases g with
              | nil =>
                rw [htext] at hsize
                simp only [List.length_append, List.length_cons, List.length_nil] at hsize
                exact absurd hsize (by push_cast; omega)
              | cons g0 g1 =>
                have hins := w_entry_input_insert K c t g1 g0 max_len k event ch ht hkt
                  (by omega) hL hR hB hch
                rw [hmod] at hins
                rw [htext, hk, hins]
                have hnz : ∀ x ∈ t.take k ++ ch :: t.drop k, x ≠ 0 := by
                  intro x hx
                  rcases List.mem_append.mp hx with hx | hx
                  · exact ht x (List.mem_of_mem_take hx)
                  · rcases List.mem_cons.mp hx with hx | hx
                    · rw [hx]; exact hne
                    · exact ht x (List.mem_of_mem_drop hx)
                have hl : (t.take k ++ ch :: t.drop k).length = t.length + 1 := by
                  simp only [List.length_append, List.length_take, List.length_cons,
                    List.length_drop]
                  omega
                refine ⟨_, _, _, rfl, ((t.length + 1 : Nat) : Int), ?_, by omega,
                  by push_cast; omega, by push_cast; omega, hmaxlen, ?_⟩
                · rw [strlen_append _ _ hnz, hl]
                · rw [htext] at hsize
                  simp only [List.length_append, List.length_cons] at hsize hl ⊢
                  omega
            · simp only [w_entry_input, hstr]
              rw [if_neg hL, if_neg hR, if_neg hB, hch]
              simp only []
              rw [if_neg hfull]
              exact ⟨_, _, _, rfl, len, hstr, h0, hc, hmax, hmaxlen, hsize⟩
  | w_text _ _ _ => exact absurd hw (by simp [widget_t.entry_sound])
  | w_image _ _ => exact absurd hw (by simp [widget_t.entry_sound])
  | w_action _ _ _ _ => exact absurd hw (by simp [widget_t.entry_sound])
  | w_option _ _ _ _ _ => exact absurd hw (by simp [widget_t.entry_sound])
  | w_vbox _ _ _ _ => exact absurd hw (by simp [widget_t.entry_sound])
  | w_hbox _ _ _ _ => exact absurd hw (by simp [widget_t.entry_sound])

theorem input_all_entry_sound (K : ui_event_codes) (hK : K.letter_runs) (events : List Int) :
    ∀ w : widget_t, w.entry_sound →
      ∃ w1 tr, input_all (w_entry_input K) w events = some (w1, tr) ∧ w1.entry_sound := by
  induction events with
  | nil => intro w hw; exact ⟨w, [], rfl, hw⟩
  | cons e es ih =>
    intro w hw
    obtain ⟨w1, r, tr, h1, hs1⟩ := w_entry_input_sound K hK w e hw
    obtain ⟨w2, tr2, h2, hs2⟩ := ih w1 hs1
    exact ⟨w2, tr ++ tr2, by simp only [input_all, h1, h2], hs2⟩

theorem w_entry_create_sound (font : Int → texture_t) (mem : List Int)
    (hmem : mem.length = 256) : (w_entry_create font mem).entry_sound := by
  cases mem with
  | nil => simp at hmem
  | cons m ms =>
    refine ⟨0, ?_, le_refl 0, le_refl 0, by decide, rfl, ?_⟩
    · simp [strlen]
    · simp only [List.set_cons_zero, List.length_cons] at hmem ⊢
      rw [hmem]
      rfl

/-- Claim C20. A text entry made by `w_entry_create` has the empty string in
its buffer of 256 characters, the cursor at 0 and `max_len` 255. After every
sequence of input events `w_entry_input` has returned each time, so that every
read and write of the buffer was inside the buffer, at an index from 0 to
`max_len`; the buffer still has 256 characters and holds a string with its
terminating zero, of a length `len` with `len ≤ max_len`, and the cursor lies
in `[0, len]`. -/
theorem C20_entry_invariant (K : ui_event_codes) (hK : K.letter_runs)
    (font : Int → texture_t) (mem : List Int) (hmem : mem.length = 256)
    (events : List Int) :
    (∃ c text, w_entry_create font mem = .w_entry c text 255 0 ∧ strlen text = some 0 ∧
      text.length = 256) ∧
    ∃ c text cursor_pos len tr,
      input_all (w_entry_input K) (w_entry_create font mem) events
        = some (.w_entry c text ENTRY_MAX_LEN cursor_pos, tr) ∧
      strlen text = some len ∧ 0 ≤ cursor_pos ∧ cursor_pos ≤ len ∧ len ≤ ENTRY_MAX_LEN ∧
      (text.length : Int) = ENTRY_MAX_LEN + 1 ∧ text.length = 256 := by
  constructor
  · cases mem with
    | nil => simp at hmem
    | cons m ms =>
      refine ⟨_, _, rfl, by simp [strlen], ?_⟩
      simpa using hmem
  · obtain ⟨w1, tr, hrun, hs⟩ :=
      input_all_entry_sound K hK events _ (w_entry_create_sound font mem hmem)
    cases w1 with
    | w_entry c text max_len cursor_pos =>
      obtain ⟨len, hstr, h0, hc, hmax, hmaxlen, hsize⟩ := hs
      subst hmaxlen
      refine ⟨c, text, cursor_pos, len, tr, hrun, hstr, h0, hc, hmax, hsize, ?_⟩
      have hE : ENTRY_MAX_LEN = 255 := rfl
      omega
    | w_text _ _ _ => exact absurd hs (by simp [widget_t.entry_sound])
    | w_image _ _ => exact absurd hs (by simp [widget_t.entry_sound])
    | w_action _ _ _ _ => exact absurd hs (by simp [widget_t.entry_sound])
    | w_option _ _ _ _ _ => exact absurd hs (by simp [widget_t.entry_sound])
    | w_vbox _ _ _ _ => exact absurd hs (by simp [widget_t.entry_sound])
    | w_hbox _ _ _ _ => exact absurd hs (by simp [widget_t.entry_sound])

/-- Claim C20 for a buffer that `malloc` returned filled with the character 7,
and the events of the letter `a`, LEFT, the letter `B`, BACKSPACE, RIGHT and
space. -/
theorem C20_entry_invariant_witness :
    sample_codes.letter_runs ∧ (List.replicate 256 (7 : Int)).length = 256 ∧
    ((∃ c text, w_entry_create sample_font (List.replicate 256 7) = .w_entry c text 255 0 ∧
      strlen text = some 0 ∧ text.length = 256) ∧
    ∃ c text cursor_pos len tr,
      input_all (w_entry_input sample_codes)
          (w_entry_create sample_font (List.replicate 256 7)) [12, 3, 39, 7, 4, 8]
        = some (.w_entry c text ENTRY_MAX_LEN cursor_pos, tr) ∧
      strlen text = some len ∧ 0 ≤ cursor_pos ∧ cursor_pos ≤ len ∧ len ≤ ENTRY_MAX_LEN ∧
      (text.length : Int) = ENTRY_MAX_LEN + 1 ∧ text.length = 256) :=
  ⟨by unfold ui_event_codes.letter_runs; decide, List.length_replicate 256 7,
    C20_entry_invariant sample_codes (by unfold ui_event_codes.letter_runs; decide)
      sample_font (List.replicate 256 7) (List.length_replicate 256 7)
      [12, 3, 39, 7, 4, 8]⟩


/-! ## Insertion followed by backspace -/

theorem take_drop_insert (t : List Int) (k : Nat) (ch : Int) (hk : k ≤ t.length) :
    (t.take k ++ ch :: t.drop k).take k ++ (t.take k ++ ch :: t.drop k).drop (k + 1) = t := by
  have hl : (t.take k).length = k := by rw [List.length_take]; omega
  have h1 : (t.take k ++ ch :: t.drop k).take k = t.take k := by
    rw [List.take_append_eq_append_take, hl]
    simp
  have h2 : (t.take k ++ ch :: t.drop k).drop (k + 1) = t.drop k := by
    rw [List.drop_append_eq_append_drop, hl]
    have : (t.take k).drop (k + 1) = [] := by
      apply List.drop_eq_nil_of_le; omega
    rw [this]
    simp
  rw [h1, h2, List.take_append_drop]

/-- Claim C29. Let the buffer of a text entry hold the string `t` (no zero in
it) with its terminating zero, `t` shorter than `max_len`, `max_len` less than
the size of the buffer, and the cursor `k` in `[0, length t]`. An insertion
event (a letter or space) is handled and returns 1; BACKSPACE on the entry it
leaves returns 1 too, and afterwards the buffer holds the string `t` again with
its terminating zero and the cursor is `k` again. The buffer has its size as
before; of the characters behind the terminating zero only the first may have
changed, it is now zero. -/
theorem C29_insert_then_backspace (K : ui_event_codes) (hK : K.letter_runs)
    (hBL : K.UI_EVENT_BACKSPACE ≠ K.UI_EVENT_LEFT)
    (hBR : K.UI_EVENT_BACKSPACE ≠ K.UI_EVENT_RIGHT)
    (c : widget_common) (t g : List Int) (max_len : Int) (k : Nat) (event ch : Int)
    (ht : ∀ x ∈ t, x ≠ 0) (hk : k ≤ t.length) (hlen : (t.length : Int) < max_len)
    (hbuf : max_len < ((t ++ 0 :: g).length : Int))
    (hL : event ≠ K.UI_EVENT_LEFT) (hR : event ≠ K.UI_EVENT_RIGHT)
    (hB : event ≠ K.UI_EVENT_BACKSPACE) (hch : w_entry_char K event = some ch) :
    ∃ w1 g0 g1, g = g0 :: g1 ∧
      w_entry_input K (.w_entry c (t ++ 0 :: g) max_len (k : Int)) event = some (w1, 1, []) ∧
      w_entry_input K w1 K.UI_EVENT_BACKSPACE
        = some (.w_entry c (t ++ 0 :: 0 :: g1) max_len (k : Int), 1, []) ∧
      strlen (t ++ 0 :: 0 :: g1) = strlen (t ++ 0 :: g) ∧
      (t ++ 0 :: 0 :: g1).length = (t ++ 0 :: g).length := by
  have hrange := w_entry_char_range K hK event ch hch
  have hmod : ch % 256 = ch := by omega
  have hne : ch ≠ 0 := by omega
  cases g with
  | nil =>
    simp only [List.length_append, List.length_cons, List.length_nil] at hbuf
    exact absurd hbuf (by push_cast; omega)
  | cons g0 g1 =>
    have hins := w_entry_input_insert K c t g1 g0 max_len k event ch ht hk hlen hL hR hB hch
    rw [hmod] at hins
    have hnz : ∀ x ∈ t.take k ++ ch :: t.drop k, x ≠ 0 := by
      intro x hx
      rcases List.mem_append.mp hx with hx | hx
      · exact ht x (List.mem_of_mem_take hx)
      · rcases List.mem_cons.mp hx with hx | hx
        · rw [hx]; exact hne
        · exact ht x (List.mem_of_mem_drop hx)
    have hl : (t.take k ++ ch :: t.drop k).length = t.length + 1 := by
      simp only [List.length_append, List.length_take, List.length_cons, List.length_drop]
      omega
    have hback := w_entry_input_backspace K c (t.take k ++ ch :: t.drop k) g1 max_len k hnz
      (by omega) hBL hBR
    rw [take_drop_insert t k ch hk] at hback
    refine ⟨_, g0, g1, rfl, hins, hback, ?_, ?_⟩
    · rw [strlen_append t _ ht, strlen_append t _ ht]
    · simp only [List.length_append, List.length_cons]

/-- Claim C29 for a text entry that holds `hi` in a buffer of six characters,
with `max_len` 5 and the cursor at 1, and the event of the letter `a`. -/
theorem C29_insert_then_backspace_witness :
    sample_codes.letter_runs ∧
    sample_codes.UI_EVENT_BACKSPACE ≠ sample_codes.UI_EVENT_LEFT ∧
    sample_codes.UI_EVENT_BACKSPACE ≠ sample_codes.UI_EVENT_RIGHT ∧
    (∀ x ∈ [(104 : Int), 105], x ≠ 0) ∧
    1 ≤ [(104 : Int), 105].length ∧ (([(104 : Int), 105].length : Nat) : Int) < 5 ∧
    (5 : Int) < ((([104, 105] ++ 0 :: [7, 7, 7] : List Int).length : Nat) : Int) ∧
    (12 : Int) ≠ sample_codes.UI_EVENT_LEFT ∧ (12 : Int) ≠ sample_codes.UI_EVENT_RIGHT ∧
    (12 : Int) ≠ sample_codes.UI_EVENT_BACKSPACE ∧ w_entry_char sample_codes 12 = some 97 ∧
    ∃ w1 g0 g1, ([7, 7, 7] : List Int) = g0 :: g1 ∧
      w_entry_input sample_codes
          (.w_entry ⟨1, 120, 20⟩ ([104, 105] ++ 0 :: [7, 7, 7]) 5 ((1 : Nat) : Int)) 12
        = some (w1, 1, []) ∧
      w_entry_input sample_codes w1 sample_codes.UI_EVENT_BACKSPACE
        = some (.w_entry ⟨1, 120, 20⟩ ([104, 105] ++ 0 :: 0 :: g1) 5 ((1 : Nat) : Int), 1, []) ∧
      strlen ([104, 105] ++ 0 :: 0 :: g1) = strlen ([104, 105] ++ 0 :: [7, 7, 7]) ∧
      ([(104 : Int), 105] ++ 0 :: 0 :: g1).length
        = ([(104 : Int), 105] ++ 0 :: [7, 7, 7]).length :=
  ⟨by unfold ui_event_codes.letter_runs; decide, by decide, by decide, by decide, by decide,
    by decide, by decide, by decide, by decide, by decide, rfl,
    C29_insert_then_backspace sample_codes (by unfold ui_event_codes.letter_runs; decide)
      (by decide) (by decide) ⟨1, 120, 20⟩
      [104, 105] [7, 7, 7] 5 1 12 97 (by decide) (by decide) (by decide) (by decide)
      (by decide) (by decide) (by decide) rfl⟩

/-! ## Values returned by a text entry -/

theorem w_entry_char_ignored (K : ui_event_codes) (event : Int)
    (h : K.entry_ignores event) : w_entry_char K event = none := by
  obtain ⟨_, _, _, hS, ha, hA⟩ := h
  unfold w_entry_char
  rw [if_neg ha, if_neg hA, if_neg hS]

theorem w_entry_char_reacts (K : ui_event_codes) (event : Int)
    (h : event = K.UI_EVENT_SPACE ∨
      (K.UI_EVENT_CHAR_a ≤ event ∧ event ≤ K.UI_EVENT_CHAR_z) ∨
      (K.UI_EVENT_CHAR_A ≤ event ∧ event ≤ K.UI_EVENT_CHAR_Z)) :
    ∃ ch, w_entry_char K event = some ch := by
  unfold w_entry_char
  by_cases ha : K.UI_EVENT_CHAR_a ≤ event ∧ event ≤ K.UI_EVENT_CHAR_z
  · rw [if_pos ha]; exact ⟨_, rfl⟩
  · rw [if_neg ha]
    by_cases hA : K.UI_EVENT_CHAR_A ≤ event ∧ event ≤ K.UI_EVENT_CHAR_Z
    · rw [if_pos hA]; exact ⟨_, rfl⟩
    · rw [if_neg hA]
      rcases h with h | h | h
      · rw [if_pos h]; exact ⟨_, rfl⟩
      · exact absurd h ha
      · exact absurd h hA

theorem w_entry_input_ignored (K : ui_event_codes) (c : widget_common) (text : List Int)
    (max_len cursor_pos len event : Int) (hlen : strlen text = some len)
    (h : K.entry_ignores event) :
    w_entry_input K (.w_entry c text max_len cursor_pos) event
      = some (.w_entry c text max_len cursor_pos, 0, []) := by
  have hch := w_entry_char_ignored K event h
  obtain ⟨hL, hR, hB, _⟩ := h
  simp only [w_entry_input, hlen]
  rw [if_neg hL, if_neg hR, if_neg hB, hch]

theorem w_entry_input_handled (K : ui_event_codes) (w w1 : widget_t) (event r : Int)
    (tr : List effect) (hres : w_entry_input K w event = some (w1, r, tr))
    (h : event = K.UI_EVENT_LEFT ∨ event = K.UI_EVENT_RIGHT ∨ event = K.UI_EVENT_BACKSPACE ∨
      ∃ ch, w_entry_char K event = some ch) :
    r = 1 ∧ tr = [] := by
  cases w with
  | w_entry c text max_len cursor_pos =>
    simp only [w_entry_input] at hres
    cases hs : strlen text with
    | none => rw [hs] at hres; exact absurd hres (by simp)
    | some len =>
      rw [hs] at hres
      simp only [] at hres
      by_cases h1 : event = K.UI_EVENT_LEFT
      · rw [if_pos h1] at hres
        by_cases hp : cursor_pos > 0
        · rw [if_pos hp] at hres
          simp only [Option.some.injEq, Prod.mk.injEq] at hres
          exact ⟨hres.2.1.symm, hres.2.2.symm⟩
        · rw [if_neg hp] at hres
          simp only [Option.some.injEq, Prod.mk.injEq] at hres
          exact ⟨hres.2.1.symm, hres.2.2.symm⟩
      · rw [if_neg h1] at hres
        by_cases h3 : event = K.UI_EVENT_RIGHT
        · rw [if_pos h3] at hres
          by_cases hp : cursor_pos < len
          · rw [if_pos hp] at hres
            simp only [Option.some.injEq, Prod.mk.injEq] at hres
            exact ⟨hres.2.1.symm, hres.2.2.symm⟩
          · rw [if_neg hp] at hres
            simp only [Option.some.injEq, Prod.mk.injEq] at hres
            exact ⟨hres.2.1.symm, hres.2.2.symm⟩
        · rw [if_neg h3] at hres
          by_cases h5 : event = K.UI_EVENT_BACKSPACE
          · rw [if_pos h5] at hres
            by_cases hp : cursor_pos > 0
            · rw [if_pos hp] at hres
              cases hb : w_entry_backspace_loop (len - cursor_pos + 1).toNat cursor_pos text with
              | none => rw [hb] at hres; exact absurd hres (by simp)
              | some text1 =>
                rw [hb] at hres
                simp only [Option.some.injEq, Prod.mk.injEq] at hres
                exact ⟨hres.2.1.symm, hres.2.2.symm⟩
            · rw [if_neg hp] at hres
              simp only [Option.some.injEq, Prod.mk.injEq] at hres
              exact ⟨hres.2.1.symm, hres.2.2.symm⟩
          · rw [if_neg h5] at hres
            have hch : ∃ ch, w_entry_char K event = some ch := by
              rcases h with h | h | h | h
              · exact absurd h h1
              · exact absurd h h3
              · exact absurd h h5
              · exact h
            obtain ⟨ch, hch⟩ := hch
            rw [hch] at hres
            simp only [] at hres
            by_cases h7 : len < max_len
            · rw [if_pos h7] at hres
              cases hi : w_entry_insert_loop (len - cursor_pos + 1).toNat len text with
              | none => rw [hi] at hres; exact absurd hres (by simp)
              | some text1 =>
                rw [hi] at hres
                simp only [] at hres
                cases hset : array_set text1 cursor_pos (ch % 256) with
                | none => rw [hset] at hres; exact absurd hres (by simp)
                | some text2 =>
                  rw [hset] at hres
                  simp only [Option.some.injEq, Prod.mk.injEq] at hres
                  exact ⟨hres.2.1.symm, hres.2.2.symm⟩
            · rw [if_neg h7] at hres
              simp only [Option.some.injEq, Prod.mk.injEq] at hres
              exact ⟨hres.2.1.symm, hres.2.2.symm⟩
  | w_text _ _ _ => simp [w_entry_input] at hres
  | w_image _ _ => simp [w_entry_input] at hres
  | w_action _ _ _ _ => simp [w_entry_input] at hres
  | w_option _ _ _ _ _ => simp [w_entry_input] at hres
  | w_vbox _ _ _ _ => simp [w_entry_input] at hres
  | w_hbox _ _ _ _ => simp [w_entry_input] at hres
theorem widget_list_item_input_of_get (K : ui_event_codes) (event : Int) :
    ∀ (ws : List widget_t) (i : Nat) (w w1 : widget_t) (r : Int) (tr : List effect),
      ws.get? i = some w → widget_input K w event = some (w1, r, tr) →
      widget_list_item_input K ws i event
        = some (ws.set i w1, r, effect.input w event :: tr)
  | [], i, w, w1, r, tr, hget, _ => by simp at hget
  | x :: xs, 0, w, w1, r, tr, hget, hw => by
    simp only [List.get?_cons_zero, Option.some.injEq] at hget
    subst hget
    simp only [widget_list_item_input, hw, List.set_cons_zero]
  | x :: xs, i + 1, w, w1, r, tr, hget, hw => by
    simp only [List.get?_cons_succ] at hget
    simp only [widget_list_item_input,
      widget_list_item_input_of_get K event xs i w w1 r tr hget hw, List.set_cons_succ]

theorem array_get_toNat {α : Type} (a : List α) (i : Int) (x : α)
    (h : array_get a i = some x) : 0 ≤ i ∧ a.get? i.toNat = some x := by
  unfold array_get at h
  by_cases h0 : 0 ≤ i
  · rw [if_pos h0] at h; exact ⟨h0, h⟩
  · rw [if_neg h0] at h; exact absurd h (by simp)

theorem w_vbox_input_of_child (K : ui_event_codes) (hUD : K.UI_EVENT_UP ≠ K.UI_EVENT_DOWN)
    (c : widget_common) (item : List widget_t) (sel spacing event : Int) (h0 : 0 ≤ sel)
    (item1 : List widget_t) (r : Int) (tr : List effect) (hlen : item1.length = item.length)
    (hchild : widget_list_item_input K item sel.toNat event = some (item1, r, tr)) :
    ∃ sel1 ret, widget_input K (.w_vbox c item sel spacing) event
        = some (.w_vbox c item1 sel1 spacing, ret, tr) ∧
      box_outcome K.UI_EVENT_UP K.UI_EVENT_DOWN ⟨sel, item1⟩ r event sel1 ret := by
  obtain ⟨hi, _, _, _, _, _⟩ :=
    widget_list_item_input_some K event item sel.toNat item1 r tr hchild
  have hlt : sel < (item1.length : Int) := by omega
  have hs1 : ¬ sel = -1 := by omega
  have hs2 : ¬ sel < 0 := by omega
  obtain ⟨sel1, ret, hres, hprev, hnext, hout⟩ :=
    box_outcome_of_input K.UI_EVENT_UP K.UI_EVENT_DOWN hUD item1 sel r event h0 hlt
  refine ⟨sel1, ret, ?_, hout⟩
  simp only [widget_input]
  rw [if_neg hs1, if_neg hs2, hchild]
  simp only []
  by_cases hr : r ≠ 0
  · rw [if_pos hr] at hres ⊢
    simp only [Option.some.injEq, Prod.mk.injEq] at hres
    rw [← hres.1, ← hres.2]
  · rw [if_neg hr]
    have hr0 : r = 0 := not_not.mp hr
    by_cases hp : event = K.UI_EVENT_UP
    · rw [if_pos hp, hprev hr0 hp]
    · rw [if_neg hp]
      by_cases hn : event = K.UI_EVENT_DOWN
      · rw [if_pos hn, hnext hr0 hp hn]
      · rw [if_neg hn]
        obtain ⟨e1, e2⟩ := hout.2.2.2 hr0 hp hn
        rw [e1, e2]

/-- Claim C30. For a text entry in a sound state (`entry_sound`, the states
that `w_entry_create` and `w_entry_input` produce): `w_entry_input` returns 1,
and leaves a sound state, for LEFT, RIGHT, BACKSPACE, SPACE and every letter
event, whether or not the cursor moved or the text changed; for an event that
is none of these it returns 0 and leaves the entry as it was, and so it does
for UP, DOWN, ACTION, ESCAPE, NONE and EXTRA1 to EXTRA3, these being
enumerators of their own. A vbox whose cursor is on such an entry therefore
handles these events itself after the entry has returned 0: the entry is
unchanged, and on UP and DOWN the cursor of the box moves as `box_outcome`
says. -/
theorem C30_entry_return_values (K : ui_event_codes) (hK : K.letter_runs)
    (hUD : K.UI_EVENT_UP ≠ K.UI_EVENT_DOWN)
    (hother : ∀ e ∈ [K.UI_EVENT_UP, K.UI_EVENT_DOWN, K.UI_EVENT_ACTION, K.UI_EVENT_ESCAPE,
      K.UI_EVENT_NONE, K.UI_EVENT_EXTRA1, K.UI_EVENT_EXTRA2, K.UI_EVENT_EXTRA3],
      K.entry_ignores e)
    (w : widget_t) (hw : w.entry_sound) :
    (∀ event : Int,
      (event = K.UI_EVENT_LEFT ∨ event = K.UI_EVENT_RIGHT ∨ event = K.UI_EVENT_BACKSPACE ∨
        event = K.UI_EVENT_SPACE ∨
        (K.UI_EVENT_CHAR_a ≤ event ∧ event ≤ K.UI_EVENT_CHAR_z) ∨
        (K.UI_EVENT_CHAR_A ≤ event ∧ event ≤ K.UI_EVENT_CHAR_Z)) →
      ∃ w1, w_entry_input K w event = some (w1, 1, []) ∧ w1.entry_sound) ∧
    (∀ event : Int, K.entry_ignores event → w_entry_input K w event = some (w, 0, [])) ∧
    (∀ e ∈ [K.UI_EVENT_UP, K.UI_EVENT_DOWN, K.UI_EVENT_ACTION, K.UI_EVENT_ESCAPE,
      K.UI_EVENT_NONE, K.UI_EVENT_EXTRA1, K.UI_EVENT_EXTRA2, K.UI_EVENT_EXTRA3],
      w_entry_input K w e = some (w, 0, [])) ∧
    (∀ (c : widget_common) (item : List widget_t) (sel spacing : Int),
      array_get item sel = some w →
      ∀ e ∈ [K.UI_EVENT_UP, K.UI_EVENT_DOWN, K.UI_EVENT_ACTION, K.UI_EVENT_ESCAPE,
        K.UI_EVENT_NONE, K.UI_EVENT_EXTRA1, K.UI_EVENT_EXTRA2, K.UI_EVENT_EXTRA3],
      ∃ sel1 ret, widget_input K (.w_vbox c item sel spacing) e
          = some (.w_vbox c item sel1 spacing, ret, [effect.input w e]) ∧
        box_outcome K.UI_EVENT_UP K.UI_EVENT_DOWN ⟨sel, item⟩ 0 e sel1 ret) := by
  have hign : ∀ event : Int, K.entry_ignores event →
      w_entry_input K w event = some (w, 0, []) := by
    intro event hev
    cases w with
    | w_entry c text max_len cursor_pos =>
      obtain ⟨len, hstr, _⟩ := hw
      exact w_entry_input_ignored K c text max_len cursor_pos len event hstr hev
    | w_text _ _ _ => exact absurd hw (by simp [widget_t.entry_sound])
    | w_image _ _ => exact absurd hw (by simp [widget_t.entry_sound])
    | w_action _ _ _ _ => exact absurd hw (by simp [widget_t.entry_sound])
    | w_option _ _ _ _ _ => exact absurd hw (by simp [widget_t.entry_sound])
    | w_vbox _ _ _ _ => exact absurd hw (by simp [widget_t.entry_sound])
    | w_hbox _ _ _ _ => exact absurd hw (by simp [widget_t.entry_sound])
  refine ⟨?_, hign, fun e he => hign e (hother e he), ?_⟩
  · intro event hev
    obtain ⟨w1, r, tr, hres, hs1⟩ := w_entry_input_sound K hK w event hw
    have hreact : event = K.UI_EVENT_LEFT ∨ event = K.UI_EVENT_RIGHT ∨
        event = K.UI_EVENT_BACKSPACE ∨ ∃ ch, w_entry_char K event = some ch := by
      rcases hev with h | h | h | h | h | h
      · exact Or.inl h
      · exact Or.inr (Or.inl h)
      · exact Or.inr (Or.inr (Or.inl h))
      · exact Or.inr (Or.inr (Or.inr (w_entry_char_reacts K event (Or.inl h))))
      · exact Or.inr (Or.inr (Or.inr (w_entry_char_reacts K event (Or.inr (Or.inl h)))))
      · exact Or.inr (Or.inr (Or.inr (w_entry_char_reacts K event (Or.inr (Or.inr h)))))
    obtain ⟨hr, htr⟩ := w_entry_input_handled K w w1 event r tr hres hreact
    rw [hr, htr] at hres
    exact ⟨w1, hres, hs1⟩
  · intro c item sel spacing hget e he
    obtain ⟨h0, hget1⟩ := array_get_toNat item sel w hget
    have hwi : widget_input K w e = some (w, 0, []) := by
      have := hign e (hother e he)
      cases w with
      | w_entry c1 text max_len cursor_pos => simpa only [widget_input] using this
      | w_text _ _ _ => exact absurd hw (by simp [widget_t.entry_sound])
      | w_image _ _ => exact absurd hw (by simp [widget_t.entry_sound])
      | w_action _ _ _ _ => exact absurd hw (by simp [widget_t.entry_sound])
      | w_option _ _ _ _ _ => exact absurd hw (by simp [widget_t.entry_sound])
      | w_vbox _ _ _ _ => exact absurd hw (by simp [widget_t.entry_sound])
      | w_hbox _ _ _ _ => exact absurd hw (by simp [widget_t.entry_sound])
    have hchild := widget_list_item_input_of_get K e item sel.toNat w w 0 [] hget1 hwi
    have hset : item.set sel.toNat w = item := by
      apply List.ext_get?
      intro n
      by_cases hn : n = sel.toNat
      · subst hn
        rw [hget1]
        have hlt : sel.toNat < item.length := by
          by_contra hge
          rw [List.get?_eq_none.mpr (by omega)] at hget1
          exact absurd hget1 (by simp)
        simp [List.getElem?_set, hlt]
      · simp [List.getElem?_set, Ne.symm hn]
    rw [hset] at hchild
    exact w_vbox_input_of_child K hUD c item sel spacing e h0 item 0 _ rfl hchild
theorem sample_entry_sound : sample_entry.entry_sound := by
  refine ⟨2, rfl, by decide, by decide, by decide, rfl, ?_⟩
  show ((([104, 105, 0] ++ List.replicate 253 7 : List Int).length : Nat) : Int) = 255 + 1
  rw [List.length_append, List.length_replicate]
  rfl

/-- Claim C30 for `sample_entry` and the numbering `sample_codes`. -/
theorem C30_entry_return_values_witness :
    sample_codes.letter_runs ∧ sample_codes.UI_EVENT_UP ≠ sample_codes.UI_EVENT_DOWN ∧
    (∀ e ∈ [sample_codes.UI_EVENT_UP, sample_codes.UI_EVENT_DOWN,
      sample_codes.UI_EVENT_ACTION, sample_codes.UI_EVENT_ESCAPE, sample_codes.UI_EVENT_NONE,
      sample_codes.UI_EVENT_EXTRA1, sample_codes.UI_EVENT_EXTRA2,
      sample_codes.UI_EVENT_EXTRA3], sample_codes.entry_ignores e) ∧
    sample_entry.entry_sound ∧
    ((∀ event : Int,
      (event = sample_codes.UI_EVENT_LEFT ∨ event = sample_codes.UI_EVENT_RIGHT ∨
        event = sample_codes.UI_EVENT_BACKSPACE ∨ event = sample_codes.UI_EVENT_SPACE ∨
        (sample_codes.UI_EVENT_CHAR_a ≤ event ∧ event ≤ sample_codes.UI_EVENT_CHAR_z) ∨
        (sample_codes.UI_EVENT_CHAR_A ≤ event ∧ event ≤ sample_codes.UI_EVENT_CHAR_Z)) →
      ∃ w1, w_entry_input sample_codes sample_entry event = some (w1, 1, []) ∧
        w1.entry_sound) ∧
    (∀ event : Int, sample_codes.entry_ignores event →
      w_entry_input sample_codes sample_entry event = some (sample_entry, 0, [])) ∧
    (∀ e ∈ [sample_codes.UI_EVENT_UP, sample_codes.UI_EVENT_DOWN,
      sample_codes.UI_EVENT_ACTION, sample_codes.UI_EVENT_ESCAPE, sample_codes.UI_EVENT_NONE,
      sample_codes.UI_EVENT_EXTRA1, sample_codes.UI_EVENT_EXTRA2,
      sample_codes.UI_EVENT_EXTRA3],
      w_entry_input sample_codes sample_entry e = some (sample_entry, 0, [])) ∧
    (∀ (c : widget_common) (item : List widget_t) (sel spacing : Int),
      array_get item sel = some sample_entry →
      ∀ e ∈ [sample_codes.UI_EVENT_UP, sample_codes.UI_EVENT_DOWN,
        sample_codes.UI_EVENT_ACTION, sample_codes.UI_EVENT_ESCAPE,
        sample_codes.UI_EVENT_NONE, sample_codes.UI_EVENT_EXTRA1,
        sample_codes.UI_EVENT_EXTRA2, sample_codes.UI_EVENT_EXTRA3],
      ∃ sel1 ret, widget_input sample_codes (.w_vbox c item sel spacing) e
          = some (.w_vbox c item sel1 spacing, ret, [effect.input sample_entry e]) ∧
        box_outcome sample_codes.UI_EVENT_UP sample_codes.UI_EVENT_DOWN ⟨sel, item⟩ 0 e
          sel1 ret)) :=
  ⟨by unfold ui_event_codes.letter_runs; decide, by decide,
    by unfold ui_event_codes.entry_ignores; decide,
    sample_entry_sound,
    C30_entry_return_values sample_codes (by unfold ui_event_codes.letter_runs; decide)
      (by decide) (by unfold ui_event_codes.entry_ignores; decide) sample_entry
      sample_entry_sound⟩

/-! ## Texture sizes -/

theorem power_of_two_loop_spec (input : Int) (hin : input ≤ 2 ^ 30) :
    ∀ (n k : Nat), k ≤ 30 → 31 ≤ n + k → (∀ j : Nat, j < k → (2 : Int) ^ j < input) →
      ∃ k1 : Nat, k1 ≤ 30 ∧ power_of_two_loop n ((2 : Int) ^ k) input = some ((2 : Int) ^ k1) ∧
        input ≤ (2 : Int) ^ k1 ∧ ∀ j : Nat, j < k1 → (2 : Int) ^ j < input := by
  intro n
  induction n with
  | zero => intro k hk hn; omega
  | succ n ih =>
    intro k hk hn hlow
    by_cases hlt : (2 : Int) ^ k < input
    · have hk30 : k < 30 := by
        by_contra hge
        have hk30 : k = 30 := by omega
        rw [hk30] at hlt
        omega
      have hpow : (2 : Int) ^ k * 2 = (2 : Int) ^ (k + 1) := by rw [pow_succ]
      have hfit : (2 : Int) ^ (k + 1) ≤ INT_MAX := by
        have h1 : (2 : Int) ^ (k + 1) ≤ (2 : Int) ^ 30 :=
          pow_le_pow_right₀ (by norm_num) (by omega)
        have h2 : (2 : Int) ^ 30 ≤ INT_MAX := by decide
        exact le_trans h1 h2
      obtain ⟨k1, hk1, hres, hup, hlow1⟩ := ih (k + 1) (by omega) (by omega) (by
        intro j hj
        by_cases hjk : j < k
        · exact hlow j hjk
        · have : j = k := by omega
          rw [this]; exact hlt)
      refine ⟨k1, hk1, ?_, hup, hlow1⟩
      rw [power_of_two_loop, if_pos hlt, hpow, if_pos hfit, hres]
    · refine ⟨k, hk, ?_, by omega, hlow⟩
      rw [power_of_two_loop, if_neg hlt]

theorem power_of_two_spec (input : Int) (hin : input ≤ 2 ^ 30) :
    ∃ k : Nat, power_of_two input = some ((2 : Int) ^ k) ∧ input ≤ (2 : Int) ^ k ∧
      ∀ j : Nat, input ≤ (2 : Int) ^ j → (2 : Int) ^ k ≤ (2 : Int) ^ j := by
  obtain ⟨k, _, hres, hup, hlow⟩ :=
    power_of_two_loop_spec input hin 32 0 (by omega) (by omega) (by intro j hj; omega)
  rw [pow_zero] at hres
  refine ⟨k, hres, hup, ?_⟩
  intro j hj
  by_cases hjk : j < k
  · have := hlow j hjk
    omega
  · exact pow_le_pow_right₀ (by norm_num) (by omega)
/-- Claim C25, at the input 4: `power_of_two 4` is 4, which is not larger than
4; the smallest power of two larger than 4 is 8. By `power_of_two_spec` the
function returns, for every input up to `2 ^ 30`, the smallest power of two
that is not smaller than the input. -/
theorem C25_power_of_two_at_four :
    power_of_two 4 = some 4 ∧ ¬ ((4 : Int) < 4) ∧ (4 : Int) < 2 ^ 3 ∧
    ∀ j : Nat, (4 : Int) < 2 ^ j → (2 : Int) ^ 3 ≤ 2 ^ j := by
  refine ⟨by decide, by decide, by decide, ?_⟩
  intro j hj
  have h3 : 3 ≤ j := by
    by_contra hlt
    have hle : (2 : Int) ^ j ≤ 2 ^ 2 := pow_le_pow_right₀ (by norm_num) (by omega)
    have : (2 : Int) ^ 2 = 4 := by norm_num
    omega
  exact pow_le_pow_right₀ (by norm_num) h3

/-! ## Conversion of platform events -/

theorem lor_eq_zero_iff (a b : Nat) : a ||| b = 0 ↔ a = 0 ∧ b = 0 := by
  constructor
  · intro h
    constructor
    · apply Nat.eq_of_testBit_eq
      intro i
      have := congrArg (fun n => Nat.testBit n i) h
      simp only [Nat.testBit_or, Nat.zero_testBit, Bool.or_eq_false_iff] at this
      rw [Nat.zero_testBit]; exact this.1
    · apply Nat.eq_of_testBit_eq
      intro i
      have := congrArg (fun n => Nat.testBit n i) h
      simp only [Nat.testBit_or, Nat.zero_testBit, Bool.or_eq_false_iff] at this
      rw [Nat.zero_testBit]; exact this.2
  · rintro ⟨rfl, rfl⟩
    rfl

theorem shift_held_iff (m l r : Nat) :
    m &&& (l ||| r) ≠ 0 ↔ (m &&& l ≠ 0 ∨ m &&& r ≠ 0) := by
  rw [Nat.and_or_distrib_left, Ne, lor_eq_zero_iff]
  tauto

theorem convert_event_switch_letter (S : sdl_codes) (K : ui_event_codes)
    (event : SDL_Event) (hkey : event.type = S.SDL_KEYDOWN)
    (hsym : event.sym ∉ [S.SDLK_RIGHT, S.SDLK_LEFT, S.SDLK_UP, S.SDLK_DOWN, S.SDLK_ESCAPE,
      S.SDLK_RETURN, S.SDLK_BACKSPACE, S.SDLK_SPACE]) :
    convert_event_switch S K event = none := by
  simp only [List.mem_cons, List.mem_singleton, List.not_mem_nil, or_false, not_or] at hsym
  obtain ⟨h1, h2, h3, h4, h5, h6, h7, h8⟩ := hsym
  unfold convert_event_switch
  rw [if_pos hkey, if_neg h1, if_neg h2, if_neg h3, if_neg h4, if_neg h5, if_neg h6,
    if_neg h7, if_neg h8]

theorem entry_inserts_of_char (K : ui_event_codes) (event ch : Int)
    (hL : event ≠ K.UI_EVENT_LEFT) (hR : event ≠ K.UI_EVENT_RIGHT)
    (hB : event ≠ K.UI_EVENT_BACKSPACE) (hch : w_entry_char K event = some ch)
    (hrange : 1 ≤ ch ∧ ch ≤ 255) : entry_inserts K event ch := by
  intro c t g max_len k ht hk hlen hbuf
  have hmod : ch % 256 = ch := by omega
  cases g with
  | nil =>
    simp only [List.length_append, List.length_cons, List.length_nil] at hbuf
    exact absurd hbuf (by push_cast; omega)
  | cons g0 g1 =>
    have hins := w_entry_input_insert K c t g1 g0 max_len k event ch ht hk hlen hL hR hB hch
    rw [hmod] at hins
    exact ⟨g1, hins⟩

/-- Claim C21. Let the letter events form two runs in alphabetical order
(`letter_runs`), apart from each other and from LEFT, RIGHT and BACKSPACE
(`letters_apart`), and let the letter keys of the platform form one run that
holds none of the keys of the switch (`letter_keys`). For a key-down event of
the letter key with index `i` from 0 to 25, `convert_event` returns
`UI_EVENT_CHAR_a + i` when neither shift bit is set in the modifiers, and
`UI_EVENT_CHAR_A + i` when the left or the right shift bit is set; a text
entry that is not full inserts exactly the character `97 + i` (the letter in
lower case) for the first and `65 + i` (in upper case) for the second. A
key-down event of a key that is none of the eight keys of the switch and no
letter key gives `UI_EVENT_NONE`. -/
theorem C21_convert_event (S : sdl_codes) (K : ui_event_codes) (hS : S.letter_keys)
    (hK : K.letter_runs) (hA : K.letters_apart) (event : SDL_Event)
    (hkey : event.type = S.SDL_KEYDOWN) :
    (∀ i : Nat, i ≤ 25 → event.sym = S.SDLK_a + (i : Int) →
      (event.mod &&& S.KMOD_LSHIFT = 0 ∧ event.mod &&& S.KMOD_RSHIFT = 0 →
        convert_event S K event = K.UI_EVENT_CHAR_a + (i : Int) ∧
        entry_inserts K (convert_event S K event) (97 + (i : Int))) ∧
      (event.mod &&& S.KMOD_LSHIFT ≠ 0 ∨ event.mod &&& S.KMOD_RSHIFT ≠ 0 →
        convert_event S K event = K.UI_EVENT_CHAR_A + (i : Int) ∧
        entry_inserts K (convert_event S K event) (65 + (i : Int)))) ∧
    (event.sym ∉ [S.SDLK_RIGHT, S.SDLK_LEFT, S.SDLK_UP, S.SDLK_DOWN, S.SDLK_ESCAPE,
        S.SDLK_RETURN, S.SDLK_BACKSPACE, S.SDLK_SPACE] →
      ¬ (S.SDLK_a ≤ event.sym ∧ event.sym ≤ S.SDLK_z) →
      convert_event S K event = K.UI_EVENT_NONE) := by
  obtain ⟨hSz, hSkeys⟩ := hS
  obtain ⟨hz, hZ⟩ := hK
  obtain ⟨hApart, hruns⟩ := hA
  constructor
  · intro i hi hsym
    have hletter : S.SDLK_a ≤ event.sym ∧ event.sym ≤ S.SDLK_z := by omega
    have hnot : event.sym ∉ [S.SDLK_RIGHT, S.SDLK_LEFT, S.SDLK_UP, S.SDLK_DOWN,
        S.SDLK_ESCAPE, S.SDLK_RETURN, S.SDLK_BACKSPACE, S.SDLK_SPACE] := by
      intro hmem
      exact hSkeys event.sym hmem hletter
    have hsw := convert_event_switch_letter S K event hkey hnot
    have hLa := hApart K.UI_EVENT_LEFT (by simp)
    have hRa := hApart K.UI_EVENT_RIGHT (by simp)
    have hBa := hApart K.UI_EVENT_BACKSPACE (by simp)
    constructor
    · rintro ⟨hl, hr⟩
      have hshift : ¬ event.mod &&& (S.KMOD_LSHIFT ||| S.KMOD_RSHIFT) ≠ 0 := by
        rw [shift_held_iff]
        rintro (h | h)
        · exact h hl
        · exact h hr
      have hconv : convert_event S K event = K.UI_EVENT_CHAR_a + (i : Int) := by
        unfold convert_event
        rw [hsw]
        simp only []
        rw [if_pos ⟨hkey, hletter⟩, if_neg hshift]
        omega
      refine ⟨hconv, ?_⟩
      rw [hconv]
      have hin : K.UI_EVENT_CHAR_a ≤ K.UI_EVENT_CHAR_a + (i : Int) ∧
          K.UI_EVENT_CHAR_a + (i : Int) ≤ K.UI_EVENT_CHAR_z := by omega
      apply entry_inserts_of_char
      · intro h; rw [h] at hin; exact hLa.1 hin
      · intro h; rw [h] at hin; exact hRa.1 hin
      · intro h; rw [h] at hin; exact hBa.1 hin
      · unfold w_entry_char
        rw [if_pos hin]
        congr 1
        omega
      · omega
    · intro hheld
      have hshift : event.mod &&& (S.KMOD_LSHIFT ||| S.KMOD_RSHIFT) ≠ 0 :=
        (shift_held_iff _ _ _).mpr hheld
      have hconv : convert_event S K event = K.UI_EVENT_CHAR_A + (i : Int) := by
        unfold convert_event
        rw [hsw]
        simp only []
        rw [if_pos ⟨hkey, hletter⟩, if_pos hshift]
        omega
      refine ⟨hconv, ?_⟩
      rw [hconv]
      have hin : K.UI_EVENT_CHAR_A ≤ K.UI_EVENT_CHAR_A + (i : Int) ∧
          K.UI_EVENT_CHAR_A + (i : Int) ≤ K.UI_EVENT_CHAR_Z := by omega
      have hout : ¬ (K.UI_EVENT_CHAR_a ≤ K.UI_EVENT_CHAR_A + (i : Int) ∧
          K.UI_EVENT_CHAR_A + (i : Int) ≤ K.UI_EVENT_CHAR_z) := by omega
      apply entry_inserts_of_char
      · intro h; rw [h] at hin; exact hLa.2 hin
      · intro h; rw [h] at hin; exact hRa.2 hin
      · intro h; rw [h] at hin; exact hBa.2 hin
      · unfold w_entry_char
        rw [if_neg hout, if_pos hin]
        congr 1
        omega
      · omega
  · intro hnot hnl
    unfold convert_event
    rw [convert_event_switch_letter S K event hkey hnot]
    simp only []
    rw [if_neg (fun h => hnl h.2)]
/-- Claim C21 for the SDL 1.2 key codes, the numbering `sample_codes` and the
key-down event of the key `c` with left shift held. -/
theorem C21_convert_event_witness :
    sample_sdl.letter_keys ∧ sample_codes.letter_runs ∧ sample_codes.letters_apart ∧
    sample_key_event.type = sample_sdl.SDL_KEYDOWN ∧
    ((∀ i : Nat, i ≤ 25 → sample_key_event.sym = sample_sdl.SDLK_a + (i : Int) →
      (sample_key_event.mod &&& sample_sdl.KMOD_LSHIFT = 0 ∧
          sample_key_event.mod &&& sample_sdl.KMOD_RSHIFT = 0 →
        convert_event sample_sdl sample_codes sample_key_event
          = sample_codes.UI_EVENT_CHAR_a + (i : Int) ∧
        entry_inserts sample_codes (convert_event sample_sdl sample_codes sample_key_event)
          (97 + (i : Int))) ∧
      (sample_key_event.mod &&& sample_sdl.KMOD_LSHIFT ≠ 0 ∨
          sample_key_event.mod &&& sample_sdl.KMOD_RSHIFT ≠ 0 →
        convert_event sample_sdl sample_codes sample_key_event
          = sample_codes.UI_EVENT_CHAR_A + (i : Int) ∧
        entry_inserts sample_codes (convert_event sample_sdl sample_codes sample_key_event)
          (65 + (i : Int)))) ∧
    (sample_key_event.sym ∉ [sample_sdl.SDLK_RIGHT, sample_sdl.SDLK_LEFT, sample_sdl.SDLK_UP,
        sample_sdl.SDLK_DOWN, sample_sdl.SDLK_ESCAPE, sample_sdl.SDLK_RETURN,
        sample_sdl.SDLK_BACKSPACE, sample_sdl.SDLK_SPACE] →
      ¬ (sample_sdl.SDLK_a ≤ sample_key_event.sym ∧
        sample_key_event.sym ≤ sample_sdl.SDLK_z) →
      convert_event sample_sdl sample_codes sample_key_event
        = sample_codes.UI_EVENT_NONE)) :=
  ⟨by unfold sdl_codes.letter_keys; decide, by unfold ui_event_codes.letter_runs; decide,
    by unfold ui_event_codes.letters_apart; decide, rfl,
    C21_convert_event sample_sdl sample_codes (by unfold sdl_codes.letter_keys; decide)
      (by unfold ui_event_codes.letter_runs; decide)
      (by unfold ui_event_codes.letters_apart; decide) sample_key_event rfl⟩

/-- The event of `sample_key_event` is that of the letter `C` (index 2 of the
upper-case run), and an entry holding `hi` with the cursor behind the `h`
then holds `hCi`. -/
theorem convert_event_sample :
    convert_event sample_sdl sample_codes sample_key_event = 40 ∧
    w_entry_input sample_codes (.w_entry ⟨1, 120, 20⟩ [104, 105, 0, 7, 7, 7] 5 1) 40
      = some (.w_entry ⟨1, 120, 20⟩ [104, 67, 105, 0, 7, 7] 5 2, 1, []) :=
  ⟨by decide, rfl⟩

/-! ## Rendering a box -/

theorem heights_before_succ (ws : List widget_t) (n : Nat) (h : n < ws.length) :
    heights_before ws (n + 1) = heights_before ws n + (ws.get ⟨n, h⟩).height := by
  unfold heights_before
  rw [take_succ_get ws n h, List.map_append, List.sum_append]
  simp

theorem heights_before_length (ws : List widget_t) :
    heights_before ws ws.length = (ws.map widget_t.height).sum := by
  unfold heights_before
  rw [List.take_length]

theorem passes_focus_focus_child (focus sel : Int) (i : Nat) :
    passes_focus focus sel i (focus_child focus sel (i : Int)) := by
  unfold passes_focus focus_child
  refine ⟨?_, ?_, ?_⟩
  · intro h; rw [if_pos h]
  · intro h
    have hne : ¬ focus = FOCUS_ALL := by rw [h]; decide
    rw [if_neg hne, if_pos h]
    exact ⟨fun hs => by rw [if_pos hs], fun hs => by rw [if_neg hs]⟩
  · intro h
    have hne : ¬ focus = FOCUS_ALL := by rw [h]; decide
    have hne1 : ¬ focus = FOCUS_ONE := by rw [h]; decide
    rw [if_neg hne, if_neg hne1]
    rfl

theorem w_vbox_render_loop_spec (list : widget_list_t) (spacing x width focus : Int) :
    ∀ (n : Nat), n ≤ list.item.length → ∀ z : Int,
      ∃ calls, w_vbox_render_loop list spacing x width focus n (wrap_int z) = some calls ∧
        calls.length = n ∧
        ∀ (i : Nat) (_ : i < n) (hlt : i < list.item.length),
          calls.get? (n - 1 - i) = some (draw.render
            ⟨list.item.get ⟨i, hlt⟩, x,
              wrap_int (z + (heights_before list.item n - heights_before list.item (i + 1))
                + spacing * (((n - 1 - i : Nat) : Int))),
              width, (list.item.get ⟨i, hlt⟩).height,
              focus_child focus list.sel (i : Int)⟩) := by
  intro n
  induction n with
  | zero =>
    intro _ z
    exact ⟨[], rfl, rfl, fun i hi => absurd hi (by omega)⟩
  | succ n ih =>
    intro hn z
    have hlt : n < list.item.length := by omega
    obtain ⟨calls, hres, hlen, hcalls⟩ :=
      ih (by omega) (wrap_int (wrap_int z + (list.item.get ⟨n, hlt⟩).height) + spacing)
    refine ⟨draw.render ⟨list.item.get ⟨n, hlt⟩, x, wrap_int z, width,
      (list.item.get ⟨n, hlt⟩).height, focus_child focus list.sel (n : Int)⟩ :: calls, ?_,
      by rw [List.length_cons, hlen], ?_⟩
    · rw [w_vbox_render_loop, array_get_of_lt list.item n hlt]
      simp only []
      rw [hres]
    · intro i hi hlti
      by_cases hin : i = n
      · subst hin
        have h0 : i + 1 - 1 - i = 0 := by omega
        rw [h0, List.get?_cons_zero]
        simp
      · have hi1 : i < n := by omega
        have hidx : n + 1 - 1 - i = (n - 1 - i) + 1 := by omega
        rw [hidx, List.get?_cons_succ, hcalls i hi1 hlti, heights_before_succ list.item n hlt]
        congr 3
        have hc : (((n - 1 - i + 1 : Nat) : Int)) = ((n - 1 - i : Nat) : Int) + 1 := by
          push_cast; ring
        rw [hc, add_assoc (wrap_int (wrap_int z + (list.item.get ⟨n, hlt⟩).height) + spacing),
          add_assoc (wrap_int (wrap_int z + (list.item.get ⟨n, hlt⟩).height)),
          wrap_int_wrap_add, add_assoc (wrap_int z), wrap_int_wrap_add]
        congr 1
        ring

theorem w_hbox_render_loop_spec (list : widget_list_t) (spacing y height focus : Int) :
    ∀ (n k : Nat), k + n ≤ list.item.length → ∀ x0 : Int,
      ∃ calls, w_hbox_render_loop list spacing y height focus n (k : Int) x0 = some calls ∧
        calls.length = n ∧
        ∀ (j : Nat) (_ : j < n) (hlt : k + j < list.item.length),
          ∃ cx, calls.get? j = some (draw.render
            ⟨list.item.get ⟨k + j, hlt⟩, cx, y, (list.item.get ⟨k + j, hlt⟩).width, height,
              focus_child focus list.sel ((k + j : Nat) : Int)⟩) := by
  intro n
  induction n with
  | zero =>
    intro k _ x0
    exact ⟨[], rfl, rfl, fun j hj => absurd hj (by omega)⟩
  | succ n ih =>
    intro k hk x0
    have hlt : k < list.item.length := by omega
    obtain ⟨calls, hres, hlen, hcalls⟩ :=
      ih (k + 1) (by omega)
        (wrap_int (wrap_int (x0 + (list.item.get ⟨k, hlt⟩).width) + spacing))
    refine ⟨draw.render ⟨list.item.get ⟨k, hlt⟩, x0, y, (list.item.get ⟨k, hlt⟩).width,
      height, focus_child focus list.sel (k : Int)⟩ :: calls, ?_,
      by rw [List.length_cons, hlen], ?_⟩
    · rw [w_hbox_render_loop, array_get_of_lt list.item k hlt]
      simp only []
      have hc : ((k : Int) + 1) = ((k + 1 : Nat) : Int) := by push_cast; rfl
      rw [hc, hres]
    · intro j hj hltj
      cases j with
      | zero => exact ⟨x0, by simp⟩
      | succ j =>
        have hlt1 : k + 1 + j < list.item.length := by omega
        obtain ⟨cx, hcx⟩ := hcalls j (by omega) hlt1
        refine ⟨cx, ?_⟩
        rw [List.get?_cons_succ, hcx]
        have he : k + 1 + j = k + (j + 1) := by omega
        simp only [he]

/-- Claim C22. A vbox or hbox, whatever its children, cursor and spacing,
calls the render function of each child exactly once (the vbox from the last
child to the first, the hbox from the first to the last), and the focus it
passes to the child at index `i` is ALL when the box is rendered with ALL; when
the box is rendered with ONE it is ONE for the child at the cursor and NONE for
every other child, so that no two children get a focus other than NONE; it is
NONE when the box is rendered with NONE (`passes_focus`). An action widget
calls the render function of its child once, with its own rectangle, and
passes ALL when its own focus is not NONE, and NONE when it is. -/
theorem C22_render_focus (c : widget_common) (item : List widget_t)
    (sel spacing x y width height focus : Int) :
    (∃ calls, w_vbox_render (.w_vbox c item sel spacing) x y width height focus = some calls ∧
      calls.length = item.length ∧
      ∀ (i : Nat) (hi : i < item.length),
        ∃ cx cy cw ch f, calls.get? (item.length - 1 - i)
            = some (draw.render ⟨item.get ⟨i, hi⟩, cx, cy, cw, ch, f⟩) ∧
          passes_focus focus sel i f) ∧
    (∃ calls, w_hbox_render (.w_hbox c item sel spacing) x y width height focus = some calls ∧
      calls.length = item.length ∧
      ∀ (i : Nat) (hi : i < item.length),
        ∃ cx cy cw ch f, calls.get? i
            = some (draw.render ⟨item.get ⟨i, hi⟩, cx, cy, cw, ch, f⟩) ∧
          passes_focus focus sel i f) ∧
    (∀ (i j : Nat) (f g : Int), focus = FOCUS_ONE → passes_focus focus sel i f →
      passes_focus focus sel j g → f ≠ FOCUS_NONE → g ≠ FOCUS_NONE → i = j) ∧
    (∀ (child : widget_t) (func func_data : Nat),
      w_action_render (.w_action c child func func_data) x y width height focus
        = some [draw.render ⟨child, x, y, width, height,
            if focus ≠ FOCUS_NONE then FOCUS_ALL else FOCUS_NONE⟩]) := by
  refine ⟨?_, ?_, ?_, ?_⟩
  · obtain ⟨calls, hres, hlen, hcalls⟩ :=
      w_vbox_render_loop_spec ⟨sel, item⟩ spacing x width focus item.length (le_refl _)
        (y + wrap_int (height - c.height))
    refine ⟨calls, hres, hlen, ?_⟩
    intro i hi
    exact ⟨_, _, _, _, _, hcalls i hi hi, passes_focus_focus_child focus sel i⟩
  · obtain ⟨calls, hres, hlen, hcalls⟩ :=
      w_hbox_render_loop_spec ⟨sel, item⟩ spacing y height focus item.length 0
        (by simp) x
    refine ⟨calls, hres, hlen, ?_⟩
    intro i hi
    obtain ⟨cx, hcx⟩ := hcalls i hi (by simpa using hi)
    simp only [Nat.zero_add] at hcx
    exact ⟨_, _, _, _, _, hcx, passes_focus_focus_child focus sel i⟩
  · intro i j f g hone hf hg hfn hgn
    have hi : sel = (i : Int) := by
      by_contra hne
      exact hfn ((hf.2.1 hone).2 hne)
    have hj : sel = (j : Int) := by
      by_contra hne
      exact hgn ((hg.2.1 hone).2 hne)
    omega
  · intro child func func_data
    simp only [w_action_render]
    by_cases hf : focus ≠ FOCUS_NONE
    · rw [if_pos hf, if_pos hf]
    · rw [if_neg hf, if_neg hf]
      rw [not_not.mp hf]
theorem heights_before_mono (ws : List widget_t) (hpos : ∀ w ∈ ws, 0 ≤ w.height) (m : Nat) :
    ∀ n : Nat, m ≤ n → n ≤ ws.length → heights_before ws m ≤ heights_before ws n := by
  intro n
  induction n with
  | zero =>
    intro hm _
    have : m = 0 := by omega
    rw [this]
  | succ n ih =>
    intro hm hn
    by_cases hmn : m = n + 1
    · rw [hmn]
    · have hlt : n < ws.length := by omega
      have h1 := ih (by omega) (by omega)
      have h2 := hpos (ws.get ⟨n, hlt⟩) (List.get_mem ws n hlt)
      rw [heights_before_succ ws n hlt]
      omega

theorem wrap_int_spec (x : Int) : ∃ k : Int, wrap_int x = x + 4294967296 * k := by
  refine ⟨-((x + 2147483648) / 4294967296), ?_⟩
  unfold wrap_int
  omega

/-- A vbox made by appending the widgets `ws` to a fresh vbox, rendered into
any rectangle: child `i` gets the left edge, the width, its own height, and
the lower edge `vbox_child_y` wrapped to an `int`. -/
theorem w_vbox_render_wrapped (spacing : Int) (ws : List widget_t)
    (x y width height focus : Int) :
    ∃ box calls, w_vbox_append_all (w_vbox_create spacing) ws = some box ∧
      w_vbox_render box x y width height focus = some calls ∧
      calls.length = ws.length ∧
      ∀ (i : Nat) (hi : i < ws.length),
        ∃ f, calls.get? (ws.length - 1 - i) = some (draw.render
          ⟨ws.get ⟨i, hi⟩, x, wrap_int (vbox_child_y ws spacing y height i), width,
            (ws.get ⟨i, hi⟩).height, f⟩) := by
  have hbox := w_vbox_append_all_eq spacing ws ⟨0, 0, 0⟩ [] (-1)
  rw [List.nil_append, List.length_nil] at hbox
  obtain ⟨calls, hres, hlen, hcalls⟩ :=
    w_vbox_render_loop_spec ⟨cursor_after_append 0 (-1) ws, ws⟩ spacing x width focus
      ws.length (le_refl _)
      (y + wrap_int (height - sum_after_append widget_t.height spacing 0 0 ws))
  refine ⟨_, calls, hbox, hres, hlen, ?_⟩
  intro i hi
  have hne : ws ≠ [] := by
    intro h; rw [h] at hi; exact absurd hi (by simp)
  refine ⟨focus_child focus (cursor_after_append 0 (-1) ws) (i : Int), ?_⟩
  rw [hcalls i hi hi]
  congr 3
  rw [sum_after_append_fresh widget_t.height spacing ws hne, heights_before_length]
  obtain ⟨k1, h1⟩ :=
    wrap_int_spec ((ws.map widget_t.height).sum + spacing * ((ws.length : Int) - 1))
  obtain ⟨k2, h2⟩ := wrap_int_spec
    (height - wrap_int ((ws.map widget_t.height).sum + spacing * ((ws.length : Int) - 1)))
  apply wrap_int_congr _ _ (k2 - k1)
  rw [h2, h1]
  unfold vbox_child_y
  have hc : ((ws.length - 1 - i : Nat) : Int) = (ws.length : Int) - 1 - (i : Int) := by
    omega
  rw [hc]
  ring

/-- Claim C28. Let a vbox be made by appending the widgets `ws` to a fresh vbox
with spacing `s`, and let it be rendered into the rectangle with lower left
corner `(x, y)` and size `width` by `height`, the lower edge
`y + height - (h_0 + ... + h_i) - i * s` (`vbox_child_y`) of every child being
a value of `int` (the coordinates are `int`s; an edge outside the range wraps,
see `w_vbox_render_wrapped`). The vbox calls the render function of every child
once, and child `i` gets the left edge `x`, the width `width`, its own height,
and that lower edge. So the upper edge of the first child is the upper edge
`y + height` of the rectangle, the lower edge of each child lies exactly `s`
above the upper edge of the next one, and with non-negative heights and
spacing a later child ends at or below the lower edge of every earlier one. -/
theorem C28_vbox_geometry (spacing : Int) (ws : List widget_t)
    (x y width height focus : Int)
    (hfit : ∀ i : Nat, i < ws.length → fits_int (vbox_child_y ws spacing y height i)) :
    ∃ box calls, w_vbox_append_all (w_vbox_create spacing) ws = some box ∧
      w_vbox_render box x y width height focus = some calls ∧
      calls.length = ws.length ∧
      (∀ (i : Nat) (hi : i < ws.length),
        ∃ f, calls.get? (ws.length - 1 - i) = some (draw.render
          ⟨ws.get ⟨i, hi⟩, x, vbox_child_y ws spacing y height i, width,
            (ws.get ⟨i, hi⟩).height, f⟩)) ∧
      (∀ h0 : 0 < ws.length,
        vbox_child_y ws spacing y height 0 + (ws.get ⟨0, h0⟩).height = y + height) ∧
      (∀ (i : Nat) (hi : i + 1 < ws.length),
        vbox_child_y ws spacing y height i
          = vbox_child_y ws spacing y height (i + 1) + (ws.get ⟨i + 1, hi⟩).height + spacing) ∧
      ((∀ w ∈ ws, 0 ≤ w.height) → 0 ≤ spacing →
        ∀ (i j : Nat) (hj : j < ws.length), i < j →
          vbox_child_y ws spacing y height j + (ws.get ⟨j, hj⟩).height
            ≤ vbox_child_y ws spacing y height i) := by
  obtain ⟨box, calls, hbox, hres, hlen, hcalls⟩ :=
    w_vbox_render_wrapped spacing ws x y width height focus
  refine ⟨box, calls, hbox, hres, hlen, ?_, ?_, ?_, ?_⟩
  · intro i hi
    obtain ⟨f, hf⟩ := hcalls i hi
    rw [wrap_int_of_fits _ (hfit i hi)] at hf
    exact ⟨f, hf⟩
  · intro h0
    unfold vbox_child_y
    rw [heights_before_succ ws 0 h0]
    have : heights_before ws 0 = 0 := by simp [heights_before]
    rw [this]
    push_cast
    ring
  · intro i hi
    unfold vbox_child_y
    rw [heights_before_succ ws (i + 1) hi]
    push_cast
    ring
  · intro hpos hs i j hj hij
    unfold vbox_child_y
    rw [heights_before_succ ws j hj]
    have hmono := heights_before_mono ws hpos (i + 1) j (by omega) (by omega)
    have hmul : (i : Int) * spacing ≤ (j : Int) * spacing :=
      mul_le_mul_of_nonneg_right (by omega) hs
    omega

theorem sample_menu_fits :
    ∀ i : Nat, i < [sample_text [72, 105] 30, sample_action].length →
      fits_int (vbox_child_y [sample_text [72, 105] 30, sample_action] 2 20 50 i) := by
  intro i hi
  have h2 : i = 0 ∨ i = 1 := by
    simp only [List.length_cons, List.length_nil] at hi
    omega
  rcases h2 with h | h
  · rw [h]; unfold fits_int; decide
  · rw [h]; unfold fits_int; decide

/-- Claim C28 for the two widgets of `sample_menu` with spacing 2, rendered
into the rectangle at `(10, 20)` of size 100 by 50. -/
theorem C28_vbox_geometry_witness :
    (∀ i : Nat, i < [sample_text [72, 105] 30, sample_action].length →
      fits_int (vbox_child_y [sample_text [72, 105] 30, sample_action] 2 20 50 i)) ∧
    ∃ box calls,
      w_vbox_append_all (w_vbox_create 2) [sample_text [72, 105] 30, sample_action]
        = some box ∧
      w_vbox_render box 10 20 100 50 FOCUS_ONE = some calls ∧
      calls.length = [sample_text [72, 105] 30, sample_action].length ∧
      (∀ (i : Nat) (hi : i < [sample_text [72, 105] 30, sample_action].length),
        ∃ f, calls.get? ([sample_text [72, 105] 30, sample_action].length - 1 - i)
          = some (draw.render
            ⟨[sample_text [72, 105] 30, sample_action].get ⟨i, hi⟩, 10,
              vbox_child_y [sample_text [72, 105] 30, sample_action] 2 20 50 i, 100,
              ([sample_text [72, 105] 30, sample_action].get ⟨i, hi⟩).height, f⟩)) ∧
      (∀ h0 : 0 < [sample_text [72, 105] 30, sample_action].length,
        vbox_child_y [sample_text [72, 105] 30, sample_action] 2 20 50 0
            + ([sample_text [72, 105] 30, sample_action].get ⟨0, h0⟩).height
          = 20 + 50) ∧
      (∀ (i : Nat) (hi : i + 1 < [sample_text [72, 105] 30, sample_action].length),
        vbox_child_y [sample_text [72, 105] 30, sample_action] 2 20 50 i
          = vbox_child_y [sample_text [72, 105] 30, sample_action] 2 20 50 (i + 1)
            + ([sample_text [72, 105] 30, sample_action].get ⟨i + 1, hi⟩).height + 2) ∧
      ((∀ w ∈ [sample_text [72, 105] 30, sample_action], 0 ≤ w.height) → (0 : Int) ≤ 2 →
        ∀ (i j : Nat) (hj : j < [sample_text [72, 105] 30, sample_action].length), i < j →
          vbox_child_y [sample_text [72, 105] 30, sample_action] 2 20 50 j
              + ([sample_text [72, 105] 30, sample_action].get ⟨j, hj⟩).height
            ≤ vbox_child_y [sample_text [72, 105] 30, sample_action] 2 20 50 i) :=
  ⟨sample_menu_fits,
    C28_vbox_geometry 2 [sample_text [72, 105] 30, sample_action] 10 20 100 50 FOCUS_ONE
      sample_menu_fits⟩

/-- Three widgets of height `2 ^ 30` in a vbox with spacing 0, rendered into a
rectangle at `y = 0` of height 0: the lower edge `-3 * 2 ^ 30` of the last
child is not a value of `int`, and the child is rendered first, at
`2 ^ 30`. -/
theorem w_vbox_render_wraps :
    ¬ fits_int (vbox_child_y [.w_image ⟨1, 10, 1073741824⟩ 0, .w_image ⟨1, 10, 1073741824⟩ 0,
      .w_image ⟨1, 10, 1073741824⟩ 0] 0 0 0 2) ∧
    ∃ box calls, w_vbox_append_all (w_vbox_create 0)
        [.w_image ⟨1, 10, 1073741824⟩ 0, .w_image ⟨1, 10, 1073741824⟩ 0,
          .w_image ⟨1, 10, 1073741824⟩ 0] = some box ∧
      w_vbox_render box 0 0 100 0 FOCUS_NONE = some calls ∧
      calls.get? 0 = some (draw.render
        ⟨.w_image ⟨1, 10, 1073741824⟩ 0, 0, 1073741824, 100, 1073741824, FOCUS_NONE⟩) :=
  ⟨by unfold fits_int; decide, _, _, rfl, rfl, rfl⟩

/-- The vbox `sample_menu` rendered with focus ONE into the rectangle at
`(10, 20)` of size 100 by 50: the action widget under the cursor is drawn
first, at the bottom, with focus ONE; the text above it with focus NONE, its
upper edge at the upper edge 70 of the rectangle. -/
theorem w_vbox_render_sample_menu :
    w_vbox_render sample_menu 10 20 100 50 FOCUS_ONE
      = some [draw.render ⟨sample_action, 10, 24, 100, 22, FOCUS_ONE⟩,
          draw.render ⟨sample_text [72, 105] 30, 10, 48, 100, 22, FOCUS_NONE⟩] := rfl

/-! ## Rendering an option widget -/

theorem w_option_input_left_sel (K : ui_event_codes)
    (hLR : K.UI_EVENT_LEFT ≠ K.UI_EVENT_RIGHT) (c : widget_common)
    (item : List widget_t) (sel : Int) (func func_data : Nat) (hsel : sel ≠ -1) :
    ∃ tr, w_option_input K (.w_option c item sel func func_data) K.UI_EVENT_LEFT
      = some (.w_option c item (if 0 ≤ sel - 1 then sel - 1 else sel) func func_data, 1, tr) := by
  simp only [w_option_input, if_true]
  rw [if_neg hsel, if_neg hLR, widget_list_select_prev_any]
  by_cases h : 0 ≤ sel - 1
  · simp only [if_pos h]
    by_cases hf : (1 : Int) ≠ 0 ∧ func ≠ 0
    · rw [if_pos hf]; exact ⟨_, rfl⟩
    · rw [if_neg hf]; exact ⟨_, rfl⟩
  · simp only [if_neg h]
    rw [if_neg (by simp)]
    exact ⟨_, rfl⟩

theorem w_option_input_right_sel (K : ui_event_codes) (c : widget_common)
    (item : List widget_t) (sel : Int) (func func_data : Nat) (hsel : sel ≠ -1) :
    ∃ tr, w_option_input K (.w_option c item sel func func_data) K.UI_EVENT_RIGHT
      = some (.w_option c item (if sel + 1 < (item.length : Int) then sel + 1 else sel)
          func func_data, 1, tr) := by
  simp only [w_option_input, if_true]
  rw [if_neg hsel, widget_list_select_next_any]
  simp only [widget_list_t.nr]
  by_cases h : sel + 1 < (item.length : Int)
  · simp only [if_pos h]
    by_cases hf : (1 : Int) ≠ 0 ∧ func ≠ 0
    · rw [if_pos hf]; exact ⟨_, rfl⟩
    · rw [if_neg hf]; exact ⟨_, rfl⟩
  · simp only [if_neg h]
    rw [if_neg (by simp)]
    exact ⟨_, rfl⟩

/-- Claim C23. Let the cursor of an option widget be on one of its options
(`0 ≤ sel < nr`, as it is whenever the widget holds an option).
`w_option_render` draws the left arrow, then calls the render function of the
selected option (for the rectangle between the arrows, computed on `int`s),
then draws the right arrow. The left arrow is drawn in grey
exactly when `w_option_input` on LEFT leaves the cursor where it is, which is
exactly when the cursor is at index 0; the right arrow is drawn in grey exactly
when `w_option_input` on RIGHT leaves the cursor where it is, which is exactly
when the cursor is at the last index. An option widget without a cursor, as it
is created and as long as it holds no option, renders nothing. -/
theorem C23_option_render_arrows (font : Int → texture_t) (K : ui_event_codes)
    (hLR : K.UI_EVENT_LEFT ≠ K.UI_EVENT_RIGHT) (c : widget_common) (item : List widget_t)
    (sel : Int) (func func_data : Nat) (h0 : 0 ≤ sel) (hlt : sel < (item.length : Int))
    (x y width height focus : Int) :
    (∃ child left right, array_get item sel = some child ∧
      w_option_render font (.w_option c item sel func func_data) x y width height focus
        = some [left,
            draw.render ⟨child, wrap_int (x + text_width font OPTION_ARROW_LEFT), y,
              wrap_int (wrap_int (width - text_width font OPTION_ARROW_LEFT)
                - text_width font OPTION_ARROW_RIGHT),
              height, focus⟩,
            right] ∧
      left.text = some OPTION_ARROW_LEFT ∧ right.text = some OPTION_ARROW_RIGHT ∧
      (∃ w1 r tr, w_option_input K (.w_option c item sel func func_data) K.UI_EVENT_LEFT
          = some (w1, r, tr) ∧
        (left.colour = some colour_ref.col_grey ↔ w_option_get_selected w1 = some sel) ∧
        (left.colour = some colour_ref.col_grey ↔ sel = 0)) ∧
      (∃ w1 r tr, w_option_input K (.w_option c item sel func func_data) K.UI_EVENT_RIGHT
          = some (w1, r, tr) ∧
        (right.colour = some colour_ref.col_grey ↔ w_option_get_selected w1 = some sel) ∧
        (right.colour = some colour_ref.col_grey ↔ sel = (item.length : Int) - 1))) ∧
    w_option_render font (.w_option c item (-1) func func_data) x y width height focus
      = some [] ∧
    w_option_render font (w_option_create func func_data) x y width height focus = some [] := by
  have hs : sel ≠ -1 := by omega
  obtain ⟨n, hn⟩ := Int.eq_ofNat_of_zero_le h0
  have hnlt : n < item.length := by omega
  have hget : array_get item sel = some (item.get ⟨n, hnlt⟩) := by
    rw [hn]; exact array_get_of_lt item n hnlt
  obtain ⟨trl, hleft⟩ := w_option_input_left_sel K hLR c item sel func func_data hs
  obtain ⟨trr, hright⟩ := w_option_input_right_sel K c item sel func func_data hs
  obtain ⟨left, hl⟩ : ∃ l : draw, l =
      (if sel > 0 then
        if focus ≠ FOCUS_NONE then
          draw.text_draw_string_bouncy x
            (wrap_int (wrap_int (y + Int.tdiv height 2) - Int.tdiv (text_height font) 2)) OPTION_ARROW_LEFT
            colour_ref.col_dark_red
        else draw.text_draw_string x
          (wrap_int (wrap_int (y + Int.tdiv height 2) - Int.tdiv (text_height font) 2)) OPTION_ARROW_LEFT
          colour_ref.col_black
      else draw.text_draw_string x
        (wrap_int (wrap_int (y + Int.tdiv height 2) - Int.tdiv (text_height font) 2)) OPTION_ARROW_LEFT
        colour_ref.col_grey) := ⟨_, rfl⟩
  obtain ⟨right, hr⟩ : ∃ l : draw, l =
      (if sel < (item.length : Int) - 1 then
        if focus ≠ FOCUS_NONE then
          draw.text_draw_string_bouncy (wrap_int (wrap_int (x + width) - text_width font OPTION_ARROW_RIGHT))
            (wrap_int (wrap_int (y + Int.tdiv height 2) - Int.tdiv (text_height font) 2)) OPTION_ARROW_RIGHT
            colour_ref.col_dark_red
        else draw.text_draw_string (wrap_int (wrap_int (x + width) - text_width font OPTION_ARROW_RIGHT))
          (wrap_int (wrap_int (y + Int.tdiv height 2) - Int.tdiv (text_height font) 2)) OPTION_ARROW_RIGHT
          colour_ref.col_black
      else draw.text_draw_string (wrap_int (wrap_int (x + width) - text_width font OPTION_ARROW_RIGHT))
        (wrap_int (wrap_int (y + Int.tdiv height 2) - Int.tdiv (text_height font) 2)) OPTION_ARROW_RIGHT
        colour_ref.col_grey) := ⟨_, rfl⟩
  have hltext : left.text = some OPTION_ARROW_LEFT := by
    rw [hl]; split_ifs <;> rfl
  have hrtext : right.text = some OPTION_ARROW_RIGHT := by
    rw [hr]; split_ifs <;> rfl
  have hlcol : left.colour = some colour_ref.col_grey ↔ sel = 0 := by
    rw [hl]
    split_ifs with h1 h2
    · simp only [draw.colour, Option.some.injEq]
      constructor
      · intro h; cases h
      · intro h; omega
    · simp only [draw.colour, Option.some.injEq]
      constructor
      · intro h; cases h
      · intro h; omega
    · simp only [draw.colour, true_iff]
      omega
  have hrcol : right.colour = some colour_ref.col_grey ↔ sel = (item.length : Int) - 1 := by
    rw [hr]
    split_ifs with h1 h2
    · simp only [draw.colour, Option.some.injEq]
      constructor
      · intro h; cases h
      · intro h; omega
    · simp only [draw.colour, Option.some.injEq]
      constructor
      · intro h; cases h
      · intro h; omega
    · simp only [draw.colour, true_iff]
      omega
  have hlsel : (if 0 ≤ sel - 1 then sel - 1 else sel) = sel ↔ sel = 0 := by
    split_ifs with h1
    · constructor <;> intro h <;> omega
    · constructor <;> intro h <;> omega
  have hrsel : (if sel + 1 < (item.length : Int) then sel + 1 else sel) = sel
      ↔ sel = (item.length : Int) - 1 := by
    split_ifs with h1
    · constructor <;> intro h <;> omega
    · constructor <;> intro h <;> omega
  refine ⟨⟨item.get ⟨n, hnlt⟩, left, right, hget, ?_, hltext, hrtext,
    ⟨_, _, _, hleft, ?_, hlcol⟩, ⟨_, _, _, hright, ?_, hrcol⟩⟩, ?_, ?_⟩
  · simp only [w_option_render]
    rw [if_neg hs, hget, hl, hr]
  · simp only [w_option_get_selected, Option.some.injEq]
    rw [hlcol, hlsel]
  · simp only [w_option_get_selected, Option.some.injEq]
    rw [hrcol, hrsel]
  · simp [w_option_render]
  · simp [w_option_render, w_option_create]
theorem w_option_input_cursor (K : ui_event_codes) (c : widget_common)
    (item : List widget_t) (sel : Int) (func func_data : Nat) (event : Int)
    (h0 : 0 ≤ sel) (hlt : sel < (item.length : Int)) :
    ∃ sel1 r tr, w_option_input K (.w_option c item sel func func_data) event
        = some (.w_option c item sel1 func func_data, r, tr) ∧
      0 ≤ sel1 ∧ sel1 < (item.length : Int) := by
  have hs : sel ≠ -1 := by omega
  simp only [w_option_input]
  rw [if_neg hs]
  by_cases hR : event = K.UI_EVENT_RIGHT
  · rw [if_pos hR, widget_list_select_next_any]
    simp only [widget_list_t.nr]
    by_cases h : sel + 1 < (item.length : Int)
    · simp only [if_pos h]
      by_cases hf : (1 : Int) ≠ 0 ∧ func ≠ 0
      · rw [if_pos hf]; exact ⟨_, _, _, rfl, by omega, h⟩
      · rw [if_neg hf]; exact ⟨_, _, _, rfl, by omega, h⟩
    · simp only [if_neg h]
      rw [if_neg (by simp)]
      exact ⟨_, _, _, rfl, h0, hlt⟩
  · rw [if_neg hR]
    by_cases hL : event = K.UI_EVENT_LEFT
    · rw [if_pos hL, widget_list_select_prev_any]
      by_cases h : 0 ≤ sel - 1
      · simp only [if_pos h]
        by_cases hf : (1 : Int) ≠ 0 ∧ func ≠ 0
        · rw [if_pos hf]; exact ⟨_, _, _, rfl, h, by omega⟩
        · rw [if_neg hf]; exact ⟨_, _, _, rfl, h, by omega⟩
      · simp only [if_neg h]
        rw [if_neg (by simp)]
        exact ⟨_, _, _, rfl, h0, hlt⟩
    · rw [if_neg hL]
      exact ⟨_, _, _, rfl, h0, hlt⟩

theorem input_all_option_cursor (K : ui_event_codes) (c : widget_common)
    (item : List widget_t) (func func_data : Nat) (events : List Int) :
    ∀ sel : Int, 0 ≤ sel → sel < (item.length : Int) →
      ∃ sel1 tr, input_all (w_option_input K) (.w_option c item sel func func_data) events
          = some (.w_option c item sel1 func func_data, tr) ∧
        0 ≤ sel1 ∧ sel1 < (item.length : Int) := by
  induction events with
  | nil => intro sel h0 hlt; exact ⟨sel, [], rfl, h0, hlt⟩
  | cons e es ih =>
    intro sel h0 hlt
    obtain ⟨sel1, r, tr, h1, h01, hlt1⟩ :=
      w_option_input_cursor K c item sel func func_data e h0 hlt
    obtain ⟨sel2, tr2, h2, h02, hlt2⟩ := ih sel1 h01 hlt1
    exact ⟨sel2, tr ++ tr2, by simp only [input_all, h1, h2], h02, hlt2⟩

/-- An option widget that holds an option has its cursor on one of its
options: after appending one or more widgets to a fresh option widget and
feeding it any events, the cursor lies in `[0, nr)`. -/
theorem w_option_cursor_reachable (font : Int → texture_t) (K : ui_event_codes)
    (func func_data : Nat) (ws : List widget_t) (events : List Int) (hne : ws ≠ []) :
    ∃ w0 c sel tr, w_option_append_all font (w_option_create func func_data) ws = some w0 ∧
      input_all (w_option_input K) w0 events = some (.w_option c ws sel func func_data, tr) ∧
      0 ≤ sel ∧ sel < (ws.length : Int) := by
  obtain ⟨width, height, happ⟩ :=
    w_option_append_all_spec font func func_data ws ⟨0, 0, 0⟩ [] (-1)
  have hlen : 0 < ws.length := List.length_pos.mpr hne
  have hsel : (if 0 < ws.length ∧ (-1 : Int) = -1 then (0 : Int) else -1) = 0 :=
    if_pos ⟨hlen, rfl⟩
  rw [List.nil_append, hsel] at happ
  obtain ⟨sel1, tr, hrun, h0, hlt⟩ :=
    input_all_option_cursor K
      ⟨if ([] : List widget_t).length < 2 ∧ 2 ≤ ([] : List widget_t).length + ws.length
        then 1 else (0 : Int), width, height⟩
      ws func func_data events 0 (le_refl 0) (by omega)
  exact ⟨_, _, sel1, tr, happ, hrun, h0, hlt⟩

/-- Claim C23 for an option widget that holds the three widgets of
`sample_choices`, with the cursor on the second. -/
theorem C23_option_render_arrows_witness :
    sample_codes.UI_EVENT_LEFT ≠ sample_codes.UI_EVENT_RIGHT ∧ (0 : Int) ≤ 1 ∧
    (1 : Int) < (sample_choices.length : Int) ∧
    ((∃ child left right, array_get sample_choices 1 = some child ∧
      w_option_render sample_font (.w_option ⟨1, 50, 22⟩ sample_choices 1 77 0) 10 20 100 30
          FOCUS_ONE
        = some [left,
            draw.render ⟨child, wrap_int (10 + text_width sample_font OPTION_ARROW_LEFT), 20,
              wrap_int (wrap_int (100 - text_width sample_font OPTION_ARROW_LEFT)
                - text_width sample_font OPTION_ARROW_RIGHT),
              30, FOCUS_ONE⟩,
            right] ∧
      left.text = some OPTION_ARROW_LEFT ∧ right.text = some OPTION_ARROW_RIGHT ∧
      (∃ w1 r tr, w_option_input sample_codes (.w_option ⟨1, 50, 22⟩ sample_choices 1 77 0)
            sample_codes.UI_EVENT_LEFT
          = some (w1, r, tr) ∧
        (left.colour = some colour_ref.col_grey ↔ w_option_get_selected w1 = some 1) ∧
        (left.colour = some colour_ref.col_grey ↔ (1 : Int) = 0)) ∧
      (∃ w1 r tr, w_option_input sample_codes (.w_option ⟨1, 50, 22⟩ sample_choices 1 77 0)
            sample_codes.UI_EVENT_RIGHT
          = some (w1, r, tr) ∧
        (right.colour = some colour_ref.col_grey ↔ w_option_get_selected w1 = some 1) ∧
        (right.colour = some colour_ref.col_grey
          ↔ (1 : Int) = (sample_choices.length : Int) - 1))) ∧
    w_option_render sample_font (.w_option ⟨1, 50, 22⟩ sample_choices (-1) 77 0) 10 20 100 30
        FOCUS_ONE
      = some [] ∧
    w_option_render sample_font (w_option_create 77 0) 10 20 100 30 FOCUS_ONE = some []) :=
  ⟨by decide, by decide, by decide,
    C23_option_render_arrows sample_font sample_codes (by decide) ⟨1, 50, 22⟩ sample_choices
      1 77 0 (by decide) (by decide) 10 20 100 30 FOCUS_ONE⟩

/-- The option widget of the example above, rendered with the cursor on the
first of its three options: the left arrow is grey, the right one is not. -/
theorem w_option_render_sample :
    w_option_render sample_font (.w_option ⟨1, 50, 22⟩ sample_choices 0 77 0) 10 20 100 30
        FOCUS_NONE
      = some [draw.text_draw_string 10 25 OPTION_ARROW_LEFT colour_ref.col_grey,
          draw.render ⟨w_text_create sample_font [65], 30, 20, 60, 30, FOCUS_NONE⟩,
          draw.text_draw_string 90 25 OPTION_ARROW_RIGHT colour_ref.col_black] := rfl

/-! ## Boxes reachable by appends and input events -/

theorem widget_list_item_has_input_iff :
    ∀ (ws : List widget_t) (n : Nat),
      widget_list_item_has_input ws n = true ↔ ∃ w, ws.get? n = some w ∧ w.has_input = true
  | [], n => by simp [widget_list_item_has_input]
  | w :: ws, 0 => by simp [widget_list_item_has_input]
  | w :: ws, n + 1 => by
    simp only [widget_list_item_has_input, List.get?_cons_succ]
    exact widget_list_item_has_input_iff ws n

theorem widget_list_item_has_input_of_get (item : List widget_t) (i : Int) (w : widget_t)
    (hget : array_get item i = some w) (hw : w.has_input = true) :
    0 ≤ i ∧ widget_list_item_has_input item i.toNat = true := by
  obtain ⟨h0, hg⟩ := array_get_toNat item i w hget
  exact ⟨h0, (widget_list_item_has_input_iff item i.toNat).mpr ⟨w, hg, hw⟩⟩

theorem cursor_valid_of_has_input (item : List widget_t) (sel : Int)
    (h : sel = -1 ∨ (0 ≤ sel ∧ widget_list_item_has_input item sel.toNat = true)) :
    cursor_valid item sel := by
  rcases h with h | ⟨h0, hin⟩
  · exact Or.inl h
  · obtain ⟨w, hg, hw⟩ := (widget_list_item_has_input_iff item sel.toNat).mp hin
    have hlt : sel.toNat < item.length := by
      by_contra hge
      rw [List.get?_eq_none.mpr (by omega)] at hg
      exact absurd hg (by simp)
    refine Or.inr ⟨h0, by omega, w, ?_, hw⟩
    unfold array_get
    rw [if_pos h0, hg]

theorem box_outcome_cursor (prev_event next_event : Int) (list : widget_list_t)
    (r event sel1 ret : Int) (h : box_outcome prev_event next_event list r event sel1 ret) :
    sel1 = list.sel ∨ list.qualifies_at 1 1 sel1 := by
  obtain ⟨h1, h2, h3, h4⟩ := h
  by_cases hr : r ≠ 0
  · exact Or.inl (h1 hr).2
  · have hr0 : r = 0 := not_not.mp hr
    by_cases hp : event = prev_event
    · rcases h2 hr0 hp with h | h
      · exact Or.inr h.2.2.2.1
      · exact Or.inl h.2.1
    · by_cases hn : event = next_event
      · rcases h3 hr0 hn with h | h
        · exact Or.inr h.2.2.2.1
        · exact Or.inl h.2.1
      · exact Or.inl (h4 hr0 hp hn).2

theorem w_hbox_input_of_child (K : ui_event_codes)
    (hLR : K.UI_EVENT_LEFT ≠ K.UI_EVENT_RIGHT)
    (c : widget_common) (item : List widget_t) (sel spacing event : Int) (h0 : 0 ≤ sel)
    (item1 : List widget_t) (r : Int) (tr : List effect) (hlen : item1.length = item.length)
    (hchild : widget_list_item_input K item sel.toNat event = some (item1, r, tr)) :
    ∃ sel1 ret, widget_input K (.w_hbox c item sel spacing) event
        = some (.w_hbox c item1 sel1 spacing, ret, tr) ∧
      box_outcome K.UI_EVENT_LEFT K.UI_EVENT_RIGHT ⟨sel, item1⟩ r event sel1 ret := by
  obtain ⟨hi, _, _, _, _, _⟩ :=
    widget_list_item_input_some K event item sel.toNat item1 r tr hchild
  have hlt : sel < (item1.length : Int) := by omega
  have hs1 : ¬ sel = -1 := by omega
  have hs2 : ¬ sel < 0 := by omega
  obtain ⟨sel1, ret, hres, hprev, hnext, hout⟩ :=
    box_outcome_of_input K.UI_EVENT_LEFT K.UI_EVENT_RIGHT hLR item1 sel r event h0 hlt
  refine ⟨sel1, ret, ?_, hout⟩
  simp only [widget_input]
  rw [if_neg hs1, if_neg hs2, hchild]
  simp only []
  by_cases hr : r ≠ 0
  · rw [if_pos hr] at hres ⊢
    simp only [Option.some.injEq, Prod.mk.injEq] at hres
    rw [← hres.1, ← hres.2]
  · rw [if_neg hr]
    have hr0 : r = 0 := not_not.mp hr
    by_cases hp : event = K.UI_EVENT_LEFT
    · rw [if_pos hp, hprev hr0 hp]
    · rw [if_neg hp]
      by_cases hn : event = K.UI_EVENT_RIGHT
      · rw [if_pos hn, hnext hr0 hp hn]
      · rw [if_neg hn]
        obtain ⟨e1, e2⟩ := hout.2.2.2 hr0 hp hn
        rw [e1, e2]

theorem cursor_after_outcome (prev_event next_event : Int) (item item1 : List widget_t)
    (sel r event sel1 ret : Int) (h0 : 0 ≤ sel)
    (hin : widget_list_item_has_input item sel.toNat = true)
    (hflags : ∀ j, widget_list_item_has_input item1 j = widget_list_item_has_input item j)
    (hout : box_outcome prev_event next_event ⟨sel, item1⟩ r event sel1 ret) :
    0 ≤ sel1 ∧ widget_list_item_has_input item1 sel1.toNat = true := by
  rcases box_outcome_cursor _ _ _ _ _ _ _ hout with h | ⟨w, hg, hq⟩
  · simp only [] at h
    rw [h, hflags]
    exact ⟨h0, hin⟩
  · exact widget_list_item_has_input_of_get item1 sel1 w hg (hq.2 (by decide))

theorem w_option_input_total (K : ui_event_codes) (c : widget_common)
    (item : List widget_t) (sel : Int) (func func_data : Nat) (event : Int) :
    ∃ sel1 r tr, w_option_input K (.w_option c item sel func func_data) event
        = some (.w_option c item sel1 func func_data, r, tr) := by
  simp only [w_option_input]
  by_cases hs : sel = -1
  · rw [if_pos hs]; exact ⟨_, _, _, rfl⟩
  rw [if_neg hs]
  by_cases hR : event = K.UI_EVENT_RIGHT
  · rw [if_pos hR, widget_list_select_next_any]
    by_cases h : sel + 1 < (⟨sel, item⟩ : widget_list_t).nr
    · simp only [if_pos h]
      by_cases hf : (1 : Int) ≠ 0 ∧ func ≠ 0
      · rw [if_pos hf]; exact ⟨_, _, _, rfl⟩
      · rw [if_neg hf]; exact ⟨_, _, _, rfl⟩
    · simp only [if_neg h]
      rw [if_neg (by simp)]
      exact ⟨_, _, _, rfl⟩
  · rw [if_neg hR]
    by_cases hL : event = K.UI_EVENT_LEFT
    · rw [if_pos hL, widget_list_select_prev_any]
      by_cases h : 0 ≤ sel - 1
      · simp only [if_pos h]
        by_cases hf : (1 : Int) ≠ 0 ∧ func ≠ 0
        · rw [if_pos hf]; exact ⟨_, _, _, rfl⟩
        · rw [if_neg hf]; exact ⟨_, _, _, rfl⟩
      · simp only [if_neg h]
        rw [if_neg (by simp)]
        exact ⟨_, _, _, rfl⟩
    · rw [if_neg hL]
      exact ⟨_, _, _, rfl⟩

mutual
theorem widget_input_safe (K : ui_event_codes) (hK : K.letter_runs)
    (hUD : K.UI_EVENT_UP ≠ K.UI_EVENT_DOWN) (hLR : K.UI_EVENT_LEFT ≠ K.UI_EVENT_RIGHT)
    (event : Int) :
    ∀ w : widget_t, w.input_safe → w.has_input = true →
      ∃ w1 r tr, widget_input K w event = some (w1, r, tr) ∧ w1.input_safe ∧
        w1.has_input = true
  | .w_text _ _ _, _, hi => by simp [widget_t.has_input] at hi
  | .w_image _ _, _, hi => by simp [widget_t.has_input] at hi
  | .w_action c child func func_data, _, _ => by
    simp only [widget_input, w_action_input]
    split_ifs <;> exact ⟨_, _, _, rfl, trivial, rfl⟩
  | .w_option c item sel func func_data, _, _ => by
    obtain ⟨sel1, r, tr, hres⟩ := w_option_input_total K c item sel func func_data event
    refine ⟨.w_option c item sel1 func func_data, r, tr, ?_, ?_, rfl⟩
    · simpa only [widget_input] using hres
    · simp only [widget_t.input_safe]
  | .w_entry c text max_len cursor_pos, hs, _ => by
    obtain ⟨w1, r, tr, hres, hs1⟩ :=
      w_entry_input_sound K hK (.w_entry c text max_len cursor_pos) event hs
    refine ⟨w1, r, tr, by simpa only [widget_input] using hres, ?_, ?_⟩
    · cases w1 with
      | w_entry c1 text1 max_len1 cursor_pos1 => exact hs1
      | w_text _ _ _ => exact absurd hs1 (by simp [widget_t.entry_sound])
      | w_image _ _ => exact absurd hs1 (by simp [widget_t.entry_sound])
      | w_action _ _ _ _ => exact absurd hs1 (by simp [widget_t.entry_sound])
      | w_option _ _ _ _ _ => exact absurd hs1 (by simp [widget_t.entry_sound])
      | w_vbox _ _ _ _ => exact absurd hs1 (by simp [widget_t.entry_sound])
      | w_hbox _ _ _ _ => exact absurd hs1 (by simp [widget_t.entry_sound])
    · cases w1 with
      | w_entry c1 text1 max_len1 cursor_pos1 => rfl
      | w_text _ _ _ => exact absurd hs1 (by simp [widget_t.entry_sound])
      | w_image _ _ => exact absurd hs1 (by simp [widget_t.entry_sound])
      | w_action _ _ _ _ => exact absurd hs1 (by simp [widget_t.entry_sound])
      | w_option _ _ _ _ _ => exact absurd hs1 (by simp [widget_t.entry_sound])
      | w_vbox _ _ _ _ => exact absurd hs1 (by simp [widget_t.entry_sound])
      | w_hbox _ _ _ _ => exact absurd hs1 (by simp [widget_t.entry_sound])
  | .w_vbox c item sel spacing, hs, _ => by
    obtain ⟨hl, hsel⟩ := hs
    by_cases hm : sel = -1
    · refine ⟨.w_vbox c item sel spacing, 0, [], ?_, ⟨hl, hsel⟩, rfl⟩
      simp only [widget_input]
      rw [if_pos hm]
    · rcases hsel with hsel | ⟨h0, hin⟩
      · exact absurd hsel hm
      · obtain ⟨item1, r, tr, hchild, hl1, hlen1, hflags⟩ :=
          widget_list_item_input_safe K hK hUD hLR event item sel.toNat hl hin
        obtain ⟨sel1, ret, hres, hout⟩ :=
          w_vbox_input_of_child K hUD c item sel spacing event h0 item1 r tr hlen1 hchild
        exact ⟨_, ret, tr, hres,
          ⟨hl1, Or.inr (cursor_after_outcome _ _ item item1 sel r event sel1 ret h0 hin
            hflags hout)⟩, rfl⟩
  | .w_hbox c item sel spacing, hs, _ => by
    obtain ⟨hl, hsel⟩ := hs
    by_cases hm : sel = -1
    · refine ⟨.w_hbox c item sel spacing, 0, [], ?_, ⟨hl, hsel⟩, rfl⟩
      simp only [widget_input]
      rw [if_pos hm]
    · rcases hsel with hsel | ⟨h0, hin⟩
      · exact absurd hsel hm
      · obtain ⟨item1, r, tr, hchild, hl1, hlen1, hflags⟩ :=
          widget_list_item_input_safe K hK hUD hLR event item sel.toNat hl hin
        obtain ⟨sel1, ret, hres, hout⟩ :=
          w_hbox_input_of_child K hLR c item sel spacing event h0 item1 r tr hlen1 hchild
        exact ⟨_, ret, tr, hres,
          ⟨hl1, Or.inr (cursor_after_outcome _ _ item item1 sel r event sel1 ret h0 hin
            hflags hout)⟩, rfl⟩
theorem widget_list_item_input_safe (K : ui_event_codes) (hK : K.letter_runs)
    (hUD : K.UI_EVENT_UP ≠ K.UI_EVENT_DOWN) (hLR : K.UI_EVENT_LEFT ≠ K.UI_EVENT_RIGHT)
    (event : Int) :
    ∀ (ws : List widget_t) (i : Nat), widget_list_input_safe ws →
      widget_list_item_has_input ws i = true →
      ∃ ws1 r tr, widget_list_item_input K ws i event = some (ws1, r, tr) ∧
        widget_list_input_safe ws1 ∧ ws1.length = ws.length ∧
        ∀ j, widget_list_item_has_input ws1 j = widget_list_item_has_input ws j
  | [], _, _, hin => by simp [widget_list_item_has_input] at hin
  | w :: ws, 0, hs, hin => by
    obtain ⟨hw, hws⟩ := hs
    simp only [widget_list_item_has_input] at hin
    obtain ⟨w1, r, tr, hres, hs1, hi1⟩ := widget_input_safe K hK hUD hLR event w hw hin
    refine ⟨w1 :: ws, r, effect.input w event :: tr, ?_, ⟨hs1, hws⟩, rfl, ?_⟩
    · simp only [widget_list_item_input, hres]
    · intro j
      cases j with
      | zero => simp only [widget_list_item_has_input, hi1, hin]
      | succ j => simp only [widget_list_item_has_input]
  | w :: ws, i + 1, hs, hin => by
    obtain ⟨hw, hws⟩ := hs
    simp only [widget_list_item_has_input] at hin
    obtain ⟨ws1, r, tr, hres, hs1, hlen, hflags⟩ :=
      widget_list_item_input_safe K hK hUD hLR event ws i hws hin
    refine ⟨w :: ws1, r, tr, ?_, ⟨hw, hs1⟩, by simp only [List.length_cons, hlen], ?_⟩
    · simp only [widget_list_item_input, hres]
    · intro j
      cases j with
      | zero => simp only [widget_list_item_has_input]
      | succ j => simp only [widget_list_item_has_input, hflags]
end
theorem widget_list_input_safe_append (w : widget_t) (hw : w.input_safe) :
    ∀ item : List widget_t, widget_list_input_safe item →
      widget_list_input_safe (item ++ [w])
  | [], _ => ⟨hw, trivial⟩
  | _ :: xs, h => ⟨h.1, widget_list_input_safe_append w hw xs h.2⟩

theorem widget_list_item_has_input_append (item : List widget_t) (w : widget_t) (n : Nat)
    (h : widget_list_item_has_input item n = true) :
    widget_list_item_has_input (item ++ [w]) n = true := by
  obtain ⟨x, hg, hx⟩ := (widget_list_item_has_input_iff item n).mp h
  refine (widget_list_item_has_input_iff _ n).mpr ⟨x, ?_, hx⟩
  have hlt : n < item.length := by
    by_contra hge
    rw [List.get?_eq_none.mpr (by omega)] at hg
    exact absurd hg (by simp)
  rw [List.get?_eq_getElem?] at hg ⊢
  rw [List.getElem?_append_left hlt, hg]

theorem widget_list_item_has_input_last (item : List widget_t) (w : widget_t)
    (hw : w.has_input = true) :
    widget_list_item_has_input (item ++ [w]) item.length = true := by
  refine (widget_list_item_has_input_iff _ _).mpr ⟨w, ?_, hw⟩
  simp

theorem w_vbox_append_safe (c : widget_common) (item : List widget_t) (sel spacing : Int)
    (w : widget_t) (hbox : (widget_t.w_vbox c item sel spacing).input_safe)
    (hw : w.input_safe) :
    ∃ c1 sel1, w_vbox_append (.w_vbox c item sel spacing) w
        = some (.w_vbox c1 (item ++ [w]) sel1 spacing) ∧
      (widget_t.w_vbox c1 (item ++ [w]) sel1 spacing).input_safe := by
  obtain ⟨hl, hsel⟩ := hbox
  have hl1 := widget_list_input_safe_append w hw item hl
  have hold : sel = -1 ∨ (0 ≤ sel ∧ widget_list_item_has_input (item ++ [w]) sel.toNat = true) := by
    rcases hsel with h | ⟨h0, hin⟩
    · exact Or.inl h
    · exact Or.inr ⟨h0, widget_list_item_has_input_append item w _ hin⟩
  simp only [w_vbox_append, widget_list_append, widget_list_t.nr]
  by_cases hq : w.enabled ≠ 0 ∧ w.has_input = true
  · rw [if_pos hq]
    refine ⟨_, _, rfl, hl1, ?_⟩
    by_cases hm : sel = -1
    · rw [if_pos hm]
      right
      have hidx : (((item ++ [w]).length : Int) - 1).toNat = item.length := by
        simp only [List.length_append, List.length_singleton]; omega
      rw [hidx]
      refine ⟨?_, widget_list_item_has_input_last item w hq.2⟩
      simp only [List.length_append, List.length_singleton]; omega
    · rw [if_neg hm]; exact hold
  · rw [if_neg hq]
    exact ⟨_, _, rfl, hl1, hold⟩

theorem w_hbox_append_safe (c : widget_common) (item : List widget_t) (sel spacing : Int)
    (w : widget_t) (hbox : (widget_t.w_hbox c item sel spacing).input_safe)
    (hw : w.input_safe) :
    ∃ c1 sel1, w_hbox_append (.w_hbox c item sel spacing) w
        = some (.w_hbox c1 (item ++ [w]) sel1 spacing) ∧
      (widget_t.w_hbox c1 (item ++ [w]) sel1 spacing).input_safe := by
  obtain ⟨hl, hsel⟩ := hbox
  have hl1 := widget_list_input_safe_append w hw item hl
  have hold : sel = -1 ∨ (0 ≤ sel ∧ widget_list_item_has_input (item ++ [w]) sel.toNat = true) := by
    rcases hsel with h | ⟨h0, hin⟩
    · exact Or.inl h
    · exact Or.inr ⟨h0, widget_list_item_has_input_append item w _ hin⟩
  simp only [w_hbox_append, widget_list_append, widget_list_t.nr]
  by_cases hq : w.enabled ≠ 0 ∧ w.has_input = true
  · rw [if_pos hq]
    refine ⟨_, _, rfl, hl1, ?_⟩
    by_cases hm : sel = -1
    · rw [if_pos hm]
      right
      have hidx : (((item ++ [w]).length : Int) - 1).toNat = item.length := by
        simp only [List.length_append, List.length_singleton]; omega
      rw [hidx]
      refine ⟨?_, widget_list_item_has_input_last item w hq.2⟩
      simp only [List.length_append, List.length_singleton]; omega
    · rw [if_neg hm]; exact hold
  · rw [if_neg hq]
    exact ⟨_, _, rfl, hl1, hold⟩

theorem w_vbox_input_safe (K : ui_event_codes) (hK : K.letter_runs)
    (hUD : K.UI_EVENT_UP ≠ K.UI_EVENT_DOWN) (hLR : K.UI_EVENT_LEFT ≠ K.UI_EVENT_RIGHT)
    (event : Int) (c : widget_common) (item : List widget_t) (sel spacing : Int)
    (hs : (widget_t.w_vbox c item sel spacing).input_safe) :
    ∃ item1 sel1 r tr, widget_input K (.w_vbox c item sel spacing) event
        = some (.w_vbox c item1 sel1 spacing, r, tr) ∧
      (widget_t.w_vbox c item1 sel1 spacing).input_safe ∧ item1.length = item.length := by
  obtain ⟨hl, hsel⟩ := hs
  by_cases hm : sel = -1
  · refine ⟨item, sel, 0, [], ?_, ⟨hl, hsel⟩, rfl⟩
    simp only [widget_input]
    rw [if_pos hm]
  · rcases hsel with hsel | ⟨h0, hin⟩
    · exact absurd hsel hm
    · obtain ⟨item1, r, tr, hchild, hl1, hlen1, hflags⟩ :=
        widget_list_item_input_safe K hK hUD hLR event item sel.toNat hl hin
      obtain ⟨sel1, ret, hres, hout⟩ :=
        w_vbox_input_of_child K hUD c item sel spacing event h0 item1 r tr hlen1 hchild
      exact ⟨item1, sel1, ret, tr, hres,
        ⟨hl1, Or.inr (cursor_after_outcome _ _ item item1 sel r event sel1 ret h0 hin
          hflags hout)⟩, hlen1⟩

theorem w_hbox_input_safe (K : ui_event_codes) (hK : K.letter_runs)
    (hUD : K.UI_EVENT_UP ≠ K.UI_EVENT_DOWN) (hLR : K.UI_EVENT_LEFT ≠ K.UI_EVENT_RIGHT)
    (event : Int) (c : widget_common) (item : List widget_t) (sel spacing : Int)
    (hs : (widget_t.w_hbox c item sel spacing).input_safe) :
    ∃ item1 sel1 r tr, widget_input K (.w_hbox c item sel spacing) event
        = some (.w_hbox c item1 sel1 spacing, r, tr) ∧
      (widget_t.w_hbox c item1 sel1 spacing).input_safe ∧ item1.length = item.length := by
  obtain ⟨hl, hsel⟩ := hs
  by_cases hm : sel = -1
  · refine ⟨item, sel, 0, [], ?_, ⟨hl, hsel⟩, rfl⟩
    simp only [widget_input]
    rw [if_pos hm]
  · rcases hsel with hsel | ⟨h0, hin⟩
    · exact absurd hsel hm
    · obtain ⟨item1, r, tr, hchild, hl1, hlen1, hflags⟩ :=
        widget_list_item_input_safe K hK hUD hLR event item sel.toNat hl hin
      obtain ⟨sel1, ret, hres, hout⟩ :=
        w_hbox_input_of_child K hLR c item sel spacing event h0 item1 r tr hlen1 hchild
      exact ⟨item1, sel1, ret, tr, hres,
        ⟨hl1, Or.inr (cursor_after_outcome _ _ item item1 sel r event sel1 ret h0 hin
          hflags hout)⟩, hlen1⟩

theorem box_run_vbox_safe (K : ui_event_codes) (hK : K.letter_runs)
    (hUD : K.UI_EVENT_UP ≠ K.UI_EVENT_DOWN) (hLR : K.UI_EVENT_LEFT ≠ K.UI_EVENT_RIGHT)
    (spacing : Int) (ops : List box_op) :
    (∀ op ∈ ops, ∀ w ∈ op.appended, w.input_safe) →
    ∀ (c : widget_common) (item : List widget_t) (sel : Int),
      (widget_t.w_vbox c item sel spacing).input_safe →
      ∃ c1 item1 sel1, box_run (w_vbox_step K) (.w_vbox c item sel spacing) ops
          = some (.w_vbox c1 item1 sel1 spacing) ∧
        (widget_t.w_vbox c1 item1 sel1 spacing).input_safe := by
  induction ops with
  | nil => intro _ c item sel hs; exact ⟨c, item, sel, rfl, hs⟩
  | cons op ops ih =>
    intro hops c item sel hs
    have hrest : ∀ op1 ∈ ops, ∀ w ∈ op1.appended, w.input_safe :=
      fun op1 h1 => hops op1 (List.mem_cons_of_mem _ h1)
    cases op with
    | op_append w =>
      have hw : w.input_safe :=
        hops (.op_append w) (List.mem_cons_self _ _) w (by simp [box_op.appended])
      obtain ⟨c1, sel1, happ, hs1⟩ := w_vbox_append_safe c item sel spacing w hs hw
      obtain ⟨c2, item2, sel2, hrun, hs2⟩ := ih hrest c1 (item ++ [w]) sel1 hs1
      refine ⟨c2, item2, sel2, ?_, hs2⟩
      simp only [box_run, w_vbox_step, happ, hrun]
    | op_input event =>
      obtain ⟨item1, sel1, r, tr, hres, hs1, _⟩ :=
        w_vbox_input_safe K hK hUD hLR event c item sel spacing hs
      obtain ⟨c2, item2, sel2, hrun, hs2⟩ := ih hrest c item1 sel1 hs1
      refine ⟨c2, item2, sel2, ?_, hs2⟩
      simp only [box_run, w_vbox_step, hres, hrun]

theorem box_run_hbox_safe (K : ui_event_codes) (hK : K.letter_runs)
    (hUD : K.UI_EVENT_UP ≠ K.UI_EVENT_DOWN) (hLR : K.UI_EVENT_LEFT ≠ K.UI_EVENT_RIGHT)
    (spacing : Int) (ops : List box_op) :
    (∀ op ∈ ops, ∀ w ∈ op.appended, w.input_safe) →
    ∀ (c : widget_common) (item : List widget_t) (sel : Int),
      (widget_t.w_hbox c item sel spacing).input_safe →
      ∃ c1 item1 sel1, box_run (w_hbox_step K) (.w_hbox c item sel spacing) ops
          = some (.w_hbox c1 item1 sel1 spacing) ∧
        (widget_t.w_hbox c1 item1 sel1 spacing).input_safe := by
  induction ops with
  | nil => intro _ c item sel hs; exact ⟨c, item, sel, rfl, hs⟩
  | cons op ops ih =>
    intro hops c item sel hs
    have hrest : ∀ op1 ∈ ops, ∀ w ∈ op1.appended, w.input_safe :=
      fun op1 h1 => hops op1 (List.mem_cons_of_mem _ h1)
    cases op with
    | op_append w =>
      have hw : w.input_safe :=
        hops (.op_append w) (List.mem_cons_self _ _) w (by simp [box_op.appended])
      obtain ⟨c1, sel1, happ, hs1⟩ := w_hbox_append_safe c item sel spacing w hs hw
      obtain ⟨c2, item2, sel2, hrun, hs2⟩ := ih hrest c1 (item ++ [w]) sel1 hs1
      refine ⟨c2, item2, sel2, ?_, hs2⟩
      simp only [box_run, w_hbox_step, happ, hrun]
    | op_input event =>
      obtain ⟨item1, sel1, r, tr, hres, hs1, _⟩ :=
        w_hbox_input_safe K hK hUD hLR event c item sel spacing hs
      obtain ⟨c2, item2, sel2, hrun, hs2⟩ := ih hrest c item1 sel1 hs1
      refine ⟨c2, item2, sel2, ?_, hs2⟩
      simp only [box_run, w_hbox_step, hres, hrun]

/-- Claim C27. Take a fresh vbox or hbox and any sequence of appends and input
events, the appended widgets being trees in which every input handler can run
(`input_safe`). Every operation of the sequence returns: no input handler of
the box indexes outside its list or calls a handler that is absent. In the box
that results, the cursor is -1 or an index in `[0, nr)` whose widget has an
input handler (`cursor_valid`), and the input handler of the box returns for
every further event. -/
theorem C27_box_cursor_safe (K : ui_event_codes) (hK : K.letter_runs)
    (hUD : K.UI_EVENT_UP ≠ K.UI_EVENT_DOWN) (hLR : K.UI_EVENT_LEFT ≠ K.UI_EVENT_RIGHT)
    (spacing : Int) (ops : List box_op)
    (hops : ∀ op ∈ ops, ∀ w ∈ op.appended, w.input_safe) :
    (∃ c item sel, box_run (w_vbox_step K) (w_vbox_create spacing) ops
        = some (.w_vbox c item sel spacing) ∧
      cursor_valid item sel ∧
      ∀ event : Int, ∃ item1 sel1 r tr,
        widget_input K (.w_vbox c item sel spacing) event
          = some (.w_vbox c item1 sel1 spacing, r, tr) ∧ cursor_valid item1 sel1) ∧
    (∃ c item sel, box_run (w_hbox_step K) (w_hbox_create spacing) ops
        = some (.w_hbox c item sel spacing) ∧
      cursor_valid item sel ∧
      ∀ event : Int, ∃ item1 sel1 r tr,
        widget_input K (.w_hbox c item sel spacing) event
          = some (.w_hbox c item1 sel1 spacing, r, tr) ∧ cursor_valid item1 sel1) := by
  constructor
  · obtain ⟨c, item, sel, hrun, hs⟩ :=
      box_run_vbox_safe K hK hUD hLR spacing ops hops ⟨0, 0, 0⟩ [] (-1)
        ⟨trivial, Or.inl rfl⟩
    refine ⟨c, item, sel, hrun, cursor_valid_of_has_input item sel hs.2, ?_⟩
    intro event
    obtain ⟨item1, sel1, r, tr, hres, hs1, _⟩ :=
      w_vbox_input_safe K hK hUD hLR event c item sel spacing hs
    exact ⟨item1, sel1, r, tr, hres, cursor_valid_of_has_input item1 sel1 hs1.2⟩
  · obtain ⟨c, item, sel, hrun, hs⟩ :=
      box_run_hbox_safe K hK hUD hLR spacing ops hops ⟨0, 0, 0⟩ [] (-1)
        ⟨trivial, Or.inl rfl⟩
    refine ⟨c, item, sel, hrun, cursor_valid_of_has_input item sel hs.2, ?_⟩
    intro event
    obtain ⟨item1, sel1, r, tr, hres, hs1, _⟩ :=
      w_hbox_input_safe K hK hUD hLR event c item sel spacing hs
    exact ⟨item1, sel1, r, tr, hres, cursor_valid_of_has_input item1 sel1 hs1.2⟩
theorem sample_box_ops_safe : ∀ op ∈ sample_box_ops, ∀ w ∈ op.appended, w.input_safe := by
  intro op hop w hw
  simp only [sample_box_ops, List.mem_cons, List.mem_singleton, List.not_mem_nil,
    or_false] at hop
  rcases hop with h | h | h | h | h | h | h | h | h | h | h
  all_goals
    rw [h] at hw
    simp only [box_op.appended, List.mem_singleton, List.not_mem_nil] at hw
  · rw [hw]; exact trivial
  · rw [hw]; exact trivial
  · rw [hw]; exact sample_entry_sound
  · rw [hw]; exact trivial
/-- Claim C27 for the operations of `sample_box_ops` on a box with spacing
2. -/
theorem C27_box_cursor_safe_witness :
    sample_codes.letter_runs ∧ sample_codes.UI_EVENT_UP ≠ sample_codes.UI_EVENT_DOWN ∧
    sample_codes.UI_EVENT_LEFT ≠ sample_codes.UI_EVENT_RIGHT ∧
    (∀ op ∈ sample_box_ops, ∀ w ∈ op.appended, w.input_safe) ∧
    ((∃ c item sel, box_run (w_vbox_step sample_codes) (w_vbox_create 2) sample_box_ops
        = some (.w_vbox c item sel 2) ∧
      cursor_valid item sel ∧
      ∀ event : Int, ∃ item1 sel1 r tr,
        widget_input sample_codes (.w_vbox c item sel 2) event
          = some (.w_vbox c item1 sel1 2, r, tr) ∧ cursor_valid item1 sel1) ∧
    (∃ c item sel, box_run (w_hbox_step sample_codes) (w_hbox_create 2) sample_box_ops
        = some (.w_hbox c item sel 2) ∧
      cursor_valid item sel ∧
      ∀ event : Int, ∃ item1 sel1 r tr,
        widget_input sample_codes (.w_hbox c item sel 2) event
          = some (.w_hbox c item1 sel1 2, r, tr) ∧ cursor_valid item1 sel1)) :=
  ⟨by unfold ui_event_codes.letter_runs; decide, by decide, by decide, sample_box_ops_safe,
    C27_box_cursor_safe sample_codes (by unfold ui_event_codes.letter_runs; decide)
      (by decide) (by decide) 2 sample_box_ops sample_box_ops_safe⟩

/-! ## Gameplay input -/

theorem GetMove_body_queue (S : sdl_codes) (K : ui_event_codes) (G : game_key_codes)
    (selector : Int) (system_dialog ingame_dialog : Nat) (s s2 : game_state)
    (event : SDL_Event) (retval r : Int)
    (h : GetMove_body S K G selector system_dialog ingame_dialog s event retval
      = some (s2, r)) :
    s2.queue = s.queue := by
  unfold GetMove_body at h
  simp only [] at h
  cases hc : dialog_current s.dialogs with
  | none => rw [hc] at h; exact absurd h (by simp)
  | some dialog =>
    rw [hc] at h
    simp only [] at h
    by_cases hd : dialog ≠ 0
    · rw [if_pos hd] at h
      cases hi : dialog_input K s.dialogs (convert_event S K event) with
      | none => rw [hi] at h; exact absurd h (by simp)
      | some dialogs => rw [hi] at h; cases h; rfl
    · rw [if_neg hd] at h
      by_cases h1 : convert_event S K event = K.UI_EVENT_LEFT
      · rw [if_pos h1] at h; cases h; rfl
      rw [if_neg h1] at h
      by_cases h2 : convert_event S K event = K.UI_EVENT_RIGHT
      · rw [if_pos h2] at h; cases h; rfl
      rw [if_neg h2] at h
      by_cases h3 : convert_event S K event = K.UI_EVENT_UP
      · rw [if_pos h3] at h; cases h; rfl
      rw [if_neg h3] at h
      by_cases h4 : convert_event S K event = K.UI_EVENT_DOWN
      · rw [if_pos h4] at h; cases h; rfl
      rw [if_neg h4] at h
      by_cases h5 : convert_event S K event = K.UI_EVENT_ACTION
      · rw [if_pos h5] at h; cases h; rfl
      rw [if_neg h5] at h
      by_cases h6 : convert_event S K event = K.UI_EVENT_ESCAPE
      · rw [if_pos h6] at h
        cases ho : dialog_open s.dialogs system_dialog with
        | none => rw [ho] at h; exact absurd h (by simp)
        | some dialogs => rw [ho] at h; cases h; rfl
      rw [if_neg h6] at h
      by_cases h7 : convert_event S K event = G.UI_EVENT_CHAR_g ∨
          convert_event S K event = K.UI_EVENT_EXTRA3
      · rw [if_pos h7] at h
        cases ho : dialog_open s.dialogs ingame_dialog with
        | none => rw [ho] at h; exact absurd h (by simp)
        | some dialogs => rw [ho] at h; cases h; rfl
      rw [if_neg h7] at h
      by_cases h8 : convert_event S K event = G.UI_EVENT_CHAR_p
      · rw [if_pos h8] at h; cases h; rfl
      rw [if_neg h8] at h
      by_cases h9 : convert_event S K event = G.UI_EVENT_CHAR_n
      · rw [if_pos h9] at h; cases h; rfl
      rw [if_neg h9] at h
      by_cases h10 : convert_event S K event = G.UI_EVENT_CHAR_u
      · rw [if_pos h10] at h; cases h; rfl
      rw [if_neg h10] at h
      by_cases h11 : convert_event S K event = G.UI_EVENT_CHAR_f
      · rw [if_pos h11] at h; cases h; rfl
      rw [if_neg h11] at h
      cases h; rfl

/-- With the left control key not held, a call of `GetMove` that returns has
taken exactly one event off the queue, if one was pending: the queue
afterwards is the tail of the queue before. -/
theorem GetMove_queue (S : sdl_codes) (K : ui_event_codes) (G : game_key_codes)
    (keystate : keystate_t) (selector : Int) (system_dialog ingame_dialog : Nat)
    (s s2 : game_state) (r : Int) (hctrl : keystate.SDLK_LCTRL = false)
    (h : GetMove S K G keystate selector system_dialog ingame_dialog s = some (r, s2)) :
    s2.queue = s.queue.tail := by
  unfold GetMove at h
  simp only [hctrl, Bool.false_eq_true, if_false] at h
  cases hq : s.queue with
  | nil =>
    rw [hq] at h
    simp only [SDL_PollEvent] at h
    cases h
    exact hq
  | cons event rest =>
    rw [hq] at h
    simp only [SDL_PollEvent] at h
    cases hb : GetMove_body S K G selector system_dialog ingame_dialog
        { s with queue := rest } event (-1) with
    | none => rw [hb] at h; exact absurd h (by simp)
    | some res =>
      obtain ⟨s3, r3⟩ := res
      rw [hb] at h
      have := GetMove_body_queue S K G selector system_dialog ingame_dialog _ s3 event _ r3 hb
      cases h
      rw [this]
      rfl

/-- Claim C24, at a queue of two events: with no dialog open, the left control
key not held and two key-down events of the left arrow key pending, one call
of `GetMove` returns -1 after moving the selector once; the second event is
still in the queue. -/
theorem C24_GetMove_two_events :
    ∃ s, GetMove sample_sdl sample_codes sample_game_keys sample_keystate 0 29 30 sample_game
        = some (-1, s) ∧
      s.calls = [game_call.move_selector selector_dir.SELECTOR_LEFT] ∧
      s.queue = [sample_left_event] ∧ s.queue ≠ [] :=
  ⟨_, rfl, rfl, rfl, by simp⟩

/-! ## Selecting a move -/

/-- Claim C26, on `sample_board` with the board flipped (the player has the
black pieces, black to move). The selection 11 stands for square 52, a black
pawn, and is stored as source 52. The next selection 12 stands for square 51,
another black pawn, so the player selects a new source; `poll_move` stores 12,
the selection as it came, not square 51. Square 12 is empty: the stored source
is not negative and holds no piece of the player to move. -/
theorem C26_poll_move_flipped :
    poll_move sample_board_codes ⟨-1, -1, 0⟩ (sample_poll_input 11)
      = some (⟨52, -1, 0⟩, [game_call.draw_scene]) ∧
    source_valid sample_board_codes sample_board 52 ∧
    poll_move sample_board_codes ⟨52, -1, 0⟩ (sample_poll_input 12)
      = some (⟨12, -1, 0⟩, [game_call.draw_scene]) ∧
    array_get sample_board.square 51 = some sample_board_codes.BLACK_PAWN ∧
    array_get sample_board.square 12 = some sample_board_codes.NONE ∧
    ¬ source_valid sample_board_codes sample_board 12 := by
  refine ⟨rfl, ?_, rfl, rfl, rfl, ?_⟩
  · intro _
    exact ⟨by decide, 1, rfl, by decide, by decide⟩
  · intro h
    obtain ⟨_, piece, hget, hpiece, _⟩ := h (by decide)
    have h12 : array_get sample_board.square 12 = some 12 := rfl
    rw [h12] at hget
    have h1 : piece = 12 := (Option.some.inj hget).symm
    rw [h1] at hpiece
    exact hpiece (by decide)

/-- With the board not flipped, `poll_move` keeps the stored source square
valid: for a selection from -1 to 63 on a board of 64 squares, a call in a
state whose source is -1 or valid returns, and the source afterwards is -1 or
valid on the same board. -/
theorem poll_move_source_unflipped (B : board_codes) (s : poll_state) (i : poll_input)
    (hflip : i.flip_board = 0) (hlo : -1 ≤ i.input) (hhi : i.input ≤ 63)
    (hlen : i.board.square.length = 64) (hmin : -1 ≤ s.source)
    (hs : source_valid B i.board s.source) :
    ∃ s1 calls, poll_move B s i = some (s1, calls) ∧ -1 ≤ s1.source ∧
      source_valid B i.board s1.source := by
  have hnone : source_valid B i.board (-1) := fun h => absurd h (by decide)
  have hread : ∀ k : Int, 0 ≤ k → k ≤ 63 → ∃ piece, array_get i.board.square k = some piece := by
    intro k h0 h63
    obtain ⟨n, hn⟩ := Int.eq_ofNat_of_zero_le h0
    have hlt : n < i.board.square.length := by omega
    exact ⟨_, by rw [hn]; exact array_get_of_lt _ n hlt⟩
  unfold poll_move
  by_cases hq : i.quit_to_menu ≠ 0
  · rw [if_pos hq]
    exact ⟨_, _, rfl, by decide, hnone⟩
  rw [if_neg hq]
  obtain ⟨s0, hs0, hmin0, hv0⟩ : ∃ s0 : poll_state,
      s0 = (if i.want_move = 0 then (⟨-1, -1, 0⟩ : poll_state) else s) ∧ -1 ≤ s0.source ∧
      source_valid B i.board s0.source := by
    by_cases hw : i.want_move = 0
    · exact ⟨_, rfl, by rw [if_pos hw], by rw [if_pos hw]; exact hnone⟩
    · exact ⟨_, rfl, by rw [if_neg hw]; exact hmin, by rw [if_neg hw]; exact hs⟩
  simp only []
  rw [← hs0]
  have hnf : ¬ (i.input ≥ 0 ∧ i.flip_board ≠ 0) := fun h => h.2 hflip
  have hnf1 : ¬ (i.flip_board ≠ 0) := fun h => h hflip
  by_cases h1 : s0.source = -1
  · rw [if_pos h1, if_neg hnf]
    by_cases hi0 : i.input ≥ 0
    · rw [if_pos hi0]
      obtain ⟨piece, hp⟩ := hread i.input hi0 hhi
      rw [hp]
      simp only []
      by_cases hc : B.PIECE piece = B.NONE ∨ B.COLOUR piece ≠ i.board.turn
      · rw [if_pos hc]
        exact ⟨_, _, rfl, le_refl _, hnone⟩
      · rw [if_neg hc]
        refine ⟨_, _, rfl, by simp only []; omega, ?_⟩
        intro _
        refine ⟨hhi, piece, hp, ?_, ?_⟩
        · intro h; exact hc (Or.inl h)
        · by_contra h; exact hc (Or.inr h)
    · rw [if_neg hi0]
      refine ⟨_, _, rfl, hlo, ?_⟩
      intro h
      exact absurd h hi0
  rw [if_neg h1]
  by_cases h2 : s0.dest = -1
  · rw [if_pos h2]
    by_cases hi0 : i.input ≥ 0
    · rw [if_pos hi0, if_neg hnf1]
      obtain ⟨piece, hp⟩ := hread i.input hi0 hhi
      rw [hp]
      simp only []
      by_cases hc : B.PIECE piece ≠ B.NONE ∧ B.COLOUR piece = i.board.turn
      · rw [if_pos hc]
        refine ⟨_, _, rfl, hlo, ?_⟩
        intro _
        exact ⟨hhi, piece, hp, hc.1, hc.2⟩
      · rw [if_neg hc]
        exact ⟨_, _, rfl, hmin0, hv0⟩
    · rw [if_neg hi0]
      exact ⟨_, _, rfl, hmin0, hv0⟩
  rw [if_neg h2]
  by_cases h3 : s0.needprom = 1
  · rw [if_pos h3]
    by_cases hp : i.dialog_promote_piece ≠ B.NONE
    · rw [if_pos hp]
      exact ⟨_, _, rfl, hmin0, hv0⟩
    · rw [if_neg hp]
      exact ⟨_, _, rfl, hmin0, hv0⟩
  rw [if_neg h3]
  have hread1 : ∃ piece, (if s0.needprom = 0 then array_get i.board.square s0.source
      else some 0) = some piece := by
    by_cases h4 : s0.needprom = 0
    · rw [if_pos h4]
      have hge : s0.source ≥ 0 := by omega
      obtain ⟨h63, piece, hp, _⟩ := hv0 hge
      exact ⟨piece, hp⟩
    · rw [if_neg h4]
      exact ⟨0, rfl⟩
  obtain ⟨piece, hp⟩ := hread1
  rw [hp]
  simp only []
  by_cases h5 : s0.needprom = 0 ∧
      ((piece = B.WHITE_PAWN ∧ s0.dest ≥ 56) ∨ (piece = B.BLACK_PAWN ∧ s0.dest ≤ 7))
  · rw [if_pos h5]
    exact ⟨_, _, rfl, hmin0, hv0⟩
  · rw [if_neg h5]
    exact ⟨_, _, rfl, by decide, hnone⟩

end DreamChess
